import Mathlib

/-!
# FreehandSculpterMouseTool: the sculpting engine

A shallow embedding of the contour-sculpting methods of
`src/tools/FreehandSculpterMouseTool.js` (`_sculpt`, `_pushHandles`,
`_pushOneHandle`, `_insertNewHandles`, `_findNewHandleIndicies`,
`_checkSpacing`, `_insertHandleRadially`, `_consolidateHandles`,
`_findCloseHandlePairs`, `_mergeCloseHandles`, `_combineHandles`,
`_getCorrectedPair`, the three index helpers and `_getInsertPosition`).

Conventions of the embedding.

* The private methods `_name` of the class are embedded as `name` in the
  namespace `FreehandSculpterMouseTool` (a leading underscore marks a name as
  internal in Lean).
* Numbers: the embedding is parametric in the number type `K` and in its
  operations (`+ - * /`, `<`, `max`, `min`, the literals `0` and `2`).  The
  theorems are proved for exact arithmetic, that is for every linearly ordered
  field `K` (for instance the rationals or the reals).
* `external.cornerstoneMath.point.distance` belongs to a third-party library;
  it is the parameter `dist` of every definition that calls it.  Where a
  property needs it to be the Euclidean distance this is the hypothesis
  `IsEuclidean dist`.  The concrete evaluations use `euclideanDistance`, over
  the reals with `Real.sqrt`, or over the rationals with `Rat.sqrt` on inputs
  whose distances are all rational (`Rat.sqrt` is exact on squares).
* The array `this._sculptData.points` is mutated in place by the source; here
  it is threaded explicitly: every method takes the current list of handles
  and returns the new one.  The other fields of `this._sculptData` are never
  written after `_sculpt` has built them; they form the record `SculptData`.
* Handles are objects and `handle.lines` holds references to handle objects.
  Every handle carries an identity `id`, and `lines` is the list of the
  identities it refers to.
* Array indices are JavaScript numbers, hence integers that may be negative:
  they are `Int`.  Reading a property of `points[i]` for an index outside the
  array throws a `TypeError`; a method that throws, or a loop of the
  embedding that runs out of its iteration budget, returns `none`.
-/

namespace FreehandSculpterMouseTool

/-! ## Data model -/

/-- A plain `{x, y}` object, such as `mousePoint` or a computed position. -/
structure Point (K : Type) where
  x : K
  y : K
deriving DecidableEq

/-- The image, of which only `width` and `height` are read (by `clipToBox`). -/
structure Image (K : Type) where
  width : K
  height : K

/-- A handle of the freehand contour: an object with coordinates `x`, `y` and
the array `lines` of the handles its outgoing segments point at.  The field
`id` is the identity of the object; `lines` holds identities. -/
structure Handle (K : Type) where
  id : Nat
  x : K
  y : K
  lines : List Nat
deriving DecidableEq

/-- The coordinates of a handle, as read by a function that is handed the
handle object where a point is expected. -/
def Handle.toPoint {K : Type} (h : Handle K) : Point K := ⟨h.x, h.y⟩

/-- The fields of `this._sculptData` other than `points` (and `element`). -/
structure SculptData (K : Type) where
  image : Image K
  mousePoint : Point K
  toolSize : K
  minSpacing : K
  maxSpacing : K

/-- The object returned by `_pushHandles`: `first` and `last` are absent
(`undefined`) until a handle is pushed. -/
structure PushedHandles where
  first : Option Nat
  last : Option Nat
deriving DecidableEq

/-- The fields of `this.configuration` that the public configuration API
reads and writes.  `maxSpacing` is absent from the default configuration. -/
structure Configuration (K : Type) where
  minSpacing : K
  maxSpacing : Option K
  showCursorOnHover : Bool
  limitRadiusOutsideRegion : Bool
  hoverCursorFadeAlpha : K
  hoverCursorFadeDistance : K

/-! ## JavaScript arrays -/

/-- The element `xs[i]` when it exists; `none` stands for `undefined`, whose
properties cannot be read. -/
def getAt {α : Type} (xs : List α) (i : Int) : Option α :=
  if i < 0 then none else xs[i.toNat]?

/-- The array after a field of the object `xs[i]` has been assigned: the
element at `i` is replaced by the updated object `a`. -/
def setAt {α : Type} (xs : List α) (i : Int) (a : α) : List α :=
  if i < 0 then xs else xs.set i.toNat a

/-- The first index touched by `Array.prototype.splice(start, ...)`: a negative
`start` counts from the end, and the result is kept within `0 .. length`. -/
def spliceStart {α : Type} (xs : List α) (start : Int) : Nat :=
  if start < 0 then ((xs.length : Int) + start).toNat else min start.toNat xs.length

/-- The array after `xs.splice(start, 0, item)`. -/
def spliceInsert {α : Type} (xs : List α) (start : Int) (item : α) : List α :=
  xs.take (spliceStart xs start) ++ item :: xs.drop (spliceStart xs start)

/-- The array after `xs.splice(start, 1)`. -/
def spliceRemove {α : Type} (xs : List α) (start : Int) : List α :=
  xs.take (spliceStart xs start) ++ xs.drop (spliceStart xs start + 1)

/-- The array `lines` after `lines.pop()` followed by `lines.push(target)`. -/
def popPush (lines : List Nat) (target : Nat) : List Nat :=
  lines.dropLast ++ [target]

/-! ## Index helpers -/

/-- The source's `_getNextHandleIndex`. -/
def getNextHandleIndex (i length : Int) : Int :=
  if i = length - 1 then 0 else i + 1

/-- The source's `_getPreviousHandleIndex`. -/
def getPreviousHandleIndex (i length : Int) : Int :=
  if i = 0 then length - 1 else i - 1

/-- The source's `_getNextHandleIndexBeforeInsert`. -/
def getNextHandleIndexBeforeInsert (insertIndex length : Int) : Int :=
  if insertIndex = length then 0 else insertIndex

/-- The source's `_getCorrectedPair`. -/
def getCorrectedPair (pair : Int × Int) (removedIndexModifier : Int) : Int × Int :=
  let correctedPair : Int × Int :=
    (pair.1 - removedIndexModifier, pair.2 - removedIndexModifier)
  if correctedPair.2 < 0 then (correctedPair.1, 0) else correctedPair

section Engine

variable {K : Type} [Add K] [Sub K] [Mul K] [Div K] [LT K]
  [∀ a b : K, Decidable (a < b)] [Max K] [Min K] [OfNat K 0] [OfNat K 2]

/-! ## Helpers that live outside the source file -/

/-- Modelled from the spec: `clip` of `util/clip.js`, which is not part of the
sources at hand.  The spec says a computed point is clamped into the valid
bounding box; a value is clamped into `low .. high`. -/
def clip (val low high : K) : K := min (max low val) high

/-- Modelled from the spec: `clipToBox` of `util/clip.js`, which is not part of
the sources at hand.  The spec (sections 4.2 and 6) has every computed point
clamped into the bounding box of the image, `0 .. width` by `0 .. height`. -/
def clipToBox (point : Point K) (box : Image K) : Point K :=
  ⟨clip point.x 0 box.width, clip point.y 0 box.height⟩

/-- The distance of `external.cornerstoneMath.point.distance` for a given
square root `sqrt` (the library's `Math.sqrt`): the square root of the sum of
the squared coordinate differences. -/
def euclideanDistance (sqrt : K → K) (p q : Point K) : K :=
  sqrt ((p.x - q.x) * (p.x - q.x) + (p.y - q.y) * (p.y - q.y))

/-- Modelled from the spec: the constructor `FreehandHandleData` of
`util/freehand`, which is not part of the sources at hand.  A new vertex is a
2D point with an explicit forward adjacency (spec, section 3), which is empty
until it is wired; `id` is the identity of the new object. -/
def FreehandHandleData (position : Point K) (id : Nat) : Handle K :=
  { id := id, x := position.x, y := position.y, lines := [] }

/-- An identity that no handle of `points` has: that of a newly allocated
object. -/
def freshId (points : List (Handle K)) : Nat :=
  (points.map (fun h => h.id)).foldr max 0 + 1

/-- Modelled from the spec: `freehandUtils.addLine`, which is not part of the
sources at hand.  The outgoing segment of the vertex at `insertIndex` is made
to point at the vertex that follows it, circularly (spec, section 4.3,
step 4). -/
def addLine (points : List (Handle K)) (insertIndex : Int) : Option (List (Handle K)) := do
  let handle ← getAt points insertIndex
  let target ← getAt points (getNextHandleIndex insertIndex points.length)
  some (setAt points insertIndex { handle with lines := handle.lines ++ [target.id] })

/-! ## Push -/

/-- The source's `_pushOneHandle`. -/
def pushOneHandle (s : SculptData K) (points : List (Handle K)) (i : Int)
    (distanceToHandle : K) : Option (List (Handle K)) := do
  let handle ← getAt points i
  let directionUnitVector : Point K :=
    ⟨(handle.x - s.mousePoint.x) / distanceToHandle,
     (handle.y - s.mousePoint.y) / distanceToHandle⟩
  let position : Point K :=
    ⟨s.mousePoint.x + s.toolSize * directionUnitVector.x,
     s.mousePoint.y + s.toolSize * directionUnitVector.y⟩
  let position := clipToBox position s.image
  let handle : Handle K := { handle with x := position.x, y := position.y }
  let points := setAt points i handle
  let lastHandleIndex := getPreviousHandleIndex i points.length
  let lastHandle ← getAt points lastHandleIndex
  some (setAt points lastHandleIndex
    { lastHandle with lines := popPush lastHandle.lines handle.id })

/-- The assignments to `pushedHandles.first` and `pushedHandles.last` made by
`_pushHandles` after it has pushed handle `i`. -/
def PushedHandles.record (pushedHandles : PushedHandles) (i : Nat) : PushedHandles :=
  match pushedHandles.first with
  | none => { first := some i, last := some i }
  | some first => { first := some first, last := some i }

/-- The loop of `_pushHandles`, started at index `i` with `count` iterations
to go (`points.length - i`: no iteration changes the length of `points`). -/
def pushHandlesLoop (dist : Point K → Point K → K) (s : SculptData K) :
    Nat → Nat → List (Handle K) → PushedHandles → Option (List (Handle K) × PushedHandles)
  | 0, _, points, pushedHandles => some (points, pushedHandles)
  | count + 1, i, points, pushedHandles => do
    let handle ← getAt points i
    let distanceToHandle := dist handle.toPoint s.mousePoint
    if distanceToHandle > s.toolSize then
      pushHandlesLoop dist s count (i + 1) points pushedHandles
    else
      let points ← pushOneHandle s points i distanceToHandle
      pushHandlesLoop dist s count (i + 1) points (pushedHandles.record i)

/-- The source's `_pushHandles`. -/
def pushHandles (dist : Point K → Point K → K) (s : SculptData K)
    (points : List (Handle K)) : Option (List (Handle K) × PushedHandles) :=
  pushHandlesLoop dist s points.length 0 points { first := none, last := none }

/-! ## Densify -/

/-- The source's `_checkSpacing`; the result is the working list
`indiciesToInsertAfter` after the call. -/
def checkSpacing (dist : Point K → Point K → K) (i : Int) (points : List (Handle K))
    (indiciesToInsertAfter : List Int) (maxSpacing : K) : Option (List Int) := do
  let nextHandleIndex := getNextHandleIndex i points.length
  let handle ← getAt points i
  let nextHandle ← getAt points nextHandleIndex
  let distanceToNextHandle := dist handle.toPoint nextHandle.toPoint
  if distanceToNextHandle > maxSpacing then
    some (indiciesToInsertAfter ++ [i])
  else
    some indiciesToInsertAfter

/-- The first loop of `_findNewHandleIndicies`, at index `i` with `count`
iterations to go (`pushedHandles.last + 1 - i`). -/
def findNewHandleIndiciesLoop (dist : Point K → Point K → K) (s : SculptData K)
    (points : List (Handle K)) : Nat → Nat → List Int → Option (List Int)
  | 0, _, indiciesToInsertAfter => some indiciesToInsertAfter
  | count + 1, i, indiciesToInsertAfter => do
    let indiciesToInsertAfter ←
      checkSpacing dist i points indiciesToInsertAfter s.maxSpacing
    findNewHandleIndiciesLoop dist s points count (i + 1) indiciesToInsertAfter

/-- The source's `_findNewHandleIndicies`, called with
`pushedHandles = {first, last}`. -/
def findNewHandleIndicies (dist : Point K → Point K → K) (s : SculptData K)
    (points : List (Handle K)) (first last : Nat) : Option (List Int) := do
  let indiciesToInsertAfter ←
    findNewHandleIndiciesLoop dist s points (last + 1 - first) first []
  let pointAfterLast := getNextHandleIndex last points.length
  if pointAfterLast ≠ first then
    let indiciesToInsertAfter ←
      checkSpacing dist pointAfterLast points indiciesToInsertAfter s.maxSpacing
    let pointBeforeFirst := getPreviousHandleIndex first points.length
    if pointBeforeFirst ≠ pointAfterLast then
      checkSpacing dist pointBeforeFirst points indiciesToInsertAfter s.maxSpacing
    else
      some indiciesToInsertAfter
  else
    some indiciesToInsertAfter

/-- The source's `_getInsertPosition`; its first parameter `insertIndex` is not
used by the source. -/
def getInsertPosition (dist : Point K → Point K → K) (s : SculptData K)
    (points : List (Handle K)) (_insertIndex previousIndex nextIndex : Int) :
    Option (Point K) := do
  let previousHandle ← getAt points previousIndex
  let nextHandle ← getAt points nextIndex
  let midPoint : Point K :=
    ⟨(previousHandle.x + nextHandle.x) / 2, (previousHandle.y + nextHandle.y) / 2⟩
  let distanceToMidPoint := dist s.mousePoint midPoint
  let insertPosition : Point K :=
    if distanceToMidPoint < s.toolSize then
      let directionUnitVector : Point K :=
        ⟨(midPoint.x - s.mousePoint.x) / distanceToMidPoint,
         (midPoint.y - s.mousePoint.y) / distanceToMidPoint⟩
      ⟨s.mousePoint.x + s.toolSize * directionUnitVector.x,
       s.mousePoint.y + s.toolSize * directionUnitVector.y⟩
    else
      midPoint
  some (clipToBox insertPosition s.image)

/-- The source's `_insertHandleRadially`. -/
def insertHandleRadially (dist : Point K → Point K → K) (s : SculptData K)
    (points : List (Handle K)) (insertIndex : Int) : Option (List (Handle K)) := do
  let previousIndex := insertIndex - 1
  let nextIndex := getNextHandleIndexBeforeInsert insertIndex points.length
  let insertPosition ← getInsertPosition dist s points insertIndex previousIndex nextIndex
  let handleData := FreehandHandleData insertPosition (freshId points)
  let points := spliceInsert points insertIndex handleData
  let previousHandle ← getAt points previousIndex
  let insertedHandle ← getAt points insertIndex
  let points := setAt points previousIndex
    { previousHandle with lines := popPush previousHandle.lines insertedHandle.id }
  addLine points insertIndex

/-- The loop of `_insertNewHandles` over the rest of `indiciesToInsertAfter`. -/
def insertNewHandlesLoop (dist : Point K → Point K → K) (s : SculptData K) :
    List Int → Int → List (Handle K) → Option (List (Handle K))
  | [], _, points => some points
  | index :: rest, newIndexModifier, points => do
    let insertIndex := index + 1 + newIndexModifier
    let points ← insertHandleRadially dist s points insertIndex
    insertNewHandlesLoop dist s rest (newIndexModifier + 1) points

/-- The source's `_insertNewHandles`, called with
`pushedHandles = {first, last}`. -/
def insertNewHandles (dist : Point K → Point K → K) (s : SculptData K)
    (points : List (Handle K)) (first last : Nat) : Option (List (Handle K)) := do
  let indiciesToInsertAfter ← findNewHandleIndicies dist s points first last
  insertNewHandlesLoop dist s indiciesToInsertAfter 0 points

/-! ## Consolidate -/

/-- The loop of `_findCloseHandlePairs`, at index `i` with the loop bound
`length`.  Every iteration increases `i`, so the loop is over after at most
`points.length` iterations; `fuel` bounds their number. -/
def findCloseHandlePairsLoop (dist : Point K → Point K → K) (s : SculptData K)
    (points : List (Handle K)) :
    Nat → Nat → Nat → List (Int × Int) → Option (List (Int × Int))
  | 0, _, _, _ => none
  | fuel + 1, i, length, closePairs =>
    if i < length then do
      let nextHandleIndex := getNextHandleIndex i points.length
      let handle ← getAt points i
      let nextHandle ← getAt points nextHandleIndex
      let distanceToNextHandle := dist handle.toPoint nextHandle.toPoint
      if distanceToNextHandle < s.minSpacing then
        let pair : Int × Int := (i, nextHandleIndex)
        let closePairs := closePairs ++ [pair]
        let length := if i = 0 then length - 1 else length
        findCloseHandlePairsLoop dist s points fuel (i + 1 + 1) length closePairs
      else
        findCloseHandlePairsLoop dist s points fuel (i + 1) length closePairs
    else
      some closePairs

/-- The source's `_findCloseHandlePairs`. -/
def findCloseHandlePairs (dist : Point K → Point K → K) (s : SculptData K)
    (points : List (Handle K)) : Option (List (Int × Int)) :=
  findCloseHandlePairsLoop dist s points (points.length + 1) 0 points.length []

/-- The source's `_combineHandles`. -/
def combineHandles (s : SculptData K) (points : List (Handle K))
    (handlePair : Int × Int) : Option (List (Handle K)) := do
  let handle0 ← getAt points handlePair.1
  let handle1 ← getAt points handlePair.2
  let midPoint : Point K :=
    ⟨(handle0.x + handle1.x) / 2, (handle0.y + handle1.y) / 2⟩
  let midPoint := clipToBox midPoint s.image
  let points := setAt points handlePair.1 { handle0 with x := midPoint.x, y := midPoint.y }
  let handleAfterPairIndex := getNextHandleIndex handlePair.2 points.length
  let handle0 ← getAt points handlePair.1
  let handleAfterPair ← getAt points handleAfterPairIndex
  let points := setAt points handlePair.1
    { handle0 with lines := popPush handle0.lines handleAfterPair.id }
  some (spliceRemove points handlePair.2)

/-- The loop of `_mergeCloseHandles` over the rest of `closePairs`. -/
def mergeCloseHandlesLoop (s : SculptData K) :
    List (Int × Int) → Int → List (Handle K) → Option (List (Handle K))
  | [], _, points => some points
  | closePair :: rest, removedIndexModifier, points => do
    let pair := getCorrectedPair closePair removedIndexModifier
    let points ← combineHandles s points pair
    mergeCloseHandlesLoop s rest (removedIndexModifier + 1) points

/-- The source's `_mergeCloseHandles`.  The method calls itself for as long as
close pairs are found; `fuel` bounds the depth of the recursion. -/
def mergeCloseHandles (dist : Point K → Point K → K) (s : SculptData K) :
    Nat → List (Handle K) → List (Int × Int) → Option (List (Handle K))
  | 0, _, _ => none
  | fuel + 1, points, closePairs => do
    let points ← mergeCloseHandlesLoop s closePairs 0 points
    let newClosePairs ← findCloseHandlePairs dist s points
    if newClosePairs.length ≠ 0 then
      mergeCloseHandles dist s fuel points newClosePairs
    else
      some points

/-- The source's `_consolidateHandles`.  The recursion of `_mergeCloseHandles`
is given `points.length + 1` levels. -/
def consolidateHandles (dist : Point K → Point K → K) (s : SculptData K)
    (points : List (Handle K)) : Option (List (Handle K)) :=
  if points.length ≤ 3 then
    some points
  else do
    let closePairs ← findCloseHandlePairs dist s points
    mergeCloseHandles dist s (points.length + 1) points closePairs

/-! ## The sculpting step -/

/-- The record `this._sculptData` built by `_sculpt` (without `points`). -/
def sculptData (config : Configuration K) (toolSizeImage : K) (image : Image K)
    (mousePoint : Point K) : SculptData K :=
  { image := image
    mousePoint := mousePoint
    toolSize := toolSizeImage
    minSpacing := config.minSpacing
    maxSpacing := max toolSizeImage (config.minSpacing * 2) }

/-- The source's `_sculpt`: `config` is `this.configuration`, `toolSizeImage`
is `this._toolSizeImage`, `image` and `mousePoint` are `eventData.image` and
`eventData.currentPoints.image`.  `_pushHandles` sets `first` and `last`
together, so the case of a `first` without a `last` does not arise; it is
given no result. -/
def sculpt (dist : Point K → Point K → K) (config : Configuration K) (toolSizeImage : K)
    (image : Image K) (mousePoint : Point K) (points : List (Handle K)) :
    Option (List (Handle K)) := do
  let s := sculptData config toolSizeImage image mousePoint
  let (points, pushedHandles) ← pushHandles dist s points
  match pushedHandles.first, pushedHandles.last with
  | some first, some last =>
    let points ← insertNewHandles dist s points first last
    consolidateHandles dist s points
  | some _, none => none
  | none, _ => some points

end Engine

/-- The distance `dist` is the Euclidean distance of the plane. -/
def IsEuclidean {K : Type} [LinearOrderedField K] (dist : Point K → Point K → K) : Prop :=
  ∀ p q : Point K, 0 ≤ dist p q ∧
    dist p q * dist p q = (p.x - q.x) * (p.x - q.x) + (p.y - q.y) * (p.y - q.y)

/-! ## Predicates and reference values used by the statements -/

section Statements

variable {K : Type} [LinearOrderedField K]

/-- The position `_pushOneHandle` computes for a handle at `p` whose distance to
`mousePoint` is `d`: `mousePoint + toolSize * (p - mousePoint) / d`, clipped. -/
def pushedPosition (s : SculptData K) (p : Point K) (d : K) : Point K :=
  clipToBox
    ⟨s.mousePoint.x + s.toolSize * ((p.x - s.mousePoint.x) / d),
     s.mousePoint.y + s.toolSize * ((p.y - s.mousePoint.y) / d)⟩ s.image

/-- Reference for the push, vertex by vertex: a vertex at `p` stays where it is
when it is farther than `toolSize` from `mousePoint` and goes to
`pushedPosition` otherwise. -/
def pushReference (dist : Point K → Point K → K) (s : SculptData K) (p : Point K) : Point K :=
  if dist p s.mousePoint > s.toolSize then p
  else pushedPosition s p (dist p s.mousePoint)

/-- The coordinate list `P` has a vertex at index `j`, and it is within
`toolSize` of `mousePoint`. -/
def Near (dist : Point K → Point K → K) (s : SculptData K) (P : List (Point K))
    (j : Nat) : Prop :=
  ∃ p, P[j]? = some p ∧ dist p s.mousePoint ≤ s.toolSize

/-- The contour `points` has a handle at index `j`, and its distance to
`mousePoint` is at most `toolSize`. -/
def WithinToolSize (dist : Point K → Point K → K) (s : SculptData K)
    (points : List (Handle K)) (j : Nat) : Prop :=
  ∃ handle, points[j]? = some handle ∧ dist handle.toPoint s.mousePoint ≤ s.toolSize

/-- The handle at index `k` and its circular successor are closer than `minSpacing`. -/
def Close (dist : Point K → Point K → K) (s : SculptData K) (points : List (Handle K))
    (k : Nat) : Prop :=
  ∃ handle nextHandle, points[k]? = some handle ∧
    getAt points (getNextHandleIndex k points.length) = some nextHandle ∧
    dist handle.toPoint nextHandle.toPoint < s.minSpacing

/-- The invariant of the loop of `_findCloseHandlePairs`, at index `i` with the
loop bound `length` and the pairs `closePairs` recorded so far. -/
structure ClosePairsInv (dist : Point K → Point K → K) (s : SculptData K)
    (points : List (Handle K)) (i length : Nat) (closePairs : List (Int × Int)) : Prop where
  length_le : length ≤ points.length
  le_length : points.length ≤ length + 1
  pairs : ∀ p ∈ closePairs, ∃ k : Nat,
    p = ((k : Int), getNextHandleIndex k points.length) ∧ k < points.length ∧
      Close dist s points k ∧ k + 2 ≤ i
  sorted : closePairs.Pairwise (fun p q => p.1 + 2 ≤ q.1)
  zero_mem : (∃ p ∈ closePairs, p.1 = 0) → length + 1 = points.length
  lt_length : ∀ p ∈ closePairs, p.1 < length ∨ points.length ≤ 1
  empty : closePairs = [] → length = points.length ∧
    ∀ k, k < i → k < points.length → ¬ Close dist s points k

/-- The pairs `closePairs`, to be merged from the removed-count `m` on in a
contour that had `n` handles when they were recorded, address handles that
exist at the time of their merge. -/
def MergeReady (n : Nat) : Nat → List (Int × Int) → Prop
  | _, [] => True
  | m, p :: rest =>
    (∃ k : Nat, p.1 = k ∧ m ≤ k ∧ k < n ∧ ((p.2 = k + 1 ∧ k + 1 < n) ∨ p.2 = 0)) ∧
      MergeReady n (m + 1) rest

/-- The position `_getInsertPosition` computes for a new handle between a
handle at `p` and a handle at `q`. -/
def insertPositionOf (dist : Point K → Point K → K) (s : SculptData K) (p q : Point K) :
    Point K :=
  clipToBox
    (if dist s.mousePoint ⟨(p.x + q.x) / 2, (p.y + q.y) / 2⟩ < s.toolSize then
      ⟨s.mousePoint.x + s.toolSize * (((p.x + q.x) / 2 - s.mousePoint.x)
          / dist s.mousePoint ⟨(p.x + q.x) / 2, (p.y + q.y) / 2⟩),
       s.mousePoint.y + s.toolSize * (((p.y + q.y) / 2 - s.mousePoint.y)
          / dist s.mousePoint ⟨(p.x + q.x) / 2, (p.y + q.y) / 2⟩)⟩
    else ⟨(p.x + q.x) / 2, (p.y + q.y) / 2⟩) s.image

/-- The handle at index `j` is farther than `maxSpacing` from its circular
successor. -/
def OverLong (dist : Point K → Point K → K) (s : SculptData K) (points : List (Handle K))
    (j : Nat) : Prop :=
  ∃ handle nextHandle, points[j]? = some handle ∧
    getAt points (getNextHandleIndex j points.length) = some nextHandle ∧
    dist handle.toPoint nextHandle.toPoint > s.maxSpacing

/-- The index `j` is one of those `_findNewHandleIndicies` checks for the
pushed range `first .. last` of a contour of `n` handles: an index of the
range, the index after `last` or the index before `first`. -/
def Checked (first last n j : Nat) : Prop :=
  (first ≤ j ∧ j ≤ last) ∨ (j : Int) = getNextHandleIndex last n ∨
    (j : Int) = getPreviousHandleIndex first n

end Statements

/-- The vertex after index `j` in a closed contour with coordinates `O`. -/
def nextOf {α : Type} (O : List α) (j : Nat) : Option α :=
  O[if j + 1 = O.length then 0 else j + 1]?

/-- Every circularly adjacent pair of `C` is related by `R`. -/
def AllEdges {α : Type} (R : α → α → Prop) (C : List α) : Prop :=
  ∀ (t : Nat) (a c : α), C[t]? = some a → nextOf C t = some c → R a c

/-! ## The cursor radius -/

section Cursor

variable {K : Type} [Sub K] [Mul K] [Div K] [Min K] [OfNat K 0] [OfNat K 1]

/-- The source's `_limitCursorRadius`.  `sqrt` is `Math.pow(·, 0.5)` and `pi`
is `Math.PI`; `pixelToCanvas` is `external.cornerstone.pixelToCanvas` for the
element of the event, `image` is `eventData.image` and `dataArea` is the field
`area` of the tool state of the contour being sculpted. -/
def limitCursorRadius (sqrt : K → K) (pi : K) (pixelToCanvas : Point K → Point K)
    (image : Image K) (dataArea radius : K) (canvasCoords : Bool) : K :=
  let areaModifier : K :=
    if canvasCoords then
      let topLeft := pixelToCanvas ⟨0, 0⟩
      let bottomRight := pixelToCanvas ⟨image.width, image.height⟩
      let canvasArea := (bottomRight.x - topLeft.x) * (bottomRight.y - topLeft.y)
      canvasArea / (image.width * image.height)
    else
      1
  let area := dataArea * areaModifier
  let maxRadius := sqrt (area / pi)
  min radius maxRadius

end Cursor

/-! ## The public configuration API -/

/-- A JavaScript value handed to a setter, as far as `typeof` tells values
apart: a number, a boolean, or a value of another type (a string, `undefined`,
an object). -/
inductive JsValue (K : Type) where
  | number (value : K)
  | boolean (value : Bool)
  | other

/-- The test `typeof value === 'number'`. -/
def JsValue.isNumber {K : Type} : JsValue K → Bool
  | .number _ => true
  | _ => false

/-- The test `typeof value === 'boolean'`. -/
def JsValue.isBoolean {K : Type} : JsValue K → Bool
  | .boolean _ => true
  | _ => false

/-- The outcome of a call of a setter: `this.configuration` after the call, and
whether the call threw an `Error`. -/
structure SetterOutcome (K : Type) where
  configuration : Configuration K
  threw : Bool

section Setters

variable {K : Type} [Max K] [Min K] [OfNat K 0] [OfNat K 1]

/-- The source's `set minSpacing(value)`. -/
def set_minSpacing (config : Configuration K) : JsValue K → SetterOutcome K
  | .number value => ⟨{ config with minSpacing := value }, false⟩
  | _ => ⟨config, true⟩

/-- The source's `set maxSpacing(value)`. -/
def set_maxSpacing (config : Configuration K) : JsValue K → SetterOutcome K
  | .number value => ⟨{ config with maxSpacing := some value }, false⟩
  | _ => ⟨config, true⟩

/-- The source's `set showCursorOnHover(value)`. -/
def set_showCursorOnHover (config : Configuration K) : JsValue K → SetterOutcome K
  | .boolean value => ⟨{ config with showCursorOnHover := value }, false⟩
  | _ => ⟨config, true⟩

/-- The source's `set limitRadiusOutsideRegion(value)`. -/
def set_limitRadiusOutsideRegion (config : Configuration K) : JsValue K → SetterOutcome K
  | .boolean value => ⟨{ config with limitRadiusOutsideRegion := value }, false⟩
  | _ => ⟨config, true⟩

/-- The source's `set hoverCursorFadeAlpha(value)`: the value is clamped to
`0 .. 1` by `Math.max(Math.min(value, 1.0), 0.0)`. -/
def set_hoverCursorFadeAlpha (config : Configuration K) : JsValue K → SetterOutcome K
  | .number value => ⟨{ config with hoverCursorFadeAlpha := max (min value 1) 0 }, false⟩
  | _ => ⟨config, true⟩

/-- The source's `set hoverCursorFadeDistance(value)`: the value is raised to
at least `1` by `Math.max(value, 1.0)`. -/
def set_hoverCursorFadeDistance (config : Configuration K) : JsValue K → SetterOutcome K
  | .number value => ⟨{ config with hoverCursorFadeDistance := max value 1 }, false⟩
  | _ => ⟨config, true⟩

end Setters

/-! ## JavaScript numbers with `NaN` -/

/-- A JavaScript number as far as the division by zero matters: a rational
value, an infinity or `NaN`.  Arithmetic on the rational values is exact
(rounding is not modelled), and `-0` is not told apart from `0`. -/
inductive JsNumber where
  | finite (value : ℚ)
  | infinity (negative : Bool)
  | nan
deriving DecidableEq

namespace JsNumber

/-- The sum of two numbers. -/
def add : JsNumber → JsNumber → JsNumber
  | finite a, finite b => finite (a + b)
  | finite _, infinity s => infinity s
  | infinity s, finite _ => infinity s
  | infinity s, infinity t => if s = t then infinity s else nan
  | _, _ => nan

/-- The negation of a number. -/
def neg : JsNumber → JsNumber
  | finite a => finite (-a)
  | infinity s => infinity (!s)
  | nan => nan

/-- The product of two numbers. -/
def mul : JsNumber → JsNumber → JsNumber
  | finite a, finite b => finite (a * b)
  | finite a, infinity s => if a = 0 then nan else infinity (xor s (decide (a < 0)))
  | infinity s, finite b => if b = 0 then nan else infinity (xor s (decide (b < 0)))
  | infinity s, infinity t => infinity (xor s t)
  | _, _ => nan

/-- The quotient of two numbers: `0 / 0` is `NaN`, and another value divided by
`0` is an infinity. -/
def div : JsNumber → JsNumber → JsNumber
  | finite a, finite b =>
    if b = 0 then (if a = 0 then nan else infinity (decide (a < 0))) else finite (a / b)
  | finite _, infinity _ => finite 0
  | infinity s, finite b => infinity (xor s (decide (b < 0)))
  | _, _ => nan

/-- The comparison `a < b`, which is false when either side is `NaN`. -/
def blt : JsNumber → JsNumber → Bool
  | finite a, finite b => decide (a < b)
  | finite _, infinity s => !s
  | infinity s, finite _ => s
  | infinity s, infinity t => s && !t
  | _, _ => false

/-- The comparison `a <= b`, which is false when either side is `NaN`. -/
def ble : JsNumber → JsNumber → Bool
  | nan, _ => false
  | _, nan => false
  | a, b => !(blt b a)

/-- The function `Math.max` of two arguments: `NaN` when either is `NaN`. -/
def max : JsNumber → JsNumber → JsNumber
  | nan, _ => nan
  | _, nan => nan
  | a, b => if blt a b then b else a

/-- The function `Math.min` of two arguments: `NaN` when either is `NaN`. -/
def min : JsNumber → JsNumber → JsNumber
  | nan, _ => nan
  | _, nan => nan
  | a, b => if blt b a then b else a

/-- The function `Math.sqrt`, which is `NaN` on negative numbers (so is
`Math.pow(·, 0.5)` on negative rational values).  It is exact on the squares of
rationals, which is what the evaluations use, and rounds numerator and
denominator down otherwise. -/
def sqrt : JsNumber → JsNumber
  | finite a => if a < 0 then nan else finite (Rat.sqrt a)
  | infinity s => if s then nan else infinity false
  | nan => nan

instance : Add JsNumber := ⟨add⟩

instance : Sub JsNumber := ⟨fun a b => add a (neg b)⟩

instance : Mul JsNumber := ⟨mul⟩

instance : Div JsNumber := ⟨div⟩

instance : LT JsNumber := ⟨fun a b => blt a b = true⟩

instance : LE JsNumber := ⟨fun a b => ble a b = true⟩

instance (a b : JsNumber) : Decidable (a < b) :=
  inferInstanceAs (Decidable (blt a b = true))

instance (a b : JsNumber) : Decidable (a ≤ b) :=
  inferInstanceAs (Decidable (ble a b = true))

instance : Max JsNumber := ⟨max⟩

instance : Min JsNumber := ⟨min⟩

instance (n : Nat) : OfNat JsNumber n := ⟨finite n⟩

/-- The constant `Math.PI`: the double nearest to π. -/
def PI : JsNumber := finite (884279719003555 / 281474976710656)

end JsNumber

/-! ## Reference values for the later statements -/

section Statements2

variable {K : Type} [LinearOrderedField K]

/-- The value of `areaModifier` in `_limitCursorRadius` when the radius is
limited in canvas coordinates: the signed area of the canvas box of the image
divided by the area of the image. -/
def canvasAreaModifier (pixelToCanvas : Point K → Point K) (image : Image K) : K :=
  ((pixelToCanvas ⟨image.width, image.height⟩).x - (pixelToCanvas ⟨0, 0⟩).x)
      * ((pixelToCanvas ⟨image.width, image.height⟩).y - (pixelToCanvas ⟨0, 0⟩).y)
    / (image.width * image.height)

/-- The point at distance `toolSize` from `mousePoint` on the ray from
`mousePoint` through `m`, where `d` is the distance from `mousePoint` to `m`:
`mousePoint + toolSize * (m - mousePoint) / d`. -/
def projectedPoint (s : SculptData K) (m : Point K) (d : K) : Point K :=
  ⟨s.mousePoint.x + s.toolSize * (m.x - s.mousePoint.x) / d,
   s.mousePoint.y + s.toolSize * (m.y - s.mousePoint.y) / d⟩

/-- The point `p` lies in the box of the image: `0 ≤ x ≤ width` and
`0 ≤ y ≤ height`. -/
def InBox (image : Image K) (p : Point K) : Prop :=
  0 ≤ p.x ∧ p.x ≤ image.width ∧ 0 ≤ p.y ∧ p.y ≤ image.height

/-- Modelled from the spec: what one merge pass makes of the vertex `i` of the
contour with coordinates `O` at scan time, for the recorded pairs (spec,
section 4.4, step 3: the first vertex of a pair is relocated to the midpoint of
both, clamped to bounds, and the second vertex is deleted).  The vertex is
dropped when it is the second vertex of a recorded pair, replaced by the clamped
midpoint when it is the first vertex of one, and kept otherwise. -/
def mergedVertex (s : SculptData K) (O : List (Point K)) (pairs : List (Int × Int))
    (i : Nat) : Option (Point K) :=
  if (getPreviousHandleIndex i O.length, (i : Int)) ∈ pairs then none
  else if ((i : Int), getNextHandleIndex i O.length) ∈ pairs then
    match O[i]?, getAt O (getNextHandleIndex i O.length) with
    | some a, some b => some (clipToBox ⟨(a.x + b.x) / 2, (a.y + b.y) / 2⟩ s.image)
    | _, _ => none
  else O[i]?

/-- Modelled from the spec: the coordinates of the contour after one merge pass
as a whole: every recorded pair is replaced by its clamped midpoint, computed
from the coordinates `O` at scan time, and all other vertices are kept, in
their order. -/
def mergePassReference (s : SculptData K) (O : List (Point K))
    (pairs : List (Int × Int)) : List (Point K) :=
  (List.range O.length).filterMap (mergedVertex s O pairs)

end Statements2

/-- Adjacency is in sync with the order of the handles: the array `lines` of
every handle holds exactly one entry, the identity of its circular successor. -/
def InSync {K : Type} (points : List (Handle K)) : Prop :=
  ∀ (i : Nat) (handle : Handle K), points[i]? = some handle →
    ∃ nextHandle, nextOf points i = some nextHandle ∧ handle.lines = [nextHandle.id]


/-! ## Arrays and indices: basic facts -/

theorem exists_getElem?_of_lt {α : Type} (xs : List α) (i : Nat) (h : i < xs.length) :
    ∃ a, xs[i]? = some a :=
  ⟨xs[i], List.getElem?_eq_getElem h⟩

theorem getAt_natCast {α : Type} (xs : List α) (i : Nat) : getAt xs (i : Int) = xs[i]? := by
  simp [getAt]

theorem setAt_natCast {α : Type} (xs : List α) (i : Nat) (a : α) :
    setAt xs (i : Int) a = xs.set i a := by
  simp [setAt]

theorem length_setAt {α : Type} (xs : List α) (i : Int) (a : α) :
    (setAt xs i a).length = xs.length := by
  unfold setAt; split <;> simp

theorem getPreviousHandleIndex_natCast (i n : Nat) (h : i < n) :
    getPreviousHandleIndex (i : Int) (n : Int)
      = ((if i = 0 then n - 1 else i - 1 : Nat) : Int) := by
  unfold getPreviousHandleIndex
  split_ifs <;> omega

theorem getNextHandleIndex_natCast (i n : Nat) :
    getNextHandleIndex (i : Int) (n : Int)
      = ((if i + 1 = n then 0 else i + 1 : Nat) : Int) := by
  unfold getNextHandleIndex
  split_ifs <;> omega

theorem take_succ_set {α : Type} (P : List α) (i : Nat) (t : α) (h : i < P.length) :
    (P.set i t).take (i + 1) = P.take i ++ [t] := by
  induction P generalizing i with
  | nil => simp at h
  | cons a P ih =>
    cases i with
    | zero => simp
    | succ i => simp at h; simp [ih i h]

theorem drop_succ_set {α : Type} (P : List α) (i : Nat) (t : α) :
    (P.set i t).drop (i + 1) = P.drop (i + 1) := by
  induction P generalizing i with
  | nil => simp
  | cons a P ih =>
    cases i with
    | zero => simp
    | succ i => simp [ih i]

/-! ## Euclidean distance -/

theorem isEuclidean_sqrt : IsEuclidean (euclideanDistance Real.sqrt) := by
  intro p q
  refine ⟨Real.sqrt_nonneg _, ?_⟩
  unfold euclideanDistance
  exact Real.mul_self_sqrt (add_nonneg (mul_self_nonneg _) (mul_self_nonneg _))

theorem IsEuclidean.eq_of_sq {K : Type} [LinearOrderedField K] {dist : Point K → Point K → K}
    (hE : IsEuclidean dist) {p q : Point K} {d : K} (hd : 0 ≤ d)
    (h : (p.x - q.x) * (p.x - q.x) + (p.y - q.y) * (p.y - q.y) = d * d) : dist p q = d := by
  obtain ⟨h0, h1⟩ := hE p q
  rw [h] at h1
  exact (mul_self_inj h0 hd).1 h1

/-! ## Push: one handle, and the loop -/

section Push
variable {K : Type} [LinearOrderedField K]

theorem pushOneHandle_spec (s : SculptData K) (points : List (Handle K)) (i : Nat)
    (d : K) (handle : Handle K) (hi : points[i]? = some handle) :
    ∃ points', pushOneHandle s points i d = some points' ∧
      points'.map Handle.toPoint
        = (points.map Handle.toPoint).set i (pushedPosition s handle.toPoint d) ∧
      points'.map (fun h => h.id) = points.map (fun h => h.id) := by
  have hlt : i < points.length := by
    rcases List.getElem?_eq_some_iff.1 hi with ⟨h, _⟩; exact h
  simp only [pushOneHandle, getAt_natCast, hi, Option.bind_eq_bind, Option.some_bind,
    setAt_natCast, List.length_set]
  rw [getPreviousHandleIndex_natCast i points.length hlt, getAt_natCast]
  simp only [setAt_natCast]
  generalize hp : (if i = 0 then points.length - 1 else i - 1) = p
  have hpl : p < points.length := by subst hp; split_ifs <;> omega
  generalize hh : ({ id := handle.id, x := _, y := _, lines := handle.lines } : Handle K) = h'
  have hid : h'.id = handle.id := by subst hh; rfl
  have hpt : h'.toPoint = pushedPosition s handle.toPoint d := by subst hh; rfl
  obtain ⟨lh, hlh⟩ : ∃ lh, (points.set i h')[p]? = some lh :=
    exists_getElem?_of_lt _ p (by simpa using hpl)
  rw [hlh]
  refine ⟨_, rfl, ?_, ?_⟩
  · apply List.ext_getElem?
    intro j
    simp only [List.getElem?_map, List.getElem?_set, List.length_set, List.length_map]
    by_cases hpj : p = j
    · subst hpj
      simp only [hpl, if_true, Option.map_some', hlh]
      have := congrArg (Option.map Handle.toPoint) hlh
      simp only [List.getElem?_set, Option.map_some'] at this
      show some lh.toPoint = _
      rw [← this]
      split_ifs <;> simp_all
    · simp only [hpj, if_false]
      by_cases hij : i = j
      · subst hij; simp [hlt, hpt]
      · simp [hij]
  · apply List.ext_getElem?
    intro j
    simp only [List.getElem?_map, List.getElem?_set, List.length_set, List.length_map]
    by_cases hpj : p = j
    · subst hpj
      simp only [hpl, if_true, Option.map_some', hlh]
      have := congrArg (Option.map (fun h : Handle K => h.id)) hlh
      simp only [List.getElem?_set, Option.map_some'] at this
      show some lh.id = _
      rw [← this]
      split_ifs <;> simp_all
    · simp only [hpj, if_false]
      by_cases hij : i = j
      · subst hij; simp [hlt, hid, hi]
      · simp [hij]

theorem near_set_of_ne (dist : Point K → Point K → K) (s : SculptData K) (P : List (Point K))
    (i j : Nat) (t : Point K) (h : i ≠ j) : Near dist s (P.set i t) j ↔ Near dist s P j := by
  simp [Near, List.getElem?_set, h]

theorem pushHandlesLoop_spec (dist : Point K → Point K → K) (s : SculptData K) :
    ∀ (count i : Nat) (points : List (Handle K)) (pushedHandles : PushedHandles),
      i + count = points.length →
      ∃ points' pushedHandles',
        pushHandlesLoop dist s count i points pushedHandles = some (points', pushedHandles') ∧
        points'.map Handle.toPoint
          = (points.map Handle.toPoint).take i
            ++ ((points.map Handle.toPoint).drop i).map (pushReference dist s) ∧
        points'.map (fun h => h.id) = points.map (fun h => h.id) ∧
        (∀ f, pushedHandles'.first = some f ↔
          (pushedHandles.first = some f ∨
            (pushedHandles.first = none ∧ i ≤ f ∧ Near dist s (points.map Handle.toPoint) f ∧
              ∀ j, i ≤ j → j < f → ¬ Near dist s (points.map Handle.toPoint) j))) ∧
        (∀ l, pushedHandles'.last = some l ↔
          ((i ≤ l ∧ Near dist s (points.map Handle.toPoint) l ∧
              ∀ j, l < j → ¬ Near dist s (points.map Handle.toPoint) j) ∨
            (pushedHandles.last = some l ∧
              ∀ j, i ≤ j → ¬ Near dist s (points.map Handle.toPoint) j))) ∧
        (pushedHandles'.first = none ↔
          (pushedHandles.first = none ∧
            ∀ j, i ≤ j → ¬ Near dist s (points.map Handle.toPoint) j)) ∧
        (pushedHandles'.last = none ↔
          (pushedHandles.last = none ∧
            ∀ j, i ≤ j → ¬ Near dist s (points.map Handle.toPoint) j)) := by
  intro count
  induction count with
  | zero =>
    intro i points ph hlen
    have hnone : ∀ j, i ≤ j → ¬ Near dist s (points.map Handle.toPoint) j := by
      rintro j hj ⟨p, hp, _⟩
      have := (List.getElem?_eq_some_iff.1 hp).1
      simp at this; omega
    refine ⟨points, ph, rfl, ?_, rfl, ?_, ?_, ?_, ?_⟩
    rotate_left 3
    · exact ⟨fun h => ⟨h, hnone⟩, fun h => h.1⟩
    · exact ⟨fun h => ⟨h, hnone⟩, fun h => h.1⟩
    · have : points.length ≤ i := by omega
      simp [List.drop_eq_nil_of_le, List.take_of_length_le, this]
    · intro f
      constructor
      · intro h; exact Or.inl h
      · rintro (h | ⟨_, h1, h2, _⟩)
        · exact h
        · exact absurd h2 (hnone f h1)
    · intro l
      constructor
      · intro h; exact Or.inr ⟨h, hnone⟩
      · rintro (⟨h1, h2, _⟩ | ⟨h, _⟩)
        · exact absurd h2 (hnone l h1)
        · exact h
  | succ count ih =>
    intro i points ph hlen
    have hlt : i < points.length := by omega
    obtain ⟨handle, hi⟩ : ∃ handle, points[i]? = some handle :=
      ⟨points[i], List.getElem?_eq_getElem hlt⟩
    have hPi : (points.map Handle.toPoint)[i]? = some handle.toPoint := by
      simp [List.getElem?_map, hi]
    have hdrop : (points.map Handle.toPoint).drop i
        = handle.toPoint :: (points.map Handle.toPoint).drop (i + 1) := by
      rw [List.drop_eq_getElem_cons (by simpa using hlt)]
      congr 1
      have := List.getElem?_eq_some_iff.1 hPi
      exact this.2
    have hnear_i : Near dist s (points.map Handle.toPoint) i ↔
        dist handle.toPoint s.mousePoint ≤ s.toolSize := by
      simp [Near, hPi]
    simp only [pushHandlesLoop, getAt_natCast, hi, Option.bind_eq_bind, Option.some_bind]
    by_cases hfar : dist handle.toPoint s.mousePoint > s.toolSize
    · simp only [hfar, if_true]
      have hni : ¬ Near dist s (points.map Handle.toPoint) i := by
        rw [hnear_i]; exact not_le.2 hfar
      obtain ⟨pts', ph', hrun, hP, hid, hfirst, hlast, hfn, hln⟩ :=
        ih (i + 1) points ph (by omega)
      have hall : (∀ j, i + 1 ≤ j → ¬ Near dist s (points.map Handle.toPoint) j) ↔
          (∀ j, i ≤ j → ¬ Near dist s (points.map Handle.toPoint) j) := by
        constructor
        · intro h j hj
          rcases Nat.eq_or_lt_of_le hj with h' | h'
          · subst h'; exact hni
          · exact h j h'
        · intro h j hj
          exact h j (by omega)
      refine ⟨pts', ph', hrun, ?_, hid, ?_, ?_, ?_, ?_⟩
      rotate_left 3
      · rw [hfn, hall]
      · rw [hln, hall]
      · rw [hP, hdrop, List.map_cons, List.take_succ, hPi]
        simp [pushReference, hfar]
      · intro f
        rw [hfirst f]
        constructor
        · rintro (h | ⟨h0, h1, h2, h3⟩)
          · exact Or.inl h
          · exact Or.inr ⟨h0, by omega, h2, fun j hj1 hj2 => by
              rcases Nat.eq_or_lt_of_le hj1 with h | h
              · subst h; exact hni
              · exact h3 j h hj2⟩
        · rintro (h | ⟨h0, h1, h2, h3⟩)
          · exact Or.inl h
          · refine Or.inr ⟨h0, ?_, h2, fun j hj1 hj2 => h3 j (by omega) hj2⟩
            rcases Nat.eq_or_lt_of_le h1 with h | h
            · subst h; exact absurd h2 hni
            · exact h
      · intro l
        rw [hlast l]
        constructor
        · rintro (⟨h1, h2, h3⟩ | ⟨h1, h2⟩)
          · exact Or.inl ⟨by omega, h2, h3⟩
          · exact Or.inr ⟨h1, fun j hj => by
              rcases Nat.eq_or_lt_of_le hj with h | h
              · subst h; exact hni
              · exact h2 j h⟩
        · rintro (⟨h1, h2, h3⟩ | ⟨h1, h2⟩)
          · refine Or.inl ⟨?_, h2, h3⟩
            rcases Nat.eq_or_lt_of_le h1 with h | h
            · subst h; exact absurd h2 hni
            · exact h
          · exact Or.inr ⟨h1, fun j hj => h2 j (by omega)⟩
    · simp only [hfar, if_false]
      have hyi : Near dist s (points.map Handle.toPoint) i := by
        rw [hnear_i]; exact not_lt.1 hfar
      obtain ⟨pts2, hpush, hP2, hid2⟩ :=
        pushOneHandle_spec s points i (dist handle.toPoint s.mousePoint) handle hi
      rw [hpush]
      simp only [Option.some_bind]
      have hlen2 : pts2.length = points.length := by
        have := congrArg List.length hid2
        simpa using this
      obtain ⟨pts', ph', hrun, hP, hid, hfirst, hlast, hfn, hln⟩ :=
        ih (i + 1) pts2 (ph.record i) (by omega)
      have hnear2 : ∀ j, i < j → (Near dist s (pts2.map Handle.toPoint) j ↔
          Near dist s (points.map Handle.toPoint) j) := by
        intro j hj
        rw [hP2]
        exact near_set_of_ne dist s _ i j _ (by omega)
      have hrecf : (ph.record i).first ≠ none := by
        unfold PushedHandles.record
        cases hph : ph.first <;> simp
      have hrecl : (ph.record i).last ≠ none := by
        unfold PushedHandles.record
        cases hph : ph.first <;> simp
      refine ⟨pts', ph', hrun, ?_, hid.trans hid2, ?_, ?_, ?_, ?_⟩
      rotate_left 3
      · rw [hfn]
        exact ⟨fun h => absurd h.1 hrecf, fun h => absurd hyi (h.2 i (le_refl _))⟩
      · rw [hln]
        exact ⟨fun h => absurd h.1 hrecl, fun h => absurd hyi (h.2 i (le_refl _))⟩
      · rw [hP, hP2, hdrop, List.map_cons, take_succ_set _ _ _ (by simpa using hlt),
          drop_succ_set]
        simp [pushReference, hfar]
      · intro f
        rw [hfirst f]
        have hrec : (ph.record i).first = some f ↔
            (ph.first = some f ∨ (ph.first = none ∧ f = i)) := by
          unfold PushedHandles.record
          cases hph : ph.first with
          | none => simp [eq_comm]
          | some a => simp
        have hrec' : (ph.record i).first ≠ none := by
          unfold PushedHandles.record
          cases hph : ph.first <;> simp
        constructor
        · rintro (h | ⟨h0, _⟩)
          · rcases hrec.1 h with h | ⟨h0, h1⟩
            · exact Or.inl h
            · subst h1
              exact Or.inr ⟨h0, le_refl _, hyi, fun j hj1 hj2 => by omega⟩
          · exact absurd h0 hrec'
        · rintro (h | ⟨h0, h1, h2, h3⟩)
          · exact Or.inl (hrec.2 (Or.inl h))
          · refine Or.inl (hrec.2 (Or.inr ⟨h0, ?_⟩))
            rcases Nat.eq_or_lt_of_le h1 with h | h
            · exact h.symm
            · exact absurd hyi (h3 i (le_refl _) h)
      · intro l
        rw [hlast l]
        have hrec : (ph.record i).last = some l ↔ l = i := by
          unfold PushedHandles.record
          cases hph : ph.first <;> simp [eq_comm]
        constructor
        · rintro (⟨h1, h2, h3⟩ | ⟨h1, h2⟩)
          · refine Or.inl ⟨by omega, (hnear2 l (by omega)).1 h2, fun j hj => ?_⟩
            rw [← hnear2 j (by omega)]
            exact h3 j hj
          · have := hrec.1 h1
            subst this
            refine Or.inl ⟨le_refl _, hyi, fun j hj => ?_⟩
            rw [← hnear2 j hj]
            exact h2 j hj
        · rintro (⟨h1, h2, h3⟩ | ⟨_, h2⟩)
          · rcases Nat.eq_or_lt_of_le h1 with h | h
            · subst h
              refine Or.inr ⟨hrec.2 rfl, fun j hj => ?_⟩
              rw [hnear2 j hj]
              exact h3 j hj
            · refine Or.inl ⟨h, (hnear2 l h).2 h2, fun j hj => ?_⟩
              rw [hnear2 j (by omega)]
              exact h3 j hj
          · exact absurd hyi (h2 i (le_refl _))

end Push

/-! ## Push: the claims -/

section PushClaims
variable {K : Type} [LinearOrderedField K]

theorem near_map_iff (dist : Point K → Point K → K) (s : SculptData K)
    (points : List (Handle K)) (j : Nat) :
    Near dist s (points.map Handle.toPoint) j ↔ WithinToolSize dist s points j := by
  unfold Near WithinToolSize
  rw [List.getElem?_map]
  constructor
  · rintro ⟨p, hp, hd⟩
    cases h : points[j]? with
    | none => simp [h] at hp
    | some handle =>
      simp [h] at hp
      subst hp
      exact ⟨handle, rfl, hd⟩
  · rintro ⟨handle, hh, hd⟩
    exact ⟨handle.toPoint, by simp [hh], hd⟩

theorem withinToolSize_lt (dist : Point K → Point K → K) (s : SculptData K)
    (points : List (Handle K)) (j : Nat) (h : WithinToolSize dist s points j) :
    j < points.length := by
  obtain ⟨handle, hh, _⟩ := h
  exact (List.getElem?_eq_some_iff.1 hh).1

/-- If no handle is within `toolSize`, the loop of `_pushHandles` changes nothing. -/
theorem pushHandlesLoop_of_far (dist : Point K → Point K → K) (s : SculptData K)
    (points : List (Handle K))
    (hfar : ∀ handle ∈ points, dist handle.toPoint s.mousePoint > s.toolSize) :
    ∀ (count i : Nat) (pushedHandles : PushedHandles), i + count = points.length →
      pushHandlesLoop dist s count i points pushedHandles = some (points, pushedHandles) := by
  intro count
  induction count with
  | zero => intro i ph _; rfl
  | succ count ih =>
    intro i ph hlen
    have hlt : i < points.length := by omega
    have hi : points[i]? = some points[i] := List.getElem?_eq_getElem hlt
    have hf := hfar points[i] (List.getElem_mem hlt)
    simp only [pushHandlesLoop, getAt_natCast, hi, Option.bind_eq_bind, Option.some_bind, hf,
      if_true]
    exact ih (i + 1) ph (by omega)

/-- C3. `_pushHandles` is the pointwise push: it returns, keeps the number and
the order of the handles (their identities), leaves the coordinates of every
handle farther than `toolSize` from `mousePoint` unchanged, and moves every
handle at a distance `d` with `0 < d ≤ toolSize` to
`clipToBox (mousePoint + toolSize * (handle - mousePoint) / d)`, where `d` is
the distance of that handle before the push. -/
theorem pushHandles_pointwise (dist : Point K → Point K → K) (s : SculptData K)
    (points : List (Handle K)) :
    ∃ points' pushedHandles,
      pushHandles dist s points = some (points', pushedHandles) ∧
      points'.length = points.length ∧
      points'.map (fun h => h.id) = points.map (fun h => h.id) ∧
      ∀ (i : Nat) (handle : Handle K), points[i]? = some handle →
        ∃ handle', points'[i]? = some handle' ∧
          (dist handle.toPoint s.mousePoint > s.toolSize →
            handle'.toPoint = handle.toPoint) ∧
          (0 < dist handle.toPoint s.mousePoint →
            dist handle.toPoint s.mousePoint ≤ s.toolSize →
            handle'.toPoint = clipToBox
              ⟨s.mousePoint.x + s.toolSize * (handle.x - s.mousePoint.x)
                  / dist handle.toPoint s.mousePoint,
               s.mousePoint.y + s.toolSize * (handle.y - s.mousePoint.y)
                  / dist handle.toPoint s.mousePoint⟩ s.image) := by
  obtain ⟨pts', ph', hrun, hP, hid, -⟩ :=
    pushHandlesLoop_spec dist s points.length 0 points ⟨none, none⟩ (by simp)
  have hlen : pts'.length = points.length := by simpa using congrArg List.length hid
  refine ⟨pts', ph', hrun, hlen, hid, ?_⟩
  intro i handle hi
  have hlt : i < points.length := (List.getElem?_eq_some_iff.1 hi).1
  refine ⟨pts'[i], List.getElem?_eq_getElem (by omega), ?_⟩
  have hpt : (pts'.map Handle.toPoint)[i]? = some (pushReference dist s handle.toPoint) := by
    rw [hP]
    simp [List.getElem?_map, hi]
  have hpt' : pts'[i].toPoint = pushReference dist s handle.toPoint := by
    rw [List.getElem?_map, List.getElem?_eq_getElem (by omega)] at hpt
    simpa using hpt
  rw [hpt']
  constructor
  · intro hfar
    simp [pushReference, hfar]
  · intro _ hle
    have : ¬ dist handle.toPoint s.mousePoint > s.toolSize := not_lt.2 hle
    rw [pushReference, if_neg this]
    simp only [pushedPosition, Handle.toPoint, mul_div_assoc]

/-- C9. If every handle of the contour is farther than `toolSize` from
`mousePoint`, a `_sculpt` step returns the contour as it was: the same handles
with the same coordinates in the same order; neither insertion nor merging
runs, whatever the spacing and the configuration are. -/
theorem sculpt_unchanged_of_far (dist : Point K → Point K → K) (config : Configuration K)
    (toolSizeImage : K) (image : Image K) (mousePoint : Point K) (points : List (Handle K))
    (hfar : ∀ handle ∈ points, dist handle.toPoint mousePoint > toolSizeImage) :
    sculpt dist config toolSizeImage image mousePoint points = some points := by
  have hloop := pushHandlesLoop_of_far dist
    (sculptData config toolSizeImage image mousePoint) points hfar points.length 0
    ⟨none, none⟩ (by simp)
  simp [sculpt, pushHandles, hloop]

/-- C10. `_pushHandles` returns, and `first` is the smallest and `last` the
largest index of a handle whose distance to `mousePoint` before the push is at
most `toolSize`; both are absent exactly when there is no such handle; when
present, `first ≤ last < points.length` and every such index lies between
them. -/
theorem pushHandles_first_last (dist : Point K → Point K → K) (s : SculptData K)
    (points : List (Handle K)) :
    ∃ points' pushedHandles,
      pushHandles dist s points = some (points', pushedHandles) ∧
      (∀ f, pushedHandles.first = some f ↔
        (WithinToolSize dist s points f ∧ ∀ j, j < f → ¬ WithinToolSize dist s points j)) ∧
      (∀ l, pushedHandles.last = some l ↔
        (WithinToolSize dist s points l ∧ ∀ j, l < j → ¬ WithinToolSize dist s points j)) ∧
      (pushedHandles.first = none ↔ ∀ j, ¬ WithinToolSize dist s points j) ∧
      (pushedHandles.last = none ↔ ∀ j, ¬ WithinToolSize dist s points j) ∧
      (∀ f l, pushedHandles.first = some f → pushedHandles.last = some l →
        f ≤ l ∧ l < points.length ∧
          ∀ j, WithinToolSize dist s points j → f ≤ j ∧ j ≤ l) := by
  obtain ⟨pts', ph', hrun, -, -, hfirst, hlast, hfn, hln⟩ :=
    pushHandlesLoop_spec dist s points.length 0 points ⟨none, none⟩ (by simp)
  simp only [near_map_iff, Nat.zero_le, true_and, forall_true_left, false_or, true_implies,
    reduceCtorEq] at hfirst hlast hfn hln
  have hF : ∀ f, ph'.first = some f ↔
      (WithinToolSize dist s points f ∧ ∀ j, j < f → ¬ WithinToolSize dist s points j) := by
    intro f; rw [hfirst f]
  have hL : ∀ l, ph'.last = some l ↔
      (WithinToolSize dist s points l ∧ ∀ j, l < j → ¬ WithinToolSize dist s points j) := by
    intro l; rw [hlast l]
    constructor
    · rintro (h | h)
      · exact h
      · exact absurd h.1 (by simp)
    · intro h; exact Or.inl h
  refine ⟨pts', ph', hrun, hF, hL, hfn, ?_, ?_⟩
  · rw [hln]
  · intro f l hf hl
    obtain ⟨hf1, hf2⟩ := (hF f).1 hf
    obtain ⟨hl1, hl2⟩ := (hL l).1 hl
    refine ⟨?_, withinToolSize_lt dist s points l hl1, ?_⟩
    · by_contra hcon
      exact hf2 l (by omega) hl1
    · intro j hj
      constructor
      · by_contra hcon
        exact hf2 j (by omega) hj
      · by_contra hcon
        exact hl2 j (by omega) hj

theorem clip_of_mem (v low high : K) (h0 : low ≤ v) (h1 : v ≤ high) : clip v low high = v := by
  unfold clip
  rw [max_eq_right h0, min_eq_left h1]

/-- C2 (amended). For a handle whose distance `d` to `mousePoint` before the
push satisfies `0 < d ≤ toolSize`, and whose target
`mousePoint + toolSize * (handle - mousePoint) / d` lies in the box of the
image, `_pushHandles` leaves the handle at distance `toolSize` from
`mousePoint`, on the ray from `mousePoint` through its position before the
push. -/
theorem pushHandles_on_circle (dist : Point K → Point K → K) (hE : IsEuclidean dist)
    (s : SculptData K) (points : List (Handle K)) (i : Nat) (handle : Handle K)
    (hi : points[i]? = some handle)
    (hpos : 0 < dist handle.toPoint s.mousePoint)
    (hle : dist handle.toPoint s.mousePoint ≤ s.toolSize)
    (hx0 : 0 ≤ s.mousePoint.x + s.toolSize * (handle.x - s.mousePoint.x)
      / dist handle.toPoint s.mousePoint)
    (hx1 : s.mousePoint.x + s.toolSize * (handle.x - s.mousePoint.x)
      / dist handle.toPoint s.mousePoint ≤ s.image.width)
    (hy0 : 0 ≤ s.mousePoint.y + s.toolSize * (handle.y - s.mousePoint.y)
      / dist handle.toPoint s.mousePoint)
    (hy1 : s.mousePoint.y + s.toolSize * (handle.y - s.mousePoint.y)
      / dist handle.toPoint s.mousePoint ≤ s.image.height) :
    ∃ points' pushedHandles handle',
      pushHandles dist s points = some (points', pushedHandles) ∧
      points'[i]? = some handle' ∧
      dist handle'.toPoint s.mousePoint = s.toolSize ∧
      handle'.x - s.mousePoint.x
        = s.toolSize / dist handle.toPoint s.mousePoint * (handle.x - s.mousePoint.x) ∧
      handle'.y - s.mousePoint.y
        = s.toolSize / dist handle.toPoint s.mousePoint * (handle.y - s.mousePoint.y) ∧
      0 < s.toolSize / dist handle.toPoint s.mousePoint := by
  obtain ⟨pts', ph', hrun, hP, hid, -⟩ :=
    pushHandlesLoop_spec dist s points.length 0 points ⟨none, none⟩ (by simp)
  have hlen : pts'.length = points.length := by simpa using congrArg List.length hid
  have hlt : i < points.length := (List.getElem?_eq_some_iff.1 hi).1
  have hpt : (pts'.map Handle.toPoint)[i]? = some (pushReference dist s handle.toPoint) := by
    rw [hP]
    simp [List.getElem?_map, hi]
  have hpt' : pts'[i].toPoint = pushReference dist s handle.toPoint := by
    rw [List.getElem?_map, List.getElem?_eq_getElem (by omega)] at hpt
    simpa using hpt
  have hnf : ¬ dist handle.toPoint s.mousePoint > s.toolSize := not_lt.2 hle
  rw [pushReference, if_neg hnf] at hpt'
  generalize hd : dist handle.toPoint s.mousePoint = d at *
  have hd0 : d ≠ 0 := ne_of_gt hpos
  have hx : pts'[i].x = s.mousePoint.x + s.toolSize * (handle.x - s.mousePoint.x) / d := by
    have := congrArg Point.x hpt'
    simp only [pushedPosition, clipToBox, Handle.toPoint, ← mul_div_assoc] at this
    rw [clip_of_mem _ _ _ hx0 hx1] at this
    exact this
  have hy : pts'[i].y = s.mousePoint.y + s.toolSize * (handle.y - s.mousePoint.y) / d := by
    have := congrArg Point.y hpt'
    simp only [pushedPosition, clipToBox, Handle.toPoint, ← mul_div_assoc] at this
    rw [clip_of_mem _ _ _ hy0 hy1] at this
    exact this
  have hsq := (hE handle.toPoint s.mousePoint).2
  rw [hd] at hsq
  simp only [Handle.toPoint] at hsq
  refine ⟨pts', ph', pts'[i], hrun, List.getElem?_eq_getElem (by omega), ?_, ?_, ?_,
    div_pos (lt_of_lt_of_le hpos hle) hpos⟩
  · apply hE.eq_of_sq (le_trans (le_of_lt hpos) hle)
    simp only [Handle.toPoint, hx, hy]
    have e1 : s.mousePoint.x + s.toolSize * (handle.x - s.mousePoint.x) / d - s.mousePoint.x
        = s.toolSize / d * (handle.x - s.mousePoint.x) := by ring
    have e2 : s.mousePoint.y + s.toolSize * (handle.y - s.mousePoint.y) / d - s.mousePoint.y
        = s.toolSize / d * (handle.y - s.mousePoint.y) := by ring
    rw [e1, e2]
    have : s.toolSize / d * (handle.x - s.mousePoint.x)
          * (s.toolSize / d * (handle.x - s.mousePoint.x))
        + s.toolSize / d * (handle.y - s.mousePoint.y)
          * (s.toolSize / d * (handle.y - s.mousePoint.y))
        = s.toolSize / d * (s.toolSize / d)
          * ((handle.x - s.mousePoint.x) * (handle.x - s.mousePoint.x)
            + (handle.y - s.mousePoint.y) * (handle.y - s.mousePoint.y)) := by ring
    rw [this, ← hsq]
    field_simp
  · rw [hx]; ring
  · rw [hy]; ring

/-- Witness of `pushHandles_on_circle`: the handle at `(4, 0)`, at distance `3`
from the brush centre `(1, 0)`, is pushed by a brush of radius `5` to distance
`5`. -/
theorem pushHandles_on_circle_witness :
    ∃ points' pushedHandles handle',
      pushHandles (euclideanDistance Real.sqrt)
        { image := ⟨20, 20⟩, mousePoint := ⟨1, 0⟩, toolSize := 5, minSpacing := 1,
          maxSpacing := 5 }
        [⟨0, 4, 0, [1]⟩, ⟨1, 10, 0, [2]⟩, ⟨2, 4, 10, [0]⟩]
        = some (points', pushedHandles) ∧
      points'[0]? = some handle' ∧
      euclideanDistance Real.sqrt handle'.toPoint ⟨1, 0⟩ = 5 ∧
      handle'.x - 1 = 5 / euclideanDistance Real.sqrt ⟨4, 0⟩ ⟨1, 0⟩ * (4 - 1) ∧
      handle'.y - 0 = 5 / euclideanDistance Real.sqrt ⟨4, 0⟩ ⟨1, 0⟩ * (0 - 0) ∧
      0 < 5 / euclideanDistance Real.sqrt ⟨4, 0⟩ ⟨1, 0⟩ := by
  have hd : euclideanDistance Real.sqrt (⟨4, 0⟩ : Point ℝ) ⟨1, 0⟩ = 3 :=
    isEuclidean_sqrt.eq_of_sq (by norm_num) (by norm_num)
  exact pushHandles_on_circle (euclideanDistance Real.sqrt) isEuclidean_sqrt
    { image := ⟨20, 20⟩, mousePoint := ⟨1, 0⟩, toolSize := 5, minSpacing := 1, maxSpacing := 5 }
    [⟨0, 4, 0, [1]⟩, ⟨1, 10, 0, [2]⟩, ⟨2, 4, 10, [0]⟩] 0 ⟨0, 4, 0, [1]⟩ rfl
    (by simp only [Handle.toPoint, hd]; norm_num)
    (by simp only [Handle.toPoint, hd]; norm_num)
    (by simp only [Handle.toPoint, hd]; norm_num)
    (by simp only [Handle.toPoint, hd]; norm_num)
    (by simp only [Handle.toPoint, hd]; norm_num)
    (by simp only [Handle.toPoint, hd]; norm_num)

/-- C2 (counterexample). In a 20 by 20 image, with the brush centre at `(1, 0)`
and radius `2`, the handle at `(0, 0)` is at distance `1` (all distances below
are rational, so `Rat.sqrt` is exact).  Its target `(-1, 0)` is outside the
image and is clipped back to `(0, 0)`: after `_pushHandles` the handle is at
distance `1`, not `2`. -/
theorem pushHandles_clipped_counterexample :
    euclideanDistance Rat.sqrt (Handle.toPoint ⟨0, 0, 0, [1]⟩) ⟨1, 0⟩ ≤ 2 ∧
    pushHandles (euclideanDistance Rat.sqrt)
        { image := ⟨20, 20⟩, mousePoint := ⟨1, 0⟩, toolSize := 2, minSpacing := 1,
          maxSpacing := 2 }
        [⟨0, 0, 0, [1]⟩, ⟨1, 10, 0, [2]⟩, ⟨2, 1, 10, [0]⟩]
      = some ([⟨0, 0, 0, [1]⟩, ⟨1, 10, 0, [2]⟩, ⟨2, 1, 10, [0]⟩], ⟨some 0, some 0⟩) ∧
    euclideanDistance Rat.sqrt (Handle.toPoint ⟨0, 0, 0, [1]⟩) ⟨1, 0⟩ ≠ 2 := by
  decide!

/-- Witness of `sculpt_unchanged_of_far`: a 6 by 8 rectangle whose corners are
all at distance `5` from the cursor `(3, 4)`, sculpted with a brush of radius
`2`, stays as it is although its edges are longer than `maxSpacing = 2`. -/
theorem sculpt_unchanged_of_far_witness :
    (∀ handle ∈ ([⟨0, 0, 0, [1]⟩, ⟨1, 6, 0, [2]⟩, ⟨2, 6, 8, [3]⟩, ⟨3, 0, 8, [0]⟩] :
        List (Handle ℚ)),
      euclideanDistance Rat.sqrt handle.toPoint ⟨3, 4⟩ > 2) ∧
    sculpt (euclideanDistance Rat.sqrt)
        { minSpacing := 1, maxSpacing := none, showCursorOnHover := true,
          limitRadiusOutsideRegion := true, hoverCursorFadeAlpha := 1 / 2,
          hoverCursorFadeDistance := 6 / 5 }
        2 ⟨20, 20⟩ ⟨3, 4⟩
        [⟨0, 0, 0, [1]⟩, ⟨1, 6, 0, [2]⟩, ⟨2, 6, 8, [3]⟩, ⟨3, 0, 8, [0]⟩]
      = some [⟨0, 0, 0, [1]⟩, ⟨1, 6, 0, [2]⟩, ⟨2, 6, 8, [3]⟩, ⟨3, 0, 8, [0]⟩] :=
  ⟨by decide!, sculpt_unchanged_of_far _ _ _ _ _ _ (by decide!)⟩

end PushClaims

/-! ## Splicing -/

theorem spliceStart_natCast {α : Type} (xs : List α) (b : Nat) (h : b ≤ xs.length) :
    spliceStart xs (b : Int) = b := by
  unfold spliceStart
  have : ¬ ((b : Int) < 0) := by omega
  simp [this, h]

theorem spliceRemove_natCast {α : Type} (xs : List α) (b : Nat) (h : b ≤ xs.length) :
    spliceRemove xs (b : Int) = xs.eraseIdx b := by
  unfold spliceRemove
  rw [spliceStart_natCast xs b h, List.eraseIdx_eq_take_drop_succ]

theorem spliceInsert_natCast {α : Type} (xs : List α) (b : Nat) (a : α) (h : b ≤ xs.length) :
    spliceInsert xs (b : Int) a = xs.take b ++ a :: xs.drop b := by
  unfold spliceInsert
  rw [spliceStart_natCast xs b h]

/-! ## Consolidate: merging one pair -/

section Combine
variable {K : Type} [LinearOrderedField K]

theorem combineHandles_spec (s : SculptData K) (points : List (Handle K)) (a b : Nat)
    (handle0 handle1 : Handle K) (ha : points[a]? = some handle0)
    (hb : points[b]? = some handle1) :
    ∃ merged : Handle K,
      combineHandles s points ((a : Int), (b : Int)) = some ((points.set a merged).eraseIdx b) ∧
      merged.toPoint
        = clipToBox ⟨(handle0.x + handle1.x) / 2, (handle0.y + handle1.y) / 2⟩ s.image ∧
      merged.id = handle0.id := by
  have hal : a < points.length := (List.getElem?_eq_some_iff.1 ha).1
  have hbl : b < points.length := (List.getElem?_eq_some_iff.1 hb).1
  simp only [combineHandles, getAt_natCast, ha, hb, Option.bind_eq_bind, Option.some_bind,
    setAt_natCast, List.length_set, getNextHandleIndex_natCast]
  generalize hh : ({ id := handle0.id, x := _, y := _, lines := handle0.lines } : Handle K) = h'
  have hid : h'.id = handle0.id := by subst hh; rfl
  have hpt : h'.toPoint
      = clipToBox ⟨(handle0.x + handle1.x) / 2, (handle0.y + handle1.y) / 2⟩ s.image := by
    subst hh; rfl
  have hget : (points.set a h')[a]? = some h' := by simp [hal]
  rw [hget]
  simp only [Option.some_bind]
  generalize hc : (if b + 1 = points.length then 0 else b + 1) = c
  have hcl : c < points.length := by subst hc; split_ifs <;> omega
  obtain ⟨after, hafter⟩ : ∃ after, (points.set a h')[c]? = some after :=
    exists_getElem?_of_lt _ c (by simpa using hcl)
  rw [hafter]
  simp only [Option.some_bind, List.set_set]
  rw [spliceRemove_natCast _ _ (by simp; omega)]
  exact ⟨_, rfl, hpt, hid⟩

end Combine

/-! ## Consolidate: the scan, the merge passes and the claims -/

section FindClose
variable {K : Type} [LinearOrderedField K]

theorem getNextHandleIndex_lt (k n : Nat) (h : k < n) :
    0 ≤ getNextHandleIndex k n ∧ getNextHandleIndex k n < n := by
  unfold getNextHandleIndex
  split_ifs <;> omega

theorem getAt_isSome {α : Type} (xs : List α) (j : Int) (h0 : 0 ≤ j) (h1 : j < xs.length) :
    ∃ a, getAt xs j = some a := by
  unfold getAt
  have : ¬ j < 0 := by omega
  simp only [this, if_false]
  exact exists_getElem?_of_lt xs j.toNat (by omega)

theorem findCloseHandlePairsLoop_spec (dist : Point K → Point K → K) (s : SculptData K)
    (points : List (Handle K)) :
    ∀ (fuel i length : Nat) (closePairs : List (Int × Int)),
      length - i < fuel → ClosePairsInv dist s points i length closePairs →
      ∃ closePairs' i' length',
        findCloseHandlePairsLoop dist s points fuel i length closePairs = some closePairs' ∧
        length' ≤ i' ∧ ClosePairsInv dist s points i' length' closePairs' := by
  intro fuel
  induction fuel with
  | zero => intro i length ps h; omega
  | succ fuel ih =>
    intro i length ps hfuel hinv
    by_cases hi : i < length
    · have hin : i < points.length := lt_of_lt_of_le hi hinv.length_le
      obtain ⟨handle, hh⟩ : ∃ handle, points[i]? = some handle :=
        ⟨points[i], List.getElem?_eq_getElem hin⟩
      obtain ⟨hn0, hn1⟩ := getNextHandleIndex_lt i points.length hin
      obtain ⟨nextHandle, hnh⟩ := getAt_isSome points _ hn0 hn1
      have hclose : Close dist s points i ↔
          dist handle.toPoint nextHandle.toPoint < s.minSpacing := by
        unfold Close
        constructor
        · rintro ⟨a, b, ha, hb, hd⟩
          rw [hh] at ha; rw [hnh] at hb
          cases ha; cases hb
          exact hd
        · intro hd
          exact ⟨handle, nextHandle, hh, hnh, hd⟩
      have hps0 : i = 0 → ps = [] := by
        intro h0
        cases ps with
        | nil => rfl
        | cons p rest =>
          obtain ⟨k, _, _, _, hk⟩ := hinv.pairs p (List.mem_cons_self _ _)
          omega
      simp only [findCloseHandlePairsLoop, hi, if_true, getAt_natCast, hh, hnh,
        Option.bind_eq_bind, Option.some_bind]
      by_cases hd : dist handle.toPoint nextHandle.toPoint < s.minSpacing
      · simp only [hd, if_true]
        apply ih
        · split_ifs <;> omega
        · have hlenn : i = 0 → length = points.length := fun h0 =>
            (hinv.empty (hps0 h0)).1
          constructor
          · split_ifs
            · have := hinv.length_le; omega
            · exact hinv.length_le
          · split_ifs with h0
            · have := hlenn h0; omega
            · exact hinv.le_length
          · intro p hp
            rcases List.mem_append.1 hp with hp | hp
            · obtain ⟨k, h1, h2, h3, h4⟩ := hinv.pairs p hp
              exact ⟨k, h1, h2, h3, by omega⟩
            · simp only [List.mem_singleton] at hp
              exact ⟨i, hp, hin, hclose.2 hd, by omega⟩
          · rw [List.pairwise_append]
            refine ⟨hinv.sorted, List.pairwise_singleton _ _, ?_⟩
            intro p hp q hq
            simp only [List.mem_singleton] at hq
            obtain ⟨k, h1, _, _, h4⟩ := hinv.pairs p hp
            subst hq
            rw [h1]
            simp only
            omega
          · rintro ⟨p, hp, hp0⟩
            rcases List.mem_append.1 hp with hp | hp
            · have hne : i ≠ 0 := by
                intro h0
                rw [hps0 h0] at hp
                simp at hp
              simp only [hne, if_false]
              exact hinv.zero_mem ⟨p, hp, hp0⟩
            · simp only [List.mem_singleton] at hp
              subst hp
              simp only at hp0
              have h0 : i = 0 := by omega
              have := hlenn h0
              simp only [h0, if_true]
              omega
          · intro p hp
            rcases List.mem_append.1 hp with hp | hp
            · have hne : i ≠ 0 := by
                intro h0
                rw [hps0 h0] at hp
                simp at hp
              simp only [hne, if_false]
              exact hinv.lt_length p hp
            · simp only [List.mem_singleton] at hp
              subst hp
              simp only
              split_ifs with h0
              · have := hlenn h0
                omega
              · left; omega
          · intro h
            simp at h
      · simp only [hd, if_false]
        apply ih
        · omega
        · constructor
          · exact hinv.length_le
          · exact hinv.le_length
          · intro p hp
            obtain ⟨k, h1, h2, h3, h4⟩ := hinv.pairs p hp
            exact ⟨k, h1, h2, h3, by omega⟩
          · exact hinv.sorted
          · exact hinv.zero_mem
          · exact hinv.lt_length
          · intro h
            refine ⟨(hinv.empty h).1, ?_⟩
            intro k hk hkn
            rcases Nat.eq_or_lt_of_le (Nat.le_of_lt_succ hk) with h' | h'
            · subst h'
              rw [hclose]; exact hd
            · exact (hinv.empty h).2 k h' hkn
    · simp only [findCloseHandlePairsLoop, hi, if_false]
      exact ⟨ps, i, length, rfl, by omega, hinv⟩

theorem findCloseHandlePairs_inv (dist : Point K → Point K → K) (s : SculptData K)
    (points : List (Handle K)) :
    ∃ closePairs i length,
      findCloseHandlePairs dist s points = some closePairs ∧ length ≤ i ∧
      ClosePairsInv dist s points i length closePairs := by
  apply findCloseHandlePairsLoop_spec dist s points (points.length + 1) 0 points.length []
  · omega
  · constructor
    · exact le_refl _
    · omega
    · intro p hp; simp at hp
    · exact List.Pairwise.nil
    · rintro ⟨p, hp, _⟩; simp at hp
    · intro p hp; simp at hp
    · intro _
      exact ⟨rfl, fun k hk => by omega⟩

/-- If `_findCloseHandlePairs` finds no pair, no handle is closer than
`minSpacing` to its circular successor. -/
theorem not_close_of_findCloseHandlePairs_nil (dist : Point K → Point K → K)
    (s : SculptData K) (points : List (Handle K))
    (h : findCloseHandlePairs dist s points = some []) :
    ∀ k, k < points.length → ¬ Close dist s points k := by
  obtain ⟨ps, i, length, hrun, hle, hinv⟩ := findCloseHandlePairs_inv dist s points
  rw [h] at hrun
  cases hrun
  obtain ⟨hlen, hall⟩ := hinv.empty rfl
  intro k hk
  exact hall k (by omega) hk

theorem mergeReady_of_pairwise (n : Nat) :
    ∀ (ps : List (Int × Int)) (m : Nat),
      (∀ p ∈ ps, ∃ k : Nat, p = ((k : Int), getNextHandleIndex k n) ∧ k < n ∧ m ≤ k) →
      ps.Pairwise (fun p q => p.1 + 2 ≤ q.1) → MergeReady n m ps := by
  intro ps
  induction ps with
  | nil => intro m _ _; trivial
  | cons p rest ih =>
    intro m hform hsorted
    obtain ⟨k, hp, hk, hmk⟩ := hform p (List.mem_cons_self _ _)
    rw [List.pairwise_cons] at hsorted
    refine ⟨⟨k, by rw [hp], hmk, hk, ?_⟩, ih (m + 1) ?_ hsorted.2⟩
    · rw [hp]
      simp only [getNextHandleIndex]
      split_ifs with h
      · right; rfl
      · left; exact ⟨rfl, by omega⟩
    · intro q hq
      obtain ⟨kq, hq1, hq2, _⟩ := hform q (List.mem_cons_of_mem _ hq)
      have := hsorted.1 q hq
      rw [hp, hq1] at this
      simp only at this
      exact ⟨kq, hq1, hq2, by omega⟩

theorem mergeReady_of_inv (dist : Point K → Point K → K) (s : SculptData K)
    (points : List (Handle K)) (i length : Nat) (ps : List (Int × Int))
    (hinv : ClosePairsInv dist s points i length ps) : MergeReady points.length 0 ps := by
  apply mergeReady_of_pairwise _ _ _ _ hinv.sorted
  intro p hp
  obtain ⟨k, h1, h2, _, _⟩ := hinv.pairs p hp
  exact ⟨k, h1, h2, Nat.zero_le _⟩

theorem mergeReady_length (n : Nat) :
    ∀ (ps : List (Int × Int)) (m : Nat), MergeReady n m ps → ps.length ≤ n - m := by
  intro ps
  induction ps with
  | nil => intro m _; simp
  | cons p rest ih =>
    intro m h
    obtain ⟨⟨k, _, hmk, hk, _⟩, hrest⟩ := h
    have := ih (m + 1) hrest
    simp only [List.length_cons]
    omega

theorem mergeCloseHandlesLoop_spec (s : SculptData K) (n : Nat) :
    ∀ (ps : List (Int × Int)) (m : Nat) (points : List (Handle K)),
      m + points.length = n → MergeReady n m ps →
      ∃ points', mergeCloseHandlesLoop s ps (m : Int) points = some points' ∧
        points'.length + ps.length = points.length := by
  intro ps
  induction ps with
  | nil => intro m points _ _; exact ⟨points, rfl, by simp⟩
  | cons p rest ih =>
    intro m points hlen hready
    obtain ⟨⟨k, hp1, hmk, hk, hp2⟩, hrest⟩ := hready
    obtain ⟨b, hb, hcorr⟩ : ∃ b : Nat, b < points.length ∧
        getCorrectedPair p (m : Int) = (((k - m : Nat) : Int), (b : Int)) := by
      rcases hp2 with ⟨h2, h3⟩ | h2
      · refine ⟨k + 1 - m, by omega, ?_⟩
        unfold getCorrectedPair
        simp only [hp1, h2]
        have : ¬ ((k : Int) + 1 - (m : Int) < 0) := by omega
        simp only [this, if_false]
        congr 1 <;> omega
      · refine ⟨0, by omega, ?_⟩
        unfold getCorrectedPair
        simp only [hp1, h2]
        split_ifs
        · congr 1; omega
        · congr 1 <;> omega
    have ha : k - m < points.length := by omega
    obtain ⟨merged, hcomb, -, -⟩ := combineHandles_spec s points (k - m) b
      points[k - m] points[b] (List.getElem?_eq_getElem ha) (List.getElem?_eq_getElem hb)
    have hlen' : ((points.set (k - m) merged).eraseIdx b).length + 1 = points.length := by
      rw [List.length_eraseIdx_of_lt (by simpa using hb)]
      simp only [List.length_set]
      omega
    obtain ⟨pts', hrun, hl⟩ := ih (m + 1) ((points.set (k - m) merged).eraseIdx b)
      (by omega) hrest
    refine ⟨pts', ?_, by simp only [List.length_cons]; omega⟩
    simp only [mergeCloseHandlesLoop, hcorr, hcomb, Option.bind_eq_bind, Option.some_bind]
    have : ((m : Int) + 1) = ((m + 1 : Nat) : Int) := by omega
    rw [this]
    exact hrun

theorem mergeCloseHandles_spec (dist : Point K → Point K → K) (s : SculptData K) :
    ∀ (fuel : Nat) (points : List (Handle K)) (ps : List (Int × Int)),
      MergeReady points.length 0 ps → points.length + 1 ≤ fuel + ps.length →
      ∃ points', mergeCloseHandles dist s fuel points ps = some points' ∧
        findCloseHandlePairs dist s points' = some [] ∧
        points'.length ≤ points.length := by
  intro fuel
  induction fuel with
  | zero =>
    intro points ps hready hfuel
    have := mergeReady_length _ _ _ hready
    omega
  | succ fuel ih =>
    intro points ps hready hfuel
    obtain ⟨pts1, hloop, hl1⟩ :=
      mergeCloseHandlesLoop_spec s points.length ps 0 points (by simp) hready
    obtain ⟨newPs, i, length, hfind, -, hinv⟩ := findCloseHandlePairs_inv dist s pts1
    simp only [mergeCloseHandles, Option.bind_eq_bind]
    have h0 : ((0 : Nat) : Int) = 0 := rfl
    rw [h0] at hloop
    rw [hloop]
    simp only [Option.some_bind, hfind]
    by_cases hnew : newPs.length ≠ 0
    · rw [if_pos hnew]
      obtain ⟨pts', hrun, hnil, hle⟩ := ih pts1 newPs
        (mergeReady_of_inv dist s pts1 i length newPs hinv) (by omega)
      exact ⟨pts', hrun, hnil, by omega⟩
    · rw [if_neg hnew]
      have : newPs = [] := List.length_eq_zero.1 (not_not.1 hnew)
      rw [this] at hfind
      exact ⟨pts1, rfl, hfind, by omega⟩

/-- C6. For a contour of at least 3 handles, `_consolidateHandles` returns,
and afterwards either the contour has exactly 3 handles or every handle is at
least `minSpacing` away from its circular successor. -/
theorem consolidateHandles_spacing (dist : Point K → Point K → K) (s : SculptData K)
    (points : List (Handle K)) (h3 : 3 ≤ points.length) :
    ∃ points', consolidateHandles dist s points = some points' ∧
      (points'.length = 3 ∨
        ∀ (i : Nat) (handle nextHandle : Handle K), points'[i]? = some handle →
          getAt points' (getNextHandleIndex i points'.length) = some nextHandle →
          s.minSpacing ≤ dist handle.toPoint nextHandle.toPoint) := by
  unfold consolidateHandles
  by_cases hle : points.length ≤ 3
  · rw [if_pos hle]
    exact ⟨points, rfl, Or.inl (by omega)⟩
  · rw [if_neg hle]
    obtain ⟨ps, i, length, hfind, -, hinv⟩ := findCloseHandlePairs_inv dist s points
    obtain ⟨pts', hrun, hnil, -⟩ := mergeCloseHandles_spec dist s (points.length + 1) points ps
      (mergeReady_of_inv dist s points i length ps hinv) (by omega)
    refine ⟨pts', ?_, Or.inr ?_⟩
    · simp only [hfind, Option.bind_eq_bind, Option.some_bind]
      exact hrun
    · intro k handle nextHandle hk hnext
      have hkl : k < pts'.length := (List.getElem?_eq_some_iff.1 hk).1
      have := not_close_of_findCloseHandlePairs_nil dist s pts' hnil k hkl
      exact not_lt.1 (fun hd => this ⟨handle, nextHandle, hk, hnext, hd⟩)

/-- Witness of `consolidateHandles_spacing`: a pentagon with two handles `1/2`
apart and `minSpacing = 1`. -/
theorem consolidateHandles_spacing_witness :
    ∃ points', consolidateHandles (euclideanDistance Rat.sqrt)
        { image := ⟨20, 20⟩, mousePoint := ⟨0, 0⟩, toolSize := 1, minSpacing := 1,
          maxSpacing := 2 }
        [⟨0, 0, 0, [1]⟩, ⟨1, 5, 0, [2]⟩, ⟨2, 5, 1 / 2, [3]⟩, ⟨3, 5, 5, [4]⟩, ⟨4, 0, 5, [0]⟩]
        = some points' ∧
      (points'.length = 3 ∨
        ∀ (i : Nat) (handle nextHandle : Handle ℚ), points'[i]? = some handle →
          getAt points' (getNextHandleIndex i points'.length) = some nextHandle →
          (1 : ℚ) ≤ euclideanDistance Rat.sqrt handle.toPoint nextHandle.toPoint) :=
  consolidateHandles_spacing (euclideanDistance Rat.sqrt)
    { image := ⟨20, 20⟩, mousePoint := ⟨0, 0⟩, toolSize := 1, minSpacing := 1, maxSpacing := 2 }
    [⟨0, 0, 0, [1]⟩, ⟨1, 5, 0, [2]⟩, ⟨2, 5, 1 / 2, [3]⟩, ⟨3, 5, 5, [4]⟩, ⟨4, 0, 5, [0]⟩]
    (by decide)

/-- C7. For every pair of indices `[a, b]` of handles of the contour (in
particular for `b` the circular successor of `a`), `_combineHandles` returns
the contour in which the handle at `a` has been replaced by a handle `merged`
with the same identity, placed at the clipped midpoint of the two handles, and
in which the handle at `b` has then been deleted: one handle fewer, every other
handle unchanged and in the same order. -/
theorem combineHandles_merges (s : SculptData K) (points : List (Handle K)) (a b : Nat)
    (handle0 handle1 : Handle K) (ha : points[a]? = some handle0)
    (hb : points[b]? = some handle1) :
    ∃ points' merged,
      combineHandles s points ((a : Int), (b : Int)) = some points' ∧
      points' = (points.set a merged).eraseIdx b ∧
      merged.id = handle0.id ∧
      merged.toPoint
        = clipToBox ⟨(handle0.x + handle1.x) / 2, (handle0.y + handle1.y) / 2⟩ s.image ∧
      points'.length + 1 = points.length ∧
      (∀ j, j ≠ a → j < b → points'[j]? = points[j]?) ∧
      (∀ j, j ≠ a → b < j → points'[j - 1]? = points[j]?) ∧
      (a < b → points'[a]? = some merged) ∧
      (b < a → points'[a - 1]? = some merged) := by
  have hal : a < points.length := (List.getElem?_eq_some_iff.1 ha).1
  have hbl : b < points.length := (List.getElem?_eq_some_iff.1 hb).1
  obtain ⟨merged, hcomb, hpt, hid⟩ := combineHandles_spec s points a b handle0 handle1 ha hb
  refine ⟨_, merged, hcomb, rfl, hid, hpt, ?_, ?_, ?_, ?_, ?_⟩
  · rw [List.length_eraseIdx_of_lt (by simpa using hbl)]
    simp only [List.length_set]
    omega
  · intro j hja hjb
    rw [List.getElem?_eraseIdx_of_lt _ _ _ hjb, List.getElem?_set_ne (Ne.symm hja)]
  · intro j hja hjb
    rw [List.getElem?_eraseIdx_of_ge _ _ _ (by omega)]
    have : j - 1 + 1 = j := by omega
    rw [this, List.getElem?_set_ne (Ne.symm hja)]
  · intro hab
    rw [List.getElem?_eraseIdx_of_lt _ _ _ hab]
    simp [hal]
  · intro hba
    rw [List.getElem?_eraseIdx_of_ge _ _ _ (by omega)]
    have : a - 1 + 1 = a := by omega
    rw [this]
    simp [hal]

/-- Witness of `combineHandles_merges`: the handles at `(5, 5)` and `(5, 5.3)`
merge into one handle at `(5, 5.15)`, and the contour loses exactly one
handle. -/
theorem combineHandles_merges_witness :
    combineHandles
        ({ image := ⟨20, 20⟩, mousePoint := ⟨0, 0⟩, toolSize := 1, minSpacing := 1,
           maxSpacing := 2 } : SculptData ℚ)
        [⟨0, 5, 5, [1]⟩, ⟨1, 5, 53 / 10, [2]⟩, ⟨2, 9, 9, [0]⟩] (0, 1)
      = some [⟨0, 5, 103 / 20, [2]⟩, ⟨2, 9, 9, [0]⟩] ∧
    ∃ (points' : List (Handle ℚ)) (merged : Handle ℚ),
      combineHandles
          ({ image := ⟨20, 20⟩, mousePoint := ⟨0, 0⟩, toolSize := 1, minSpacing := 1,
             maxSpacing := 2 } : SculptData ℚ)
          [⟨0, 5, 5, [1]⟩, ⟨1, 5, 53 / 10, [2]⟩, ⟨2, 9, 9, [0]⟩]
          (((0 : Nat) : Int), ((1 : Nat) : Int))
        = some points' ∧
      points' = (([⟨0, 5, 5, [1]⟩, ⟨1, 5, 53 / 10, [2]⟩, ⟨2, 9, 9, [0]⟩] :
          List (Handle ℚ)).set 0 merged).eraseIdx 1 ∧
      merged.id = 0 ∧
      merged.toPoint = clipToBox ⟨(5 + 5) / 2, (5 + 53 / 10) / 2⟩ ⟨20, 20⟩ ∧
      points'.length + 1 = 3 :=
  ⟨by decide!, by
    obtain ⟨points', merged, h1, h2, h3, h4, h5, -⟩ := combineHandles_merges
      ({ image := ⟨20, 20⟩, mousePoint := ⟨0, 0⟩, toolSize := 1, minSpacing := 1,
         maxSpacing := 2 } : SculptData ℚ)
      [⟨0, 5, 5, [1]⟩, ⟨1, 5, 53 / 10, [2]⟩, ⟨2, 9, 9, [0]⟩] 0 1
      ⟨0, 5, 5, [1]⟩ ⟨1, 5, 53 / 10, [2]⟩ rfl rfl
    exact ⟨points', merged, h1, h2, h3, h4, h5⟩⟩

/-- C8. For a contour of at least 2 handles, `_findCloseHandlePairs` returns a
list of pairs in which no index occurs twice (the first and the second
components, taken together, are pairwise distinct), and every recorded pair is
`[i, next(i)]` for an index `i` of the contour whose handle is closer than
`minSpacing` to its circular successor. -/
theorem findCloseHandlePairs_disjoint (dist : Point K → Point K → K) (s : SculptData K)
    (points : List (Handle K)) (h2 : 2 ≤ points.length) :
    ∃ closePairs, findCloseHandlePairs dist s points = some closePairs ∧
      (closePairs.map Prod.fst ++ closePairs.map Prod.snd).Nodup ∧
      ∀ p ∈ closePairs, 0 ≤ p.1 ∧ p.1 < points.length ∧
        p.2 = getNextHandleIndex p.1 points.length ∧
        ∃ handle nextHandle, getAt points p.1 = some handle ∧
          getAt points p.2 = some nextHandle ∧
          dist handle.toPoint nextHandle.toPoint < s.minSpacing := by
  obtain ⟨ps, i, length, hfind, hle, hinv⟩ := findCloseHandlePairs_inv dist s points
  refine ⟨ps, hfind, ?_, ?_⟩
  · have hform : ∀ p ∈ ps, ∃ k : Nat, p.1 = k ∧ k < points.length ∧
        p.2 = (if k + 1 = points.length then 0 else ((k + 1 : Nat) : Int)) := by
      intro p hp
      obtain ⟨k, h1, hk, _, _⟩ := hinv.pairs p hp
      refine ⟨k, by rw [h1], hk, ?_⟩
      rw [h1]
      simp only [getNextHandleIndex]
      split_ifs <;> omega
    have hwrap : ∀ p ∈ ps, ∀ q ∈ ps, p.1 = 0 → q.1 + 1 = points.length → False := by
      intro p hp q hq hp0 hq1
      have h1 := hinv.zero_mem ⟨p, hp, hp0⟩
      rcases hinv.lt_length q hq with h | h <;> omega
    have hsym : ps.Pairwise (fun p q => p.1 + 2 ≤ q.1 ∨ q.1 + 2 ≤ p.1) :=
      hinv.sorted.imp (fun h => Or.inl h)
    have hall : ∀ p ∈ ps, ∀ q ∈ ps, p ≠ q → (p.1 + 2 ≤ q.1 ∨ q.1 + 2 ≤ p.1) := by
      intro p hp q hq hne
      exact hsym.forall (fun a b h => h.symm) hp hq hne
    rw [List.nodup_append]
    refine ⟨?_, ?_, ?_⟩
    · rw [List.Nodup, List.pairwise_map]
      exact hinv.sorted.imp (fun h => by omega)
    · rw [List.Nodup, List.pairwise_map]
      apply hinv.sorted.imp_of_mem
      intro p q hp hq hpq
      obtain ⟨kp, hp1, hpk, hp2⟩ := hform p hp
      obtain ⟨kq, hq1, hqk, hq2⟩ := hform q hq
      rw [hp2, hq2]
      split_ifs <;> omega
    · intro a ha1 ha2
      obtain ⟨p, hp, hpa⟩ := List.mem_map.1 ha1
      obtain ⟨q, hq, hqa⟩ := List.mem_map.1 ha2
      obtain ⟨kp, hp1, hpk, hp2⟩ := hform p hp
      obtain ⟨kq, hq1, hqk, hq2⟩ := hform q hq
      by_cases hpq : p = q
      · subst hpq
        rw [hp2] at hqa
        split_ifs at hqa <;> omega
      · have := hall p hp q hq hpq
        rw [hq2] at hqa
        split_ifs at hqa with hw
        · exact hwrap p hp q hq (by omega) (by omega)
        · omega
  · intro p hp
    obtain ⟨k, h1, hk, hclose, _⟩ := hinv.pairs p hp
    obtain ⟨handle, nextHandle, hh, hn, hd⟩ := hclose
    rw [h1]
    refine ⟨by simp, by simpa using hk, rfl, handle, nextHandle, ?_, hn, hd⟩
    simp only [getAt_natCast]
    exact hh

/-- Witness of `findCloseHandlePairs_disjoint`: a hexagon in which the handles
1 and 2 are close and the last handle is close to the first; the recorded
pairs are `[1, 2]` and the wrap-around pair `[5, 0]`. -/
theorem findCloseHandlePairs_disjoint_witness :
    findCloseHandlePairs (euclideanDistance Rat.sqrt)
        { image := ⟨20, 20⟩, mousePoint := ⟨0, 0⟩, toolSize := 1, minSpacing := 1,
          maxSpacing := 2 }
        [⟨0, 0, 0, [1]⟩, ⟨1, 5, 0, [2]⟩, ⟨2, 5, 1 / 2, [3]⟩, ⟨3, 5, 5, [4]⟩, ⟨4, 0, 5, [5]⟩,
          ⟨5, 0, 1 / 2, [0]⟩]
      = some [(1, 2), (5, 0)] ∧
    ∃ closePairs, findCloseHandlePairs (euclideanDistance Rat.sqrt)
        { image := ⟨20, 20⟩, mousePoint := ⟨0, 0⟩, toolSize := 1, minSpacing := 1,
          maxSpacing := 2 }
        [⟨0, 0, 0, [1]⟩, ⟨1, 5, 0, [2]⟩, ⟨2, 5, 1 / 2, [3]⟩, ⟨3, 5, 5, [4]⟩, ⟨4, 0, 5, [5]⟩,
          ⟨5, 0, 1 / 2, [0]⟩]
        = some closePairs ∧
      (closePairs.map Prod.fst ++ closePairs.map Prod.snd).Nodup :=
  ⟨by decide!, by
    obtain ⟨closePairs, h1, h2, -⟩ := findCloseHandlePairs_disjoint
      (euclideanDistance Rat.sqrt)
      { image := ⟨20, 20⟩, mousePoint := ⟨0, 0⟩, toolSize := 1, minSpacing := 1,
        maxSpacing := 2 }
      [⟨0, 0, 0, [1]⟩, ⟨1, 5, 0, [2]⟩, ⟨2, 5, 1 / 2, [3]⟩, ⟨3, 5, 5, [4]⟩, ⟨4, 0, 5, [5]⟩,
        ⟨5, 0, 1 / 2, [0]⟩] (by decide)
    exact ⟨closePairs, h1, h2⟩⟩

/-- C1 (the code at the failing input). A quadrilateral with two pairs of close
handles, `(3.6, 0)`, `(3, 0)` and `(0, 4)`, `(0, 4.8)`, and `minSpacing = 3`:
`_consolidateHandles` merges both pairs and leaves a contour of 2 handles, and
so does the whole `_sculpt` step with the cursor at `(0, 0)` and a brush of
radius `3` (all distances involved are rational, so `Rat.sqrt` is exact).  A
square of side `1/2` with `minSpacing = 1` is merged away completely. -/
theorem consolidateHandles_below_three :
    consolidateHandles (euclideanDistance Rat.sqrt)
        { image := ⟨20, 20⟩, mousePoint := ⟨0, 0⟩, toolSize := 3, minSpacing := 3,
          maxSpacing := 6 }
        [⟨0, 18 / 5, 0, [1]⟩, ⟨1, 3, 0, [2]⟩, ⟨2, 0, 4, [3]⟩, ⟨3, 0, 24 / 5, [0]⟩]
      = some [⟨0, 33 / 10, 0, [2]⟩, ⟨2, 0, 22 / 5, [0]⟩] ∧
    sculpt (euclideanDistance Rat.sqrt)
        { minSpacing := 3, maxSpacing := none, showCursorOnHover := true,
          limitRadiusOutsideRegion := true, hoverCursorFadeAlpha := 1 / 2,
          hoverCursorFadeDistance := 6 / 5 }
        3 ⟨20, 20⟩ ⟨0, 0⟩
        [⟨0, 18 / 5, 0, [1]⟩, ⟨1, 3, 0, [2]⟩, ⟨2, 0, 4, [3]⟩, ⟨3, 0, 24 / 5, [0]⟩]
      = some [⟨0, 33 / 10, 0, [2]⟩, ⟨2, 0, 22 / 5, [0]⟩] ∧
    consolidateHandles (euclideanDistance Rat.sqrt)
        { image := ⟨20, 20⟩, mousePoint := ⟨0, 0⟩, toolSize := 1, minSpacing := 1,
          maxSpacing := 2 }
        [⟨0, 0, 0, [1]⟩, ⟨1, 1 / 2, 0, [2]⟩, ⟨2, 1 / 2, 1 / 2, [3]⟩, ⟨3, 0, 1 / 2, [0]⟩]
      = some [] := by
  decide!

end FindClose

/-! ## Densify -/

theorem getElem?_splice_lt {α : Type} (L : List α) (i : Nat) (x : α) (t : Nat) (h : t < i)
    (hi : i ≤ L.length) : (L.take i ++ x :: L.drop i)[t]? = L[t]? := by
  rw [List.getElem?_append_left (by simp; omega), List.getElem?_take_of_lt h]

theorem getElem?_splice_eq {α : Type} (L : List α) (i : Nat) (x : α) (hi : i ≤ L.length) :
    (L.take i ++ x :: L.drop i)[i]? = some x := by
  rw [List.getElem?_append_right (by simp)]
  simp [Nat.min_eq_left hi]

theorem getElem?_splice_gt {α : Type} (L : List α) (i : Nat) (x : α) (t : Nat) (h : i < t)
    (hi : i ≤ L.length) : (L.take i ++ x :: L.drop i)[t]? = L[t - 1]? := by
  rw [List.getElem?_append_right (by simp; omega)]
  simp only [List.length_take, Nat.min_eq_left hi]
  obtain ⟨d, hd⟩ : ∃ d, t - i = d + 1 := ⟨t - i - 1, by omega⟩
  rw [hd, List.getElem?_cons_succ, List.getElem?_drop]
  congr 1
  omega

theorem getElem?_map_toPoint {K : Type} (points : List (Handle K)) (j : Nat) (h : Handle K)
    (hj : points[j]? = some h) : (points.map Handle.toPoint)[j]? = some h.toPoint := by
  simp [List.getElem?_map, hj]

theorem getAt_next_eq {K : Type} (points : List (Handle K)) (j : Nat) :
    getAt points (getNextHandleIndex j points.length)
      = points[if j + 1 = points.length then 0 else j + 1]? := by
  rw [getNextHandleIndex_natCast, getAt_natCast]

theorem nextOf_map_toPoint {K : Type} (points : List (Handle K)) (j : Nat) :
    nextOf (points.map Handle.toPoint) j
      = (getAt points (getNextHandleIndex j points.length)).map Handle.toPoint := by
  rw [getAt_next_eq]
  unfold nextOf
  simp only [List.length_map, List.getElem?_map]

theorem getAt_zero {α : Type} (xs : List α) : getAt xs 0 = xs[0]? := getAt_natCast xs 0

theorem getAt_one {α : Type} (xs : List α) : getAt xs 1 = xs[1]? := getAt_natCast xs 1

theorem getAt_ofNat {α : Type} (xs : List α) (n : Nat) :
    getAt xs (no_index (OfNat.ofNat n : Int)) = xs[(OfNat.ofNat n : Nat)]? :=
  getAt_natCast xs n

section Densify
variable {K : Type} [LinearOrderedField K]

theorem getInsertPosition_eq (dist : Point K → Point K → K) (s : SculptData K)
    (points : List (Handle K)) (insertIndex previousIndex nextIndex : Int) (p q : Handle K)
    (hp : getAt points previousIndex = some p) (hq : getAt points nextIndex = some q) :
    getInsertPosition dist s points insertIndex previousIndex nextIndex
      = some (insertPositionOf dist s p.toPoint q.toPoint) := by
  simp only [getInsertPosition, hp, hq, Option.bind_eq_bind, Option.some_bind, insertPositionOf,
    Handle.toPoint]

/-- The effect of `_insertHandleRadially` on the coordinates: a new vertex is
spliced in at `k + 1`, at the insert position computed from the vertex at `k`
and the vertex that followed it. -/
theorem insertHandleRadially_spec (dist : Point K → Point K → K) (s : SculptData K)
    (points : List (Handle K)) (k : Nat) (p q : Handle K) (hp : points[k]? = some p)
    (hq : points[if k + 1 = points.length then 0 else k + 1]? = some q) :
    ∃ points', insertHandleRadially dist s points ((k : Int) + 1) = some points' ∧
      points'.map Handle.toPoint
        = (points.map Handle.toPoint).take (k + 1)
          ++ insertPositionOf dist s p.toPoint q.toPoint
            :: (points.map Handle.toPoint).drop (k + 1) := by
  have hk : k < points.length := (List.getElem?_eq_some_iff.1 hp).1
  have hnext : getNextHandleIndexBeforeInsert ((k : Int) + 1) (points.length : Int)
      = ((if k + 1 = points.length then 0 else k + 1 : Nat) : Int) := by
    unfold getNextHandleIndexBeforeInsert
    split_ifs <;> omega
  have hprev : (k : Int) + 1 - 1 = (k : Int) := by omega
  have hidx : (k : Int) + 1 = ((k + 1 : Nat) : Int) := by omega
  unfold insertHandleRadially
  simp only [hprev, hnext]
  rw [getInsertPosition_eq dist s points _ _ _ p q (by rw [getAt_natCast]; exact hp)
    (by rw [getAt_natCast]; exact hq)]
  simp only [Option.bind_eq_bind, Option.some_bind]
  rw [hidx, spliceInsert_natCast _ _ _ (by omega)]
  generalize hN : FreehandHandleData (insertPositionOf dist s p.toPoint q.toPoint)
    (freshId points) = N
  have hNpt : N.toPoint = insertPositionOf dist s p.toPoint q.toPoint := by
    subst hN; rfl
  generalize hL : points.take (k + 1) ++ N :: points.drop (k + 1) = L
  have hLlen : L.length = points.length + 1 := by
    subst hL
    simp only [List.length_append, List.length_take, List.length_cons, List.length_drop]
    omega
  have hLk : L[k]? = some p := by
    subst hL
    rw [List.getElem?_append_left (by simp [hk]), List.getElem?_take_of_lt (by omega)]
    exact hp
  have hLk1 : L[k + 1]? = some N := by
    subst hL
    rw [List.getElem?_append_right (by simp)]
    simp [Nat.min_eq_left (Nat.succ_le_of_lt hk)]
  simp only [getAt_natCast, hLk, hLk1, Option.some_bind, setAt_natCast]
  unfold addLine
  simp only [getAt_natCast, List.length_set, hLlen, setAt_natCast]
  have hne : k ≠ k + 1 := by omega
  rw [List.getElem?_set_ne hne, hLk1]
  have hidx2 : (((k + 1 : Nat) : Int)) = (k : Int) + 1 := by omega
  obtain ⟨c, hc, hcl⟩ : ∃ c : Nat, getNextHandleIndex ((k + 1 : Nat) : Int)
      ((points.length + 1 : Nat) : Int) = (c : Int) ∧ c < points.length + 1 := by
    have := getNextHandleIndex_lt (k + 1) (points.length + 1) (by omega)
    refine ⟨(getNextHandleIndex ((k + 1 : Nat) : Int) ((points.length + 1 : Nat) : Int)).toNat,
      by omega, by omega⟩
  rw [hc, getAt_natCast]
  obtain ⟨target, htarget⟩ := exists_getElem?_of_lt
    (L.set k { p with lines := popPush p.lines N.id }) c (by simp; omega)
  rw [htarget]
  refine ⟨_, rfl, ?_⟩
  apply List.ext_getElem?
  intro j
  simp only [List.getElem?_map, List.getElem?_set, List.length_set, hLlen]
  subst hL
  by_cases hj1 : k + 1 = j
  · subst hj1
    simp only [if_true]
    rw [List.getElem?_append_right (by simp)]
    have hNpt' : (⟨N.x, N.y⟩ : Point K) = insertPositionOf dist s p.toPoint q.toPoint := hNpt
    simp [Nat.min_eq_left (Nat.succ_le_of_lt hk), hk, hNpt', Handle.toPoint]
  · simp only [hj1, if_false]
    by_cases hj : k = j
    · subst hj
      have hk2 : k < points.length + 1 := by omega
      simp only [if_true, hk2, Option.map_some']
      rw [List.getElem?_append_left (by simp [hk]), List.getElem?_take_of_lt (by omega),
        List.getElem?_map, hp]
      rfl
    · simp only [hj, if_false]
      rw [← List.getElem?_map, List.map_append, List.map_cons, List.map_take, List.map_drop,
        hNpt]

theorem insertNewHandlesLoop_edges (dist : Point K → Point K → K) (s : SculptData K)
    (O : List (Point K)) (R : Point K → Point K → Prop) (hO : 0 < O.length) :
    ∀ (rest : List Int) (m b : Nat) (cur : List (Handle K)),
      (cur.map Handle.toPoint).length = O.length + m →
      b ≤ O.length →
      rest.Pairwise (fun x y => x < y) →
      (∀ x ∈ rest, ∃ k : Nat, x = (k : Int) ∧ b ≤ k ∧ k < O.length) →
      (∀ j, b ≤ j → j < O.length → (cur.map Handle.toPoint)[j + m]? = O[j]?) →
      ((cur.map Handle.toPoint)[0]? = O[0]?) →
      (∀ t, t < b + m → t + 1 < O.length + m →
        ∃ a c, (cur.map Handle.toPoint)[t]? = some a ∧
          (cur.map Handle.toPoint)[t + 1]? = some c ∧ R a c) →
      (b = O.length →
        ∃ a c, (cur.map Handle.toPoint)[O.length + m - 1]? = some a ∧
          (cur.map Handle.toPoint)[0]? = some c ∧ R a c) →
      (∀ k : Nat, (k : Int) ∈ rest → ∀ p q, O[k]? = some p → nextOf O k = some q →
        R p (insertPositionOf dist s p q) ∧ R (insertPositionOf dist s p q) q) →
      (∀ j, b ≤ j → j < O.length → (j : Int) ∉ rest → ∀ p q, O[j]? = some p →
        nextOf O j = some q → R p q) →
      ∃ cur', insertNewHandlesLoop dist s rest (m : Int) cur = some cur' ∧
        AllEdges R (cur'.map Handle.toPoint) := by
  intro rest
  induction rest with
  | nil =>
    intro m b cur hlen hbn _ _ hI1 hI2 hI4 hI5 _ h2
    refine ⟨cur, rfl, ?_⟩
    intro t a c ha hc
    have htl : t < O.length + m := by
      have := (List.getElem?_eq_some_iff.1 ha).1
      rw [hlen] at this
      exact this
    unfold nextOf at hc
    rw [hlen] at hc
    by_cases hlast : t + 1 = O.length + m
    · rw [if_pos hlast] at hc
      by_cases hb : b = O.length
      · obtain ⟨a', c', ha', hc', hR⟩ := hI5 hb
        have e1 : t = O.length + m - 1 := by omega
        rw [← e1, ha] at ha'
        rw [hc] at hc'
        cases ha'; cases hc'
        exact hR
      · have hj : O.length - 1 < O.length := by omega
        have e1 : O.length - 1 + m = t := by omega
        have h1 := hI1 (O.length - 1) (by omega) hj
        rw [e1, ha] at h1
        rw [hI2] at hc
        apply h2 (O.length - 1) (by omega) hj (by simp) a c h1.symm
        unfold nextOf
        have : O.length - 1 + 1 = O.length := by omega
        rw [if_pos this]
        exact hc
    · rw [if_neg hlast] at hc
      by_cases htb : t < b + m
      · obtain ⟨a', c', ha', hc', hR⟩ := hI4 t htb (by omega)
        rw [ha] at ha'; rw [hc] at hc'
        cases ha'; cases hc'
        exact hR
      · have hj : t - m < O.length := by omega
        have e1 : t - m + m = t := by omega
        have e2 : t - m + 1 + m = t + 1 := by omega
        have h1 := hI1 (t - m) (by omega) hj
        have h1' := hI1 (t - m + 1) (by omega) (by omega)
        rw [e1, ha] at h1
        rw [e2, hc] at h1'
        apply h2 (t - m) (by omega) hj (by simp) a c h1.symm
        unfold nextOf
        have : ¬ (t - m + 1 = O.length) := by omega
        rw [if_neg this]
        exact h1'.symm
  | cons x rest ih =>
    intro m b cur hlen hbn hsorted hform hI1 hI2 hI4 hI5 h1 h2
    obtain ⟨k, hxk, hbk, hkn⟩ := hform x (List.mem_cons_self _ _)
    subst hxk
    rw [List.pairwise_cons] at hsorted
    have hcurlen : cur.length = O.length + m := by simpa using hlen
    obtain ⟨p, hp⟩ := exists_getElem?_of_lt cur (k + m) (by omega)
    obtain ⟨q, hq⟩ := exists_getElem?_of_lt cur
      (if k + m + 1 = cur.length then 0 else k + m + 1) (by split_ifs <;> omega)
    have hpO : O[k]? = some p.toPoint := by
      rw [← hI1 k hbk hkn]
      exact getElem?_map_toPoint cur _ p hp
    have hqO : nextOf O k = some q.toPoint := by
      unfold nextOf
      by_cases hw : k + 1 = O.length
      · have : k + m + 1 = cur.length := by omega
        rw [if_pos this] at hq
        rw [if_pos hw, ← hI2]
        exact getElem?_map_toPoint cur _ q hq
      · have : ¬ (k + m + 1 = cur.length) := by omega
        rw [if_neg this] at hq
        rw [if_neg hw, ← hI1 (k + 1) (by omega) (by omega)]
        have e : k + 1 + m = k + m + 1 := by omega
        rw [e]
        exact getElem?_map_toPoint cur _ q hq
    obtain ⟨hR1, hR2⟩ := h1 k (List.mem_cons_self _ _) p.toPoint q.toPoint hpO hqO
    obtain ⟨cur1, hins, hC1⟩ := insertHandleRadially_spec dist s cur (k + m) p q hp hq
    generalize hN : insertPositionOf dist s p.toPoint q.toPoint = N at *
    generalize hC : cur.map Handle.toPoint = C at *
    have hCl : k + m + 1 ≤ C.length := by omega
    have hstep : insertNewHandlesLoop dist s ((k : Int) :: rest) (m : Int) cur
        = insertNewHandlesLoop dist s rest ((m + 1 : Nat) : Int) cur1 := by
      have e : (k : Int) + 1 + (m : Int) = ((k + m : Nat) : Int) + 1 := by omega
      simp only [insertNewHandlesLoop, e, hins, Option.bind_eq_bind, Option.some_bind]
      congr 1
    rw [hstep]
    apply ih (m + 1) (k + 1) cur1
    · rw [hC1]
      simp only [List.length_append, List.length_take, List.length_cons, List.length_drop]
      omega
    · omega
    · exact hsorted.2
    · intro y hy
      obtain ⟨k', hyk, _, hkn'⟩ := hform y (List.mem_cons_of_mem _ hy)
      have := hsorted.1 y hy
      exact ⟨k', hyk, by omega, hkn'⟩
    · intro j hj hjn
      rw [hC1, getElem?_splice_gt C _ N _ (by omega) hCl]
      have e : j + (m + 1) - 1 = j + m := by omega
      rw [e]
      exact hI1 j (by omega) hjn
    · rw [hC1, getElem?_splice_lt C _ N 0 (by omega) hCl]
      exact hI2
    · intro t ht1 ht2
      rw [hC1]
      by_cases hta : t < k + m
      · rw [getElem?_splice_lt C _ N t (by omega) hCl,
          getElem?_splice_lt C _ N (t + 1) (by omega) hCl]
        by_cases htb : t < b + m
        · exact hI4 t htb (by omega)
        · have e1 : t - m + m = t := by omega
          have e2 : t - m + 1 + m = t + 1 := by omega
          have g1 := hI1 (t - m) (by omega) (by omega)
          have g2 := hI1 (t - m + 1) (by omega) (by omega)
          rw [e1] at g1
          rw [e2] at g2
          obtain ⟨a, ha⟩ := exists_getElem?_of_lt C t (by omega)
          obtain ⟨c, hc⟩ := exists_getElem?_of_lt C (t + 1) (by omega)
          refine ⟨a, c, ha, hc, ?_⟩
          apply h2 (t - m) (by omega) (by omega) ?_ a c (by rw [← g1]; exact ha)
          · unfold nextOf
            have : ¬ (t - m + 1 = O.length) := by omega
            rw [if_neg this, ← g2]
            exact hc
          · intro hmem
            rcases List.mem_cons.1 hmem with h | h
            · omega
            · have := hsorted.1 _ h
              omega
      · by_cases htk : t = k + m
        · subst htk
          rw [getElem?_splice_lt C _ N (k + m) (by omega) hCl, getElem?_splice_eq C _ N hCl]
          refine ⟨p.toPoint, N, ?_, rfl, hR1⟩
          rw [← hC]
          exact getElem?_map_toPoint cur _ p hp
        · have htk1 : t = k + m + 1 := by omega
          subst htk1
          rw [getElem?_splice_eq C _ N hCl, getElem?_splice_gt C _ N _ (by omega) hCl]
          have hw : ¬ (k + m + 1 = cur.length) := by omega
          rw [if_neg hw] at hq
          refine ⟨N, q.toPoint, rfl, ?_, hR2⟩
          rw [← hC]
          exact getElem?_map_toPoint cur _ q hq
    · intro hb
      have hw : k + m + 1 = cur.length := by omega
      rw [if_pos hw] at hq
      rw [hC1]
      have e : O.length + (m + 1) - 1 = k + m + 1 := by omega
      rw [e, getElem?_splice_eq C _ N hCl, getElem?_splice_lt C _ N 0 (by omega) hCl]
      refine ⟨N, q.toPoint, rfl, ?_, hR2⟩
      rw [← hC]
      exact getElem?_map_toPoint cur _ q hq
    · intro k' hk' p' q' hp' hq'
      exact h1 k' (List.mem_cons_of_mem _ hk') p' q' hp' hq'
    · intro j hj hjn hjr p' q' hp' hq'
      apply h2 j (by omega) hjn ?_ p' q' hp' hq'
      intro hmem
      rcases List.mem_cons.1 hmem with h | h
      · omega
      · exact hjr h


theorem checkSpacing_spec (dist : Point K → Point K → K) (s : SculptData K)
    (points : List (Handle K)) (i : Nat) (hi : i < points.length) (acc : List Int) :
    ∃ acc', checkSpacing dist (i : Int) points acc s.maxSpacing = some acc' ∧
      ∀ x, x ∈ acc' ↔ (x ∈ acc ∨ (x = (i : Int) ∧ OverLong dist s points i)) := by
  obtain ⟨handle, hh⟩ := exists_getElem?_of_lt points i hi
  obtain ⟨hn0, hn1⟩ := getNextHandleIndex_lt i points.length hi
  obtain ⟨nextHandle, hnh⟩ := getAt_isSome points _ hn0 hn1
  have hover : OverLong dist s points i ↔
      dist handle.toPoint nextHandle.toPoint > s.maxSpacing := by
    unfold OverLong
    constructor
    · rintro ⟨a, b, ha, hb, hd⟩
      rw [hh] at ha; rw [hnh] at hb
      cases ha; cases hb
      exact hd
    · intro hd
      exact ⟨handle, nextHandle, hh, hnh, hd⟩
  simp only [checkSpacing, getAt_natCast, hh, hnh, Option.bind_eq_bind, Option.some_bind]
  by_cases hd : dist handle.toPoint nextHandle.toPoint > s.maxSpacing
  · rw [if_pos hd]
    refine ⟨_, rfl, ?_⟩
    intro x
    simp only [List.mem_append, List.mem_singleton, hover, hd, and_true]
  · rw [if_neg hd]
    refine ⟨_, rfl, ?_⟩
    intro x
    simp only [hover, hd, and_false, or_false]

theorem findNewHandleIndiciesLoop_spec (dist : Point K → Point K → K) (s : SculptData K)
    (points : List (Handle K)) :
    ∀ (count i : Nat) (acc : List Int), i + count ≤ points.length →
      ∃ acc', findNewHandleIndiciesLoop dist s points count i acc = some acc' ∧
        ∀ x, x ∈ acc' ↔ (x ∈ acc ∨
          ∃ j : Nat, x = (j : Int) ∧ i ≤ j ∧ j < i + count ∧ OverLong dist s points j) := by
  intro count
  induction count with
  | zero =>
    intro i acc _
    refine ⟨acc, rfl, ?_⟩
    intro x
    constructor
    · intro h; exact Or.inl h
    · rintro (h | ⟨j, _, h1, h2, _⟩)
      · exact h
      · omega
  | succ count ih =>
    intro i acc hlen
    obtain ⟨acc1, hc, hmem1⟩ := checkSpacing_spec dist s points i (by omega) acc
    obtain ⟨acc2, hrun, hmem2⟩ := ih (i + 1) acc1 (by omega)
    refine ⟨acc2, ?_, ?_⟩
    · simp only [findNewHandleIndiciesLoop, hc, Option.bind_eq_bind, Option.some_bind]
      exact hrun
    · intro x
      rw [hmem2, hmem1]
      constructor
      · rintro ((h | ⟨h1, h2⟩) | ⟨j, h1, h2, h3, h4⟩)
        · exact Or.inl h
        · exact Or.inr ⟨i, h1, le_refl _, by omega, h2⟩
        · exact Or.inr ⟨j, h1, by omega, by omega, h4⟩
      · rintro (h | ⟨j, h1, h2, h3, h4⟩)
        · exact Or.inl (Or.inl h)
        · rcases Nat.eq_or_lt_of_le h2 with h | h
          · subst h
            exact Or.inl (Or.inr ⟨h1, h4⟩)
          · exact Or.inr ⟨j, h1, by omega, by omega, h4⟩

theorem findNewHandleIndicies_spec (dist : Point K → Point K → K) (s : SculptData K)
    (points : List (Handle K)) (first last : Nat) (hfl : first ≤ last)
    (hl : last < points.length) :
    ∃ sites, findNewHandleIndicies dist s points first last = some sites ∧
      ∀ x, x ∈ sites ↔
        ∃ j : Nat, x = (j : Int) ∧ j < points.length ∧ Checked first last points.length j ∧
          OverLong dist s points j := by
  obtain ⟨acc0, hloop, hmem0⟩ :=
    findNewHandleIndiciesLoop_spec dist s points (last + 1 - first) first [] (by omega)
  obtain ⟨a, ha, hal⟩ : ∃ a : Nat, getNextHandleIndex (last : Int) (points.length : Int)
      = (a : Int) ∧ a < points.length := by
    have := getNextHandleIndex_lt last points.length hl
    exact ⟨(getNextHandleIndex (last : Int) (points.length : Int)).toNat, by omega, by omega⟩
  obtain ⟨b, hb, hbl⟩ : ∃ b : Nat, getPreviousHandleIndex (first : Int) (points.length : Int)
      = (b : Int) ∧ b < points.length := by
    rw [getPreviousHandleIndex_natCast first points.length (by omega)]
    exact ⟨_, rfl, by split_ifs <;> omega⟩
  obtain ⟨acc1, hc1, hmem1⟩ := checkSpacing_spec dist s points a hal acc0
  obtain ⟨acc2, hc2, hmem2⟩ := checkSpacing_spec dist s points b hbl acc1
  have hspan : ∀ x, x ∈ acc0 ↔
      ∃ j : Nat, x = (j : Int) ∧ first ≤ j ∧ j ≤ last ∧ OverLong dist s points j := by
    intro x
    rw [hmem0]
    constructor
    · rintro (h | ⟨j, h1, h2, h3, h4⟩)
      · simp at h
      · exact ⟨j, h1, h2, by omega, h4⟩
    · rintro ⟨j, h1, h2, h3, h4⟩
      exact Or.inr ⟨j, h1, h2, by omega, h4⟩
  simp only [findNewHandleIndicies, hloop, Option.bind_eq_bind, Option.some_bind, ha, hb]
  by_cases hne1 : (a : Int) ≠ (first : Int)
  · rw [if_pos hne1, hc1]
    simp only [Option.some_bind]
    by_cases hne2 : (b : Int) ≠ (a : Int)
    · rw [if_pos hne2, hc2]
      refine ⟨acc2, rfl, ?_⟩
      intro x
      rw [hmem2, hmem1, hspan]
      unfold Checked
      rw [ha, hb]
      constructor
      · rintro ((⟨j, h1, h2, h3, h4⟩ | ⟨h1, h2⟩) | ⟨h1, h2⟩)
        · exact ⟨j, h1, by omega, Or.inl ⟨h2, h3⟩, h4⟩
        · exact ⟨a, h1, hal, Or.inr (Or.inl rfl), h2⟩
        · exact ⟨b, h1, hbl, Or.inr (Or.inr rfl), h2⟩
      · rintro ⟨j, h1, _, (⟨h2, h3⟩ | h2 | h2), h4⟩
        · exact Or.inl (Or.inl ⟨j, h1, h2, h3, h4⟩)
        · have : j = a := by omega
          subst this
          exact Or.inl (Or.inr ⟨h1, h4⟩)
        · have : j = b := by omega
          subst this
          exact Or.inr ⟨h1, h4⟩
    · rw [if_neg hne2]
      refine ⟨acc1, rfl, ?_⟩
      intro x
      rw [hmem1, hspan]
      unfold Checked
      rw [ha, hb]
      have hba : b = a := by
        have := not_not.1 hne2
        omega
      constructor
      · rintro (⟨j, h1, h2, h3, h4⟩ | ⟨h1, h2⟩)
        · exact ⟨j, h1, by omega, Or.inl ⟨h2, h3⟩, h4⟩
        · exact ⟨a, h1, hal, Or.inr (Or.inl rfl), h2⟩
      · rintro ⟨j, h1, _, (⟨h2, h3⟩ | h2 | h2), h4⟩
        · exact Or.inl ⟨j, h1, h2, h3, h4⟩
        · have : j = a := by omega
          subst this
          exact Or.inr ⟨h1, h4⟩
        · have : j = a := by omega
          subst this
          exact Or.inr ⟨h1, h4⟩
  · rw [if_neg hne1]
    refine ⟨acc0, rfl, ?_⟩
    intro x
    rw [hspan]
    unfold Checked
    rw [ha, hb]
    have haf : a = first := by
      have := not_not.1 hne1
      omega
    have hfirst0 : first = 0 ∧ last + 1 = points.length := by
      unfold getNextHandleIndex at ha
      split_ifs at ha <;> omega
    have hbl' : b = last := by
      unfold getPreviousHandleIndex at hb
      split_ifs at hb <;> omega
    constructor
    · rintro ⟨j, h1, h2, h3, h4⟩
      exact ⟨j, h1, by omega, Or.inl ⟨h2, h3⟩, h4⟩
    · rintro ⟨j, h1, hj, (⟨h2, h3⟩ | h2 | h2), h4⟩
      · exact ⟨j, h1, h2, h3, h4⟩
      · exact ⟨j, h1, by omega, by omega, h4⟩
      · exact ⟨j, h1, by omega, by omega, h4⟩


theorem IsEuclidean.dist_midpoint_left {dist : Point K → Point K → K} (hE : IsEuclidean dist)
    (p q : Point K) : dist p ⟨(p.x + q.x) / 2, (p.y + q.y) / 2⟩ = dist p q / 2 := by
  obtain ⟨h0, h1⟩ := hE p q
  apply hE.eq_of_sq (by positivity)
  simp only
  have : dist p q / 2 * (dist p q / 2) = (dist p q * dist p q) / 4 := by ring
  rw [this, h1]
  ring

theorem IsEuclidean.dist_midpoint_right {dist : Point K → Point K → K} (hE : IsEuclidean dist)
    (p q : Point K) : dist ⟨(p.x + q.x) / 2, (p.y + q.y) / 2⟩ q = dist p q / 2 := by
  obtain ⟨h0, h1⟩ := hE p q
  apply hE.eq_of_sq (by positivity)
  simp only
  have : dist p q / 2 * (dist p q / 2) = (dist p q * dist p q) / 4 := by ring
  rw [this, h1]
  ring

theorem insertPositionOf_plain (dist : Point K → Point K → K) (s : SculptData K)
    (p q : Point K)
    (hfar : s.toolSize ≤ dist s.mousePoint ⟨(p.x + q.x) / 2, (p.y + q.y) / 2⟩)
    (hx0 : 0 ≤ (p.x + q.x) / 2) (hx1 : (p.x + q.x) / 2 ≤ s.image.width)
    (hy0 : 0 ≤ (p.y + q.y) / 2) (hy1 : (p.y + q.y) / 2 ≤ s.image.height) :
    insertPositionOf dist s p q = ⟨(p.x + q.x) / 2, (p.y + q.y) / 2⟩ := by
  unfold insertPositionOf
  rw [if_neg (not_lt.2 hfar)]
  simp only [clipToBox, clip_of_mem _ _ _ hx0 hx1, clip_of_mem _ _ _ hy0 hy1]

/-- The plain midpoint: for the Euclidean distance, an edge of length at most
`2 * maxSpacing` whose midpoint is in the box of the image and at least
`toolSize` away from `mousePoint` gets its new handle at the midpoint, within
`maxSpacing` of both ends. -/
theorem insertPositionOf_near_of_plain (dist : Point K → Point K → K) (hE : IsEuclidean dist)
    (s : SculptData K) (p q : Point K) (hL : dist p q ≤ 2 * s.maxSpacing)
    (hfar : s.toolSize ≤ dist s.mousePoint ⟨(p.x + q.x) / 2, (p.y + q.y) / 2⟩)
    (hx0 : 0 ≤ (p.x + q.x) / 2) (hx1 : (p.x + q.x) / 2 ≤ s.image.width)
    (hy0 : 0 ≤ (p.y + q.y) / 2) (hy1 : (p.y + q.y) / 2 ≤ s.image.height) :
    dist p (insertPositionOf dist s p q) ≤ s.maxSpacing ∧
    dist (insertPositionOf dist s p q) q ≤ s.maxSpacing := by
  rw [insertPositionOf_plain dist s p q hfar hx0 hx1 hy0 hy1, hE.dist_midpoint_left,
    hE.dist_midpoint_right]
  constructor <;> linarith

/-- C4 (amended). Let `_findNewHandleIndicies` record its sites in ascending
order for a pushed range `first .. last`, and let the position that
`_getInsertPosition` computes for each recorded edge (the midpoint of the edge,
or its projection onto the circle of the brush, clipped to the image) be within
`maxSpacing` of both ends of the edge.  Then `_insertNewHandles` returns, and
every circularly adjacent pair of the new contour either has distance at most
`maxSpacing`, or is an adjacent pair of the old contour whose first index is
outside the pushed range and its immediate boundary. -/
theorem insertNewHandles_spacing (dist : Point K → Point K → K)
    (s : SculptData K) (points : List (Handle K)) (first last : Nat) (hfl : first ≤ last)
    (hl : last < points.length) (sites : List Int)
    (hsites : findNewHandleIndicies dist s points first last = some sites)
    (hsorted : sites.Pairwise (fun x y => x < y))
    (hnew : ∀ (j : Nat) (handle nextHandle : Handle K) (position : Point K),
      (j : Int) ∈ sites → points[j]? = some handle →
      getAt points (getNextHandleIndex j points.length) = some nextHandle →
      getInsertPosition dist s points ((j : Int) + 1) j (getNextHandleIndex j points.length)
        = some position →
      dist handle.toPoint position ≤ s.maxSpacing ∧
      dist position nextHandle.toPoint ≤ s.maxSpacing) :
    ∃ points', insertNewHandles dist s points first last = some points' ∧
      ∀ (t : Nat) (a b : Handle K), points'[t]? = some a →
        getAt points' (getNextHandleIndex t points'.length) = some b →
        dist a.toPoint b.toPoint ≤ s.maxSpacing ∨
        ∃ (j : Nat) (handle nextHandle : Handle K),
          ¬ Checked first last points.length j ∧ points[j]? = some handle ∧
          getAt points (getNextHandleIndex j points.length) = some nextHandle ∧
          a.toPoint = handle.toPoint ∧ b.toPoint = nextHandle.toPoint := by
  obtain ⟨sites', hsites', hmem⟩ := findNewHandleIndicies_spec dist s points first last hfl hl
  rw [hsites] at hsites'
  cases hsites'
  obtain ⟨cur', hrun, hedges⟩ := insertNewHandlesLoop_edges dist s (points.map Handle.toPoint)
    (fun a c => dist a c ≤ s.maxSpacing ∨
      ∃ (j : Nat) (handle nextHandle : Handle K),
        ¬ Checked first last points.length j ∧ points[j]? = some handle ∧
        getAt points (getNextHandleIndex j points.length) = some nextHandle ∧
        a = handle.toPoint ∧ c = nextHandle.toPoint)
    (by simp; omega) sites 0 0 points (by simp) (Nat.zero_le _) hsorted
    (by
      intro x hx
      obtain ⟨j, h1, h2, _, _⟩ := (hmem x).1 hx
      exact ⟨j, h1, Nat.zero_le _, by simpa using h2⟩)
    (by intro j _ _; rfl)
    rfl
    (by intro t ht; omega)
    (by intro h; simp at h; omega)
    (by
      intro k hk p q hp hq
      rw [List.getElem?_map] at hp
      rw [nextOf_map_toPoint] at hq
      cases hh : points[k]? with
      | none => rw [hh] at hp; simp at hp
      | some handle =>
        cases hn : getAt points (getNextHandleIndex k points.length) with
        | none => rw [hn] at hq; simp at hq
        | some nextHandle =>
          rw [hh] at hp; rw [hn] at hq
          simp only [Option.map_some', Option.some.injEq] at hp hq
          subst hp; subst hq
          obtain ⟨h1, h2⟩ := hnew k handle nextHandle
            (insertPositionOf dist s handle.toPoint nextHandle.toPoint) hk hh hn
            (getInsertPosition_eq dist s points _ _ _ handle nextHandle
              (by rw [getAt_natCast]; exact hh) hn)
          exact ⟨Or.inl h1, Or.inl h2⟩)
    (by
      intro j _ hjn hjs p q hp hq
      rw [List.getElem?_map] at hp
      rw [nextOf_map_toPoint] at hq
      cases hh : points[j]? with
      | none => rw [hh] at hp; simp at hp
      | some handle =>
        cases hn : getAt points (getNextHandleIndex j points.length) with
        | none => rw [hn] at hq; simp at hq
        | some nextHandle =>
          rw [hh] at hp; rw [hn] at hq
          simp only [Option.map_some', Option.some.injEq] at hp hq
          subst hp; subst hq
          by_cases hc : Checked first last points.length j
          · left
            by_contra hlong
            apply hjs
            rw [hmem]
            exact ⟨j, rfl, by simpa using hjn, hc, handle, nextHandle, hh, hn, not_le.1 hlong⟩
          · right
            exact ⟨j, handle, nextHandle, hc, hh, hn, rfl, rfl⟩)
  refine ⟨cur', ?_, ?_⟩
  · simp only [insertNewHandles, hsites, Option.bind_eq_bind, Option.some_bind]
    exact hrun
  · intro t a b ha hb
    apply hedges t a.toPoint b.toPoint (getElem?_map_toPoint cur' t a ha)
    rw [nextOf_map_toPoint, hb]
    rfl

/-- Witness of `insertNewHandles_spacing`, for both kinds of new handle.  A
triangle whose handles 0 and 1 were pushed onto the circle of radius `169`
around the cursor `(200, 200)`: the edge between them is `240` long, its
midpoint is `119` away from the cursor, and the new handle is projected to
`(369, 200)`, `130` away from both ends.  And a kite around the cursor
`(20, 20)` whose handle 0 was pushed: with `maxSpacing = 10` the recorded edges
have the lengths `11`, `20` and `13`, their midpoints are `10.5`, `10` and `6.5`
away from the cursor, and the new handles are the midpoints. -/
theorem insertNewHandles_spacing_witness :
    getInsertPosition (euclideanDistance Real.sqrt)
        { image := ⟨500, 500⟩, mousePoint := ⟨200, 200⟩, toolSize := 169, minSpacing := 50,
          maxSpacing := 169 }
        [⟨0, 319, 320, [1]⟩, ⟨1, 319, 80, [2]⟩, ⟨2, 438, 200, [0]⟩] 1 0 1
      = some ⟨369, 200⟩ ∧
    (∃ points', insertNewHandles (euclideanDistance Real.sqrt)
         { image := ⟨500, 500⟩, mousePoint := ⟨200, 200⟩, toolSize := 169, minSpacing := 50,
           maxSpacing := 169 }
         [⟨0, 319, 320, [1]⟩, ⟨1, 319, 80, [2]⟩, ⟨2, 438, 200, [0]⟩] 0 1 = some points' ∧
       ∀ (t : Nat) (a b : Handle ℝ), points'[t]? = some a →
         getAt points' (getNextHandleIndex t points'.length) = some b →
         euclideanDistance Real.sqrt a.toPoint b.toPoint ≤ 169 ∨
         ∃ (j : Nat) (handle nextHandle : Handle ℝ),
           ¬ Checked 0 1 3 j ∧
           ([⟨0, 319, 320, [1]⟩, ⟨1, 319, 80, [2]⟩, ⟨2, 438, 200, [0]⟩] :
             List (Handle ℝ))[j]? = some handle ∧
           getAt ([⟨0, 319, 320, [1]⟩, ⟨1, 319, 80, [2]⟩, ⟨2, 438, 200, [0]⟩] :
             List (Handle ℝ)) (getNextHandleIndex j 3) = some nextHandle ∧
           a.toPoint = handle.toPoint ∧ b.toPoint = nextHandle.toPoint) ∧
    (∃ points', insertNewHandles (euclideanDistance Real.sqrt)
         { image := ⟨40, 40⟩, mousePoint := ⟨20, 20⟩, toolSize := 5, minSpacing := 5,
           maxSpacing := 10 }
         [⟨0, 25, 20, [1]⟩, ⟨1, 36, 20, [2]⟩, ⟨2, 20, 32, [3]⟩, ⟨3, 11, 20, [4]⟩,
           ⟨4, 20, 8, [0]⟩] 0 0 = some points' ∧
       ∀ (t : Nat) (a b : Handle ℝ), points'[t]? = some a →
         getAt points' (getNextHandleIndex t points'.length) = some b →
         euclideanDistance Real.sqrt a.toPoint b.toPoint ≤ 10 ∨
         ∃ (j : Nat) (handle nextHandle : Handle ℝ),
           ¬ Checked 0 0 5 j ∧
           ([⟨0, 25, 20, [1]⟩, ⟨1, 36, 20, [2]⟩, ⟨2, 20, 32, [3]⟩, ⟨3, 11, 20, [4]⟩,
             ⟨4, 20, 8, [0]⟩] : List (Handle ℝ))[j]? = some handle ∧
           getAt ([⟨0, 25, 20, [1]⟩, ⟨1, 36, 20, [2]⟩, ⟨2, 20, 32, [3]⟩, ⟨3, 11, 20, [4]⟩,
             ⟨4, 20, 8, [0]⟩] : List (Handle ℝ)) (getNextHandleIndex j 5) = some nextHandle ∧
           a.toPoint = handle.toPoint ∧ b.toPoint = nextHandle.toPoint) := by
  have h01 : euclideanDistance Real.sqrt (⟨319, 320⟩ : Point ℝ) ⟨319, 80⟩ = 240 :=
    isEuclidean_sqrt.eq_of_sq (by norm_num) (by norm_num)
  have h12 : euclideanDistance Real.sqrt (⟨319, 80⟩ : Point ℝ) ⟨438, 200⟩ = 169 :=
    isEuclidean_sqrt.eq_of_sq (by norm_num) (by norm_num)
  have h20 : euclideanDistance Real.sqrt (⟨438, 200⟩ : Point ℝ) ⟨319, 320⟩ = 169 :=
    isEuclidean_sqrt.eq_of_sq (by norm_num) (by norm_num)
  have hm : euclideanDistance Real.sqrt (⟨200, 200⟩ : Point ℝ) ⟨319, 200⟩ = 119 :=
    isEuclidean_sqrt.eq_of_sq (by norm_num) (by norm_num)
  have hp : euclideanDistance Real.sqrt (⟨319, 320⟩ : Point ℝ) ⟨369, 200⟩ = 130 :=
    isEuclidean_sqrt.eq_of_sq (by norm_num) (by norm_num)
  have hq : euclideanDistance Real.sqrt (⟨369, 200⟩ : Point ℝ) ⟨319, 80⟩ = 130 :=
    isEuclidean_sqrt.eq_of_sq (by norm_num) (by norm_num)
  have hsites : findNewHandleIndicies (euclideanDistance Real.sqrt)
      { image := ⟨500, 500⟩, mousePoint := ⟨200, 200⟩, toolSize := 169, minSpacing := 50,
        maxSpacing := 169 }
      [⟨0, 319, 320, [1]⟩, ⟨1, 319, 80, [2]⟩, ⟨2, 438, 200, [0]⟩] 0 1 = some [0] := by
    simp only [findNewHandleIndicies, findNewHandleIndiciesLoop, checkSpacing]
    norm_num [getAt_zero, getAt_one, getAt_ofNat, getNextHandleIndex, getPreviousHandleIndex,
      Handle.toPoint, h01, h12, h20]
  have hpos : insertPositionOf (euclideanDistance Real.sqrt)
      { image := ⟨500, 500⟩, mousePoint := ⟨200, 200⟩, toolSize := 169, minSpacing := 50,
        maxSpacing := 169 } (⟨319, 320⟩ : Point ℝ) ⟨319, 80⟩ = ⟨369, 200⟩ := by
    have e1 : ((319 : ℝ) + 319) / 2 = 319 := by norm_num
    have e2 : ((320 : ℝ) + 80) / 2 = 200 := by norm_num
    simp only [insertPositionOf, e1, e2, hm, clipToBox, clip]
    norm_num
  refine ⟨?_, ?_, ?_⟩
  · rw [getInsertPosition_eq _ _ _ _ _ _ ⟨0, 319, 320, [1]⟩ ⟨1, 319, 80, [2]⟩
      (by rw [getAt_zero]; rfl) (by rw [getAt_one]; rfl)]
    exact congrArg some hpos
  · exact insertNewHandles_spacing (euclideanDistance Real.sqrt)
      { image := ⟨500, 500⟩, mousePoint := ⟨200, 200⟩, toolSize := 169, minSpacing := 50,
        maxSpacing := 169 }
      [⟨0, 319, 320, [1]⟩, ⟨1, 319, 80, [2]⟩, ⟨2, 438, 200, [0]⟩] 0 1 (by decide) (by decide)
      [0] hsites (by decide)
      (by
        intro j handle nextHandle position hj hh hn hpos'
        have hj' : j = 0 := by
          simp only [List.mem_cons, List.mem_singleton, List.not_mem_nil, or_false] at hj
          omega
        subst hj'
        rw [getInsertPosition_eq _ _ _ _ _ _ handle nextHandle
          (by rw [getAt_natCast]; exact hh) hn] at hpos'
        simp only [List.getElem?_cons_zero, Option.some.injEq] at hh
        norm_num [getAt_zero, getAt_one, getAt_ofNat, getNextHandleIndex] at hn
        subst hh; subst hn
        simp only [Handle.toPoint, Option.some.injEq] at hpos'
        rw [hpos] at hpos'
        subst hpos'
        simp only [Handle.toPoint, hp, hq]
        norm_num)
  · have h01 : euclideanDistance Real.sqrt (⟨25, 20⟩ : Point ℝ) ⟨36, 20⟩ = 11 :=
      isEuclidean_sqrt.eq_of_sq (by norm_num) (by norm_num)
    have h12 : euclideanDistance Real.sqrt (⟨36, 20⟩ : Point ℝ) ⟨20, 32⟩ = 20 :=
      isEuclidean_sqrt.eq_of_sq (by norm_num) (by norm_num)
    have h40 : euclideanDistance Real.sqrt (⟨20, 8⟩ : Point ℝ) ⟨25, 20⟩ = 13 :=
      isEuclidean_sqrt.eq_of_sq (by norm_num) (by norm_num)
    have m01 : euclideanDistance Real.sqrt (⟨20, 20⟩ : Point ℝ) ⟨61 / 2, 20⟩ = 21 / 2 :=
      isEuclidean_sqrt.eq_of_sq (by norm_num) (by norm_num)
    have m12 : euclideanDistance Real.sqrt (⟨20, 20⟩ : Point ℝ) ⟨28, 26⟩ = 10 :=
      isEuclidean_sqrt.eq_of_sq (by norm_num) (by norm_num)
    have m40 : euclideanDistance Real.sqrt (⟨20, 20⟩ : Point ℝ) ⟨45 / 2, 14⟩ = 13 / 2 :=
      isEuclidean_sqrt.eq_of_sq (by norm_num) (by norm_num)
    have hsites : findNewHandleIndicies (euclideanDistance Real.sqrt)
        { image := ⟨40, 40⟩, mousePoint := ⟨20, 20⟩, toolSize := 5, minSpacing := 5,
          maxSpacing := 10 }
        [⟨0, 25, 20, [1]⟩, ⟨1, 36, 20, [2]⟩, ⟨2, 20, 32, [3]⟩, ⟨3, 11, 20, [4]⟩,
          ⟨4, 20, 8, [0]⟩] 0 0 = some [0, 1, 4] := by
      simp only [findNewHandleIndicies, findNewHandleIndiciesLoop, checkSpacing]
      norm_num [getAt_zero, getAt_one, getAt_ofNat, getNextHandleIndex, getPreviousHandleIndex,
        Handle.toPoint, h01, h12, h40]
    exact insertNewHandles_spacing (euclideanDistance Real.sqrt)
      { image := ⟨40, 40⟩, mousePoint := ⟨20, 20⟩, toolSize := 5, minSpacing := 5,
        maxSpacing := 10 }
      [⟨0, 25, 20, [1]⟩, ⟨1, 36, 20, [2]⟩, ⟨2, 20, 32, [3]⟩, ⟨3, 11, 20, [4]⟩,
        ⟨4, 20, 8, [0]⟩] 0 0 (le_refl _) (by decide) [0, 1, 4] hsites (by decide)
      (by
        intro j handle nextHandle position hj hh hn hpos
        rw [getInsertPosition_eq _ _ _ _ _ _ handle nextHandle
          (by rw [getAt_natCast]; exact hh) hn, Option.some.injEq] at hpos
        subst hpos
        apply insertPositionOf_near_of_plain _ isEuclidean_sqrt
        all_goals
          have hj' : j = 0 ∨ j = 1 ∨ j = 4 := by
            simp only [List.mem_cons, List.mem_singleton, List.not_mem_nil, or_false] at hj
            omega
          rcases hj' with rfl | rfl | rfl
          · simp only [List.getElem?_cons_zero, Option.some.injEq] at hh
            norm_num [getAt_zero, getAt_one, getAt_ofNat, getNextHandleIndex] at hn
            subst hh; subst hn
            norm_num [Handle.toPoint, h01, m01]
          · simp only [List.getElem?_cons_succ, List.getElem?_cons_zero, Option.some.injEq] at hh
            norm_num [getAt_zero, getAt_one, getAt_ofNat, getNextHandleIndex] at hn
            subst hh; subst hn
            norm_num [Handle.toPoint, h12, m12]
          · simp only [List.getElem?_cons_succ, List.getElem?_cons_zero, Option.some.injEq] at hh
            norm_num [getAt_zero, getAt_one, getAt_ofNat, getNextHandleIndex] at hn
            subst hh; subst hn
            norm_num [Handle.toPoint, h40, m40])

/-- C4 (counterexample). The same kite with `maxSpacing = 5`, where
`_pushHandles` has pushed handle 0 (it stays at `(25, 20)`, at distance `5`
from the cursor).  `_insertNewHandles` halves the edge of length `11` from
handle 0 to handle 1 once: the new handle is at `(30.5, 20)`, and the adjacent
pair made of handle 0 and the new handle, inside the pushed range, is `5.5`
apart, more than `maxSpacing` (all distances involved are rational, so
`Rat.sqrt` is exact). -/
theorem insertNewHandles_spacing_counterexample :
    pushHandles (euclideanDistance Rat.sqrt)
        { image := ⟨40, 40⟩, mousePoint := ⟨20, 20⟩, toolSize := 5, minSpacing := 1,
          maxSpacing := 5 }
        [⟨0, 25, 20, [1]⟩, ⟨1, 36, 20, [2]⟩, ⟨2, 20, 32, [3]⟩, ⟨3, 11, 20, [4]⟩,
          ⟨4, 20, 8, [0]⟩]
      = some ([⟨0, 25, 20, [1]⟩, ⟨1, 36, 20, [2]⟩, ⟨2, 20, 32, [3]⟩, ⟨3, 11, 20, [4]⟩,
          ⟨4, 20, 8, [0]⟩], ⟨some 0, some 0⟩) ∧
    insertNewHandles (euclideanDistance Rat.sqrt)
        { image := ⟨40, 40⟩, mousePoint := ⟨20, 20⟩, toolSize := 5, minSpacing := 1,
          maxSpacing := 5 }
        [⟨0, 25, 20, [1]⟩, ⟨1, 36, 20, [2]⟩, ⟨2, 20, 32, [3]⟩, ⟨3, 11, 20, [4]⟩,
          ⟨4, 20, 8, [0]⟩] 0 0
      = some [⟨0, 25, 20, [5]⟩, ⟨5, 61 / 2, 20, [1]⟩, ⟨1, 36, 20, [6]⟩, ⟨6, 28, 26, [2]⟩,
          ⟨2, 20, 32, [3]⟩, ⟨3, 11, 20, [4]⟩, ⟨4, 20, 8, [7]⟩, ⟨7, 45 / 2, 14, [0]⟩] ∧
    euclideanDistance Rat.sqrt (Handle.toPoint ⟨0, 25, 20, [5]⟩)
        (Handle.toPoint ⟨5, 61 / 2, 20, [1]⟩) = 11 / 2 ∧
    ¬ ((11 / 2 : ℚ) ≤ 5) := by
  decide!

/-- C5 (the code at the failing input). A kite around the cursor `(10, 10)`,
sculpted with a brush of radius `3` and `minSpacing = 1`, so `maxSpacing = 3`
(all distances involved are rational, so `Rat.sqrt` is exact).  Handle 1 at
`(13, 10)` is the only one pushed, and it stays where it is.  The recorded
sites are `[2, 0]`: the edges after the handles 2 and 0 are `10` and `5` long,
the edge after handle 1 is `3` long.  The new handle for site 2 lands after
handle 2, at `(13, 14)`.  The new handle for site 0 is spliced in at index
`0 + 1 + 1 = 2`: it lands at `(14.5, 10)`, between handle 1 and handle 2, on an
edge that was not recorded, and the recorded edge from handle 0 at `(10, 6)` to
handle 1 at `(13, 10)` gains no handle. -/
theorem insertNewHandles_misplaces_before_first :
    pushHandles (euclideanDistance Rat.sqrt)
        { image := ⟨20, 20⟩, mousePoint := ⟨10, 10⟩, toolSize := 3, minSpacing := 1,
          maxSpacing := 3 }
        [⟨0, 10, 6, [1]⟩, ⟨1, 13, 10, [2]⟩, ⟨2, 16, 10, [3]⟩, ⟨3, 10, 18, [4]⟩,
          ⟨4, 6, 10, [0]⟩]
      = some ([⟨0, 10, 6, [1]⟩, ⟨1, 13, 10, [2]⟩, ⟨2, 16, 10, [3]⟩, ⟨3, 10, 18, [4]⟩,
          ⟨4, 6, 10, [0]⟩], ⟨some 1, some 1⟩) ∧
    findNewHandleIndicies (euclideanDistance Rat.sqrt)
        { image := ⟨20, 20⟩, mousePoint := ⟨10, 10⟩, toolSize := 3, minSpacing := 1,
          maxSpacing := 3 }
        [⟨0, 10, 6, [1]⟩, ⟨1, 13, 10, [2]⟩, ⟨2, 16, 10, [3]⟩, ⟨3, 10, 18, [4]⟩,
          ⟨4, 6, 10, [0]⟩] 1 1
      = some [2, 0] ∧
    insertNewHandles (euclideanDistance Rat.sqrt)
        { image := ⟨20, 20⟩, mousePoint := ⟨10, 10⟩, toolSize := 3, minSpacing := 1,
          maxSpacing := 3 }
        [⟨0, 10, 6, [1]⟩, ⟨1, 13, 10, [2]⟩, ⟨2, 16, 10, [3]⟩, ⟨3, 10, 18, [4]⟩,
          ⟨4, 6, 10, [0]⟩] 1 1
      = some [⟨0, 10, 6, [1]⟩, ⟨1, 13, 10, [6]⟩, ⟨6, 29 / 2, 10, [2]⟩, ⟨2, 16, 10, [5]⟩,
          ⟨5, 13, 14, [3]⟩, ⟨3, 10, 18, [4]⟩, ⟨4, 6, 10, [0]⟩] := by
  decide!

end Densify


/-! ## The index helpers, the sculpt context and the configuration API -/

/-- C19. For a contour of `n ≥ 1` handles and an insertion position
`1 ≤ k ≤ n`, `_getNextHandleIndexBeforeInsert(k, n)` is
`_getNextHandleIndex(k - 1, n)`; it addresses a handle of the contour, and that
handle is the circular successor of the new handle once the new handle has been
spliced in at position `k`. -/
theorem getNextHandleIndexBeforeInsert_successor {K : Type} (points : List (Handle K)) (k : Int)
    (newHandle : Handle K) (h1 : 1 ≤ k) (h2 : k ≤ points.length) :
    getNextHandleIndexBeforeInsert k points.length = getNextHandleIndex (k - 1) points.length ∧
    (∃ nextHandle,
      getAt points (getNextHandleIndexBeforeInsert k points.length) = some nextHandle ∧
      getAt (spliceInsert points k newHandle) k = some newHandle ∧
      getAt (spliceInsert points k newHandle)
          (getNextHandleIndex k (spliceInsert points k newHandle).length)
        = some nextHandle) := by
  obtain ⟨j, rfl⟩ : ∃ j : Nat, k = (j : Int) := ⟨k.toNat, by omega⟩
  have hj1 : 1 ≤ j := by omega
  have hj2 : j ≤ points.length := by omega
  constructor
  · unfold getNextHandleIndexBeforeInsert getNextHandleIndex
    split_ifs <;> omega
  · have hnb : getNextHandleIndexBeforeInsert (j : Int) (points.length : Int)
        = ((if j = points.length then 0 else j : Nat) : Int) := by
      unfold getNextHandleIndexBeforeInsert
      split_ifs <;> omega
    have hlen : (spliceInsert points (j : Int) newHandle).length = points.length + 1 := by
      rw [spliceInsert_natCast _ _ _ hj2]
      simp only [List.length_append, List.length_take, List.length_cons, List.length_drop]
      omega
    rw [hnb, getAt_natCast, hlen]
    have hcast : ((points.length + 1 : Nat) : Int) = (points.length : Int) + 1 := by omega
    have hnx : getNextHandleIndex (j : Int) ((points.length + 1 : Nat) : Int)
        = ((if j = points.length then 0 else j + 1 : Nat) : Int) := by
      unfold getNextHandleIndex
      split_ifs <;> omega
    rw [hnx, getAt_natCast, getAt_natCast, spliceInsert_natCast _ _ _ hj2]
    obtain ⟨nextHandle, hnext⟩ :=
      exists_getElem?_of_lt points (if j = points.length then 0 else j)
        (by split_ifs <;> omega)
    refine ⟨nextHandle, hnext, getElem?_splice_eq points j newHandle hj2, ?_⟩
    by_cases hjn : j = points.length
    · rw [if_pos hjn] at hnext ⊢
      rw [getElem?_splice_lt points j newHandle 0 (by omega) hj2]
      exact hnext
    · rw [if_neg hjn] at hnext ⊢
      rw [getElem?_splice_gt points j newHandle (j + 1) (by omega) hj2]
      simpa using hnext

/-- Witness of `getNextHandleIndexBeforeInsert_successor`: a handle appended to
a triangle (position `3`) has the first handle as its successor. -/
theorem getNextHandleIndexBeforeInsert_successor_witness :
    getNextHandleIndexBeforeInsert 3
        ([⟨0, 0, 0, [1]⟩, ⟨1, 4, 0, [2]⟩, ⟨2, 0, 4, [0]⟩] : List (Handle ℚ)).length
      = getNextHandleIndex (3 - 1)
        ([⟨0, 0, 0, [1]⟩, ⟨1, 4, 0, [2]⟩, ⟨2, 0, 4, [0]⟩] : List (Handle ℚ)).length ∧
    (∃ nextHandle : Handle ℚ,
      getAt ([⟨0, 0, 0, [1]⟩, ⟨1, 4, 0, [2]⟩, ⟨2, 0, 4, [0]⟩] : List (Handle ℚ))
          (getNextHandleIndexBeforeInsert 3
            ([⟨0, 0, 0, [1]⟩, ⟨1, 4, 0, [2]⟩, ⟨2, 0, 4, [0]⟩] : List (Handle ℚ)).length)
        = some nextHandle ∧
      getAt (spliceInsert ([⟨0, 0, 0, [1]⟩, ⟨1, 4, 0, [2]⟩, ⟨2, 0, 4, [0]⟩] : List (Handle ℚ))
          3 ⟨3, 0, 2, []⟩) 3
        = some ⟨3, 0, 2, []⟩ ∧
      getAt (spliceInsert ([⟨0, 0, 0, [1]⟩, ⟨1, 4, 0, [2]⟩, ⟨2, 0, 4, [0]⟩] : List (Handle ℚ))
          3 ⟨3, 0, 2, []⟩)
          (getNextHandleIndex 3
            (spliceInsert ([⟨0, 0, 0, [1]⟩, ⟨1, 4, 0, [2]⟩, ⟨2, 0, 4, [0]⟩] : List (Handle ℚ))
              3 ⟨3, 0, 2, []⟩).length)
        = some nextHandle) :=
  getNextHandleIndexBeforeInsert_successor
    [⟨0, 0, 0, [1]⟩, ⟨1, 4, 0, [2]⟩, ⟨2, 0, 4, [0]⟩] 3 ⟨3, 0, 2, []⟩ (by decide) (by decide)

section Small
variable {K : Type} [LinearOrderedField K]

/-- C18. For every length `n ≥ 1` and every index `0 ≤ i < n`,
`_getNextHandleIndex(i, n)` is `(i + 1) mod n` and `_getPreviousHandleIndex(i, n)`
is `(i + n - 1) mod n`; both lie in `0 .. n - 1`, and each of the two functions
undoes the other. -/
theorem getNextHandleIndex_getPreviousHandleIndex (i n : Int) (hn : 1 ≤ n) (h0 : 0 ≤ i)
    (h1 : i < n) :
    getNextHandleIndex i n = (i + 1) % n ∧
    getPreviousHandleIndex i n = (i + n - 1) % n ∧
    (0 ≤ getNextHandleIndex i n ∧ getNextHandleIndex i n < n) ∧
    (0 ≤ getPreviousHandleIndex i n ∧ getPreviousHandleIndex i n < n) ∧
    getPreviousHandleIndex (getNextHandleIndex i n) n = i ∧
    getNextHandleIndex (getPreviousHandleIndex i n) n = i := by
  unfold getNextHandleIndex getPreviousHandleIndex
  refine ⟨?_, ?_, ?_, ?_, ?_, ?_⟩
  · split_ifs with h
    · have : i + 1 = n := by omega
      rw [this, Int.emod_self]
    · rw [Int.emod_eq_of_lt (by omega) (by omega)]
  · split_ifs with h
    · subst h
      rw [Int.emod_eq_of_lt (by omega) (by omega)]
      omega
    · have : i + n - 1 = (i - 1) + n := by omega
      rw [this, Int.add_emod_self, Int.emod_eq_of_lt (by omega) (by omega)]
  · split_ifs <;> omega
  · split_ifs <;> omega
  · split_ifs <;> omega
  · split_ifs <;> omega

/-- Witness of `getNextHandleIndex_getPreviousHandleIndex`: the last index of a
contour of 3 handles. -/
theorem getNextHandleIndex_getPreviousHandleIndex_witness :
    getNextHandleIndex 2 3 = (2 + 1) % 3 ∧
    getPreviousHandleIndex 2 3 = (2 + 3 - 1) % 3 ∧
    (0 ≤ getNextHandleIndex 2 3 ∧ getNextHandleIndex 2 3 < 3) ∧
    (0 ≤ getPreviousHandleIndex 2 3 ∧ getPreviousHandleIndex 2 3 < 3) ∧
    getPreviousHandleIndex (getNextHandleIndex 2 3) 3 = 2 ∧
    getNextHandleIndex (getPreviousHandleIndex 2 3) 3 = 2 :=
  getNextHandleIndex_getPreviousHandleIndex 2 3 (by decide) (by decide) (by decide)

/-- C20. The record built by `_sculpt` has
`maxSpacing = max(toolSize, 2 * minSpacing)`, where `toolSize` is
`this._toolSizeImage` and `minSpacing` is `configuration.minSpacing`; hence
`minSpacing ≤ maxSpacing` whenever `minSpacing ≥ 0`, for every `toolSize`. -/
theorem sculptData_maxSpacing (config : Configuration K) (toolSizeImage : K) (image : Image K)
    (mousePoint : Point K) :
    (sculptData config toolSizeImage image mousePoint).toolSize = toolSizeImage ∧
    (sculptData config toolSizeImage image mousePoint).minSpacing = config.minSpacing ∧
    (sculptData config toolSizeImage image mousePoint).maxSpacing
      = max toolSizeImage (2 * config.minSpacing) ∧
    (0 ≤ config.minSpacing →
      (sculptData config toolSizeImage image mousePoint).minSpacing
        ≤ (sculptData config toolSizeImage image mousePoint).maxSpacing) := by
  refine ⟨rfl, rfl, ?_, ?_⟩
  · simp only [sculptData, mul_comm]
  · intro h
    simp only [sculptData]
    apply le_max_of_le_right
    linarith

/-- C30. Two configurations that differ only in `configuration.maxSpacing`, the
value stored by the public `maxSpacing` setter, give the same `_sculpt` step. -/
theorem sculpt_maxSpacing_irrelevant (dist : Point K → Point K → K) (config : Configuration K)
    (maxSpacing maxSpacing' : Option K) (toolSizeImage : K) (image : Image K)
    (mousePoint : Point K) (points : List (Handle K)) :
    sculpt dist { config with maxSpacing := maxSpacing } toolSizeImage image mousePoint points
      = sculpt dist { config with maxSpacing := maxSpacing' } toolSizeImage image mousePoint
          points ∧
    ∀ value : K,
      sculpt dist (set_maxSpacing config (JsValue.number value)).configuration toolSizeImage
          image mousePoint points
        = sculpt dist config toolSizeImage image mousePoint points :=
  ⟨rfl, fun _ => rfl⟩

/-- C14. For a contour of 3 or fewer handles `_consolidateHandles` returns at
once and leaves the contour as it is, whatever the distances between adjacent
handles are. -/
theorem consolidateHandles_of_length_le_three (dist : Point K → Point K → K)
    (s : SculptData K) (points : List (Handle K)) (h : points.length ≤ 3) :
    consolidateHandles dist s points = some points := by
  unfold consolidateHandles
  rw [if_pos h]

/-- Witness of `consolidateHandles_of_length_le_three`: a triangle with two
handles `1 / 2` apart, closer than `minSpacing = 1`, is left as it is. -/
theorem consolidateHandles_of_length_le_three_witness :
    euclideanDistance Rat.sqrt (Handle.toPoint ⟨0, 0, 0, [1]⟩)
        (Handle.toPoint ⟨1, 1 / 2, 0, [2]⟩) = 1 / 2 ∧
    consolidateHandles (euclideanDistance Rat.sqrt)
        { image := ⟨20, 20⟩, mousePoint := ⟨0, 0⟩, toolSize := 1, minSpacing := 1,
          maxSpacing := 2 }
        [⟨0, 0, 0, [1]⟩, ⟨1, 1 / 2, 0, [2]⟩, ⟨2, 0, 4, [0]⟩]
      = some [⟨0, 0, 0, [1]⟩, ⟨1, 1 / 2, 0, [2]⟩, ⟨2, 0, 4, [0]⟩] :=
  ⟨by decide!,
    consolidateHandles_of_length_le_three (euclideanDistance Rat.sqrt)
      { image := ⟨20, 20⟩, mousePoint := ⟨0, 0⟩, toolSize := 1, minSpacing := 1,
        maxSpacing := 2 }
      [⟨0, 0, 0, [1]⟩, ⟨1, 1 / 2, 0, [2]⟩, ⟨2, 0, 4, [0]⟩] (by decide)⟩

/-- C12. For indices `previousIndex` and `nextIndex` of handles of the contour,
with `m` the midpoint of the two handles and `d` the distance from `mousePoint`
to `m`: `_getInsertPosition` returns `clipToBox(m)` when `d ≥ toolSize`, and
`clipToBox(mousePoint + toolSize * (m - mousePoint) / d)` when
`0 < d < toolSize`. -/
theorem getInsertPosition_cases (dist : Point K → Point K → K) (s : SculptData K)
    (points : List (Handle K)) (insertIndex previousIndex nextIndex : Int)
    (previousHandle nextHandle : Handle K)
    (hp : getAt points previousIndex = some previousHandle)
    (hq : getAt points nextIndex = some nextHandle) :
    (s.toolSize ≤ dist s.mousePoint
        ⟨(previousHandle.x + nextHandle.x) / 2, (previousHandle.y + nextHandle.y) / 2⟩ →
      getInsertPosition dist s points insertIndex previousIndex nextIndex
        = some (clipToBox
            ⟨(previousHandle.x + nextHandle.x) / 2, (previousHandle.y + nextHandle.y) / 2⟩
            s.image)) ∧
    (0 < dist s.mousePoint
        ⟨(previousHandle.x + nextHandle.x) / 2, (previousHandle.y + nextHandle.y) / 2⟩ →
      dist s.mousePoint
        ⟨(previousHandle.x + nextHandle.x) / 2, (previousHandle.y + nextHandle.y) / 2⟩
          < s.toolSize →
      getInsertPosition dist s points insertIndex previousIndex nextIndex
        = some (clipToBox
            ⟨s.mousePoint.x + s.toolSize * ((previousHandle.x + nextHandle.x) / 2
                - s.mousePoint.x)
              / dist s.mousePoint
                ⟨(previousHandle.x + nextHandle.x) / 2, (previousHandle.y + nextHandle.y) / 2⟩,
             s.mousePoint.y + s.toolSize * ((previousHandle.y + nextHandle.y) / 2
                - s.mousePoint.y)
              / dist s.mousePoint
                ⟨(previousHandle.x + nextHandle.x) / 2, (previousHandle.y + nextHandle.y) / 2⟩⟩
            s.image)) := by
  rw [getInsertPosition_eq dist s points insertIndex previousIndex nextIndex previousHandle
    nextHandle hp hq]
  constructor
  · intro h
    simp only [insertPositionOf, Handle.toPoint, if_neg (not_lt.2 h)]
  · intro _ h
    simp only [insertPositionOf, Handle.toPoint, if_pos h, mul_div_assoc]

/-- Witness of `getInsertPosition_cases`: between the handles `(11, 10)` and
`(11, 14)`, with the cursor at `(10, 12)` and a brush of radius `3`, the midpoint
`(11, 12)` is at distance `1` from the cursor and the new handle goes to
`(13, 12)`. -/
theorem getInsertPosition_cases_witness :
    euclideanDistance Rat.sqrt (⟨10, 12⟩ : Point ℚ) ⟨(11 + 11) / 2, (10 + 14) / 2⟩ = 1 ∧
    getInsertPosition (euclideanDistance Rat.sqrt)
        { image := ⟨20, 20⟩, mousePoint := ⟨10, 12⟩, toolSize := 3, minSpacing := 1,
          maxSpacing := 3 }
        [⟨0, 11, 10, [1]⟩, ⟨1, 11, 14, [2]⟩, ⟨2, 2, 12, [0]⟩] 1 0 1
      = some ⟨13, 12⟩ := by
  have h := (getInsertPosition_cases (euclideanDistance Rat.sqrt)
      { image := ⟨20, 20⟩, mousePoint := ⟨10, 12⟩, toolSize := 3, minSpacing := 1,
        maxSpacing := 3 }
      [⟨0, 11, 10, [1]⟩, ⟨1, 11, 14, [2]⟩, ⟨2, 2, 12, [0]⟩] 1 0 1
      ⟨0, 11, 10, [1]⟩ ⟨1, 11, 14, [2]⟩ (by decide) (by decide)).2 (by decide!) (by decide!)
  refine ⟨by decide!, ?_⟩
  rw [h]
  decide!

/-- The clamps of the two setters on the numbers of an ordered field (which has
no `NaN`).  For every such number `v`, the `hoverCursorFadeAlpha` setter stores
`max(min(v, 1), 0)`, which lies in `0 .. 1` and is `v` when `v` is in `0 .. 1`;
the `hoverCursorFadeDistance` setter stores `max(v, 1)`, which is at least `1`
and is `v` when `v ≥ 1`.  Neither call throws. -/
theorem set_hoverCursorFade_clamps (config : Configuration K) (v : K) :
    ((set_hoverCursorFadeAlpha config (JsValue.number v)).threw = false ∧
      (set_hoverCursorFadeAlpha config (JsValue.number v)).configuration.hoverCursorFadeAlpha
        = max (min v 1) 0 ∧
      0 ≤ (set_hoverCursorFadeAlpha config (JsValue.number v)).configuration.hoverCursorFadeAlpha ∧
      (set_hoverCursorFadeAlpha config (JsValue.number v)).configuration.hoverCursorFadeAlpha
        ≤ 1 ∧
      (0 ≤ v → v ≤ 1 →
        (set_hoverCursorFadeAlpha config (JsValue.number v)).configuration.hoverCursorFadeAlpha
          = v)) ∧
    ((set_hoverCursorFadeDistance config (JsValue.number v)).threw = false ∧
      (set_hoverCursorFadeDistance config
          (JsValue.number v)).configuration.hoverCursorFadeDistance = max v 1 ∧
      1 ≤ (set_hoverCursorFadeDistance config
          (JsValue.number v)).configuration.hoverCursorFadeDistance ∧
      (1 ≤ v →
        (set_hoverCursorFadeDistance config
          (JsValue.number v)).configuration.hoverCursorFadeDistance = v)) := by
  refine ⟨⟨rfl, rfl, ?_, ?_, ?_⟩, ⟨rfl, rfl, ?_, ?_⟩⟩
  · exact le_max_right _ _
  · exact max_le (min_le_right _ _) zero_le_one
  · intro h0 h1
    show max (min v 1) 0 = v
    rw [min_eq_left h1, max_eq_left h0]
  · exact le_max_right _ _
  · intro h1
    show max v 1 = v
    exact max_eq_left h1

/-- C23. Every setter of the configuration API throws exactly when the value is
of the wrong type (not a number for `minSpacing`, `maxSpacing`,
`hoverCursorFadeAlpha` and `hoverCursorFadeDistance`, not a boolean for
`showCursorOnHover` and `limitRadiusOutsideRegion`), and a call that throws
leaves the configuration as it was. -/
theorem setters_reject_wrong_type (config : Configuration K) (value : JsValue K) :
    (((set_minSpacing config value).threw = true ↔ value.isNumber = false) ∧
      ((set_minSpacing config value).threw = true →
        (set_minSpacing config value).configuration = config)) ∧
    (((set_maxSpacing config value).threw = true ↔ value.isNumber = false) ∧
      ((set_maxSpacing config value).threw = true →
        (set_maxSpacing config value).configuration = config)) ∧
    (((set_hoverCursorFadeAlpha config value).threw = true ↔ value.isNumber = false) ∧
      ((set_hoverCursorFadeAlpha config value).threw = true →
        (set_hoverCursorFadeAlpha config value).configuration = config)) ∧
    (((set_hoverCursorFadeDistance config value).threw = true ↔ value.isNumber = false) ∧
      ((set_hoverCursorFadeDistance config value).threw = true →
        (set_hoverCursorFadeDistance config value).configuration = config)) ∧
    (((set_showCursorOnHover config value).threw = true ↔ value.isBoolean = false) ∧
      ((set_showCursorOnHover config value).threw = true →
        (set_showCursorOnHover config value).configuration = config)) ∧
    (((set_limitRadiusOutsideRegion config value).threw = true ↔ value.isBoolean = false) ∧
      ((set_limitRadiusOutsideRegion config value).threw = true →
        (set_limitRadiusOutsideRegion config value).configuration = config)) := by
  cases value <;>
    simp [set_minSpacing, set_maxSpacing, set_hoverCursorFadeAlpha, set_hoverCursorFadeDistance,
      set_showCursorOnHover, set_limitRadiusOutsideRegion, JsValue.isNumber, JsValue.isBoolean]

end Small

/-! ## The cursor radius and the division by zero -/

section Radius
variable {K : Type} [LinearOrderedField K]

/-- The cursor radius when the signed area of the image on the canvas is not
negative.  Let `sqrt` be a square root on the non-negative numbers and
`pi > 0`.  For every `radius ≥ 0` and every contour area `≥ 0`, and with `m = 1`
in image coordinates and `m = canvasArea / (image.width * image.height)` in
canvas coordinates, where the image is not empty
(`image.width * image.height ≠ 0`) and `m ≥ 0`: `_limitCursorRadius` returns
`min(radius, sqrt(area * m / pi))`, which is at most `radius`, and the circle of
the returned radius has area at most `area * m`. -/
theorem limitCursorRadius_le (sqrt : K → K) (pi : K) (pixelToCanvas : Point K → Point K)
    (image : Image K) (dataArea radius : K) (canvasCoords : Bool)
    (hsqrt : ∀ x, 0 ≤ x → 0 ≤ sqrt x ∧ sqrt x * sqrt x = x) (hpi : 0 < pi)
    (hr : 0 ≤ radius) (ha : 0 ≤ dataArea)
    (hm : canvasCoords = true →
      image.width * image.height ≠ 0 ∧ 0 ≤ canvasAreaModifier pixelToCanvas image) :
    limitCursorRadius sqrt pi pixelToCanvas image dataArea radius canvasCoords
      = min radius (sqrt (dataArea
          * (if canvasCoords then canvasAreaModifier pixelToCanvas image else 1) / pi)) ∧
    limitCursorRadius sqrt pi pixelToCanvas image dataArea radius canvasCoords ≤ radius ∧
    pi * (limitCursorRadius sqrt pi pixelToCanvas image dataArea radius canvasCoords
        * limitCursorRadius sqrt pi pixelToCanvas image dataArea radius canvasCoords)
      ≤ dataArea * (if canvasCoords then canvasAreaModifier pixelToCanvas image else 1) := by
  have hdef : limitCursorRadius sqrt pi pixelToCanvas image dataArea radius canvasCoords
      = min radius (sqrt (dataArea
          * (if canvasCoords then canvasAreaModifier pixelToCanvas image else 1) / pi)) := by
    cases canvasCoords <;> rfl
  generalize hmod : (if canvasCoords then canvasAreaModifier pixelToCanvas image else 1) = m
    at hdef ⊢
  have hm0 : 0 ≤ m := by
    subst hmod
    cases canvasCoords
    · simp
    · simpa using (hm rfl).2
  have hx : 0 ≤ dataArea * m / pi := div_nonneg (mul_nonneg ha hm0) (le_of_lt hpi)
  obtain ⟨hs0, hs1⟩ := hsqrt _ hx
  rw [hdef]
  refine ⟨rfl, min_le_left _ _, ?_⟩
  have h0 : 0 ≤ min radius (sqrt (dataArea * m / pi)) := le_min hr hs0
  have h1 : min radius (sqrt (dataArea * m / pi)) ≤ sqrt (dataArea * m / pi) :=
    min_le_right _ _
  have h2 : min radius (sqrt (dataArea * m / pi)) * min radius (sqrt (dataArea * m / pi))
      ≤ dataArea * m / pi := by
    have h3 := mul_le_mul h1 h1 h0 hs0
    rw [hs1] at h3
    exact h3
  calc pi * (min radius (sqrt (dataArea * m / pi)) * min radius (sqrt (dataArea * m / pi)))
      ≤ pi * (dataArea * m / pi) := mul_le_mul_of_nonneg_left h2 (le_of_lt hpi)
    _ = dataArea * m := by field_simp

/-- An instance of `limitCursorRadius_le`: a 10 by 10 image shown at twice its size,
a contour of area `4` and a radius of `5`, over the reals. -/
theorem limitCursorRadius_le_witness :
    limitCursorRadius Real.sqrt Real.pi (fun p => ⟨2 * p.x, 2 * p.y⟩) ⟨10, 10⟩ 4 5 true
      = min (5 : ℝ) (Real.sqrt (4
          * (if true then canvasAreaModifier (fun p => ⟨2 * p.x, 2 * p.y⟩) ⟨10, 10⟩ else 1)
            / Real.pi)) ∧
    limitCursorRadius Real.sqrt Real.pi (fun p => ⟨2 * p.x, 2 * p.y⟩) ⟨10, 10⟩ 4 5 true ≤ 5 ∧
    Real.pi * (limitCursorRadius Real.sqrt Real.pi (fun p => ⟨2 * p.x, 2 * p.y⟩) ⟨10, 10⟩ 4 5
          true
        * limitCursorRadius Real.sqrt Real.pi (fun p => ⟨2 * p.x, 2 * p.y⟩) ⟨10, 10⟩ 4 5 true)
      ≤ 4 * (if true then canvasAreaModifier (fun p => ⟨2 * p.x, 2 * p.y⟩) ⟨10, 10⟩ else 1) :=
  limitCursorRadius_le Real.sqrt Real.pi (fun p => ⟨2 * p.x, 2 * p.y⟩) ⟨10, 10⟩ 4 5 true
    (fun x hx => ⟨Real.sqrt_nonneg x, Real.mul_self_sqrt hx⟩) Real.pi_pos (by norm_num)
    (by norm_num) (by intro _; simp only [canvasAreaModifier]; norm_num)

/-- The projecting branch of `_getInsertPosition`.  When the midpoint `m` of the
two neighbours is at a distance
`d` from `mousePoint` with `0 < d < toolSize`, and the point
`mousePoint + toolSize * (m - mousePoint) / d` lies in the box of the image, the
handle that `_insertHandleRadially` inserts is at distance `toolSize` from
`mousePoint`. -/
theorem insertHandleRadially_on_circle (dist : Point K → Point K → K) (hE : IsEuclidean dist)
    (s : SculptData K) (points : List (Handle K)) (k : Nat) (p q : Handle K)
    (hp : points[k]? = some p)
    (hq : points[if k + 1 = points.length then 0 else k + 1]? = some q)
    (hpos : 0 < dist s.mousePoint ⟨(p.x + q.x) / 2, (p.y + q.y) / 2⟩)
    (hlt : dist s.mousePoint ⟨(p.x + q.x) / 2, (p.y + q.y) / 2⟩ < s.toolSize)
    (hx0 : 0 ≤ (projectedPoint s ⟨(p.x + q.x) / 2, (p.y + q.y) / 2⟩
      (dist s.mousePoint ⟨(p.x + q.x) / 2, (p.y + q.y) / 2⟩)).x)
    (hx1 : (projectedPoint s ⟨(p.x + q.x) / 2, (p.y + q.y) / 2⟩
      (dist s.mousePoint ⟨(p.x + q.x) / 2, (p.y + q.y) / 2⟩)).x ≤ s.image.width)
    (hy0 : 0 ≤ (projectedPoint s ⟨(p.x + q.x) / 2, (p.y + q.y) / 2⟩
      (dist s.mousePoint ⟨(p.x + q.x) / 2, (p.y + q.y) / 2⟩)).y)
    (hy1 : (projectedPoint s ⟨(p.x + q.x) / 2, (p.y + q.y) / 2⟩
      (dist s.mousePoint ⟨(p.x + q.x) / 2, (p.y + q.y) / 2⟩)).y ≤ s.image.height) :
    ∃ points' handle,
      insertHandleRadially dist s points ((k : Int) + 1) = some points' ∧
      points'[k + 1]? = some handle ∧
      handle.toPoint = projectedPoint s ⟨(p.x + q.x) / 2, (p.y + q.y) / 2⟩
        (dist s.mousePoint ⟨(p.x + q.x) / 2, (p.y + q.y) / 2⟩) ∧
      dist handle.toPoint s.mousePoint = s.toolSize := by
  obtain ⟨pts', hrun, hP⟩ := insertHandleRadially_spec dist s points k p q hp hq
  have hk : k < points.length := (List.getElem?_eq_some_iff.1 hp).1
  have hpos' : insertPositionOf dist s p.toPoint q.toPoint
      = projectedPoint s ⟨(p.x + q.x) / 2, (p.y + q.y) / 2⟩
        (dist s.mousePoint ⟨(p.x + q.x) / 2, (p.y + q.y) / 2⟩) := by
    simp only [insertPositionOf, Handle.toPoint, if_pos hlt, clipToBox, ← mul_div_assoc]
    simp only [projectedPoint] at hx0 hx1 hy0 hy1
    rw [clip_of_mem _ _ _ hx0 hx1, clip_of_mem _ _ _ hy0 hy1]
    rfl
  have hget : (pts'.map Handle.toPoint)[k + 1]?
      = some (insertPositionOf dist s p.toPoint q.toPoint) := by
    rw [hP]
    exact getElem?_splice_eq _ (k + 1) _ (by simp; omega)
  rw [List.getElem?_map] at hget
  cases hh : pts'[k + 1]? with
  | none => rw [hh] at hget; simp at hget
  | some handle =>
    rw [hh] at hget
    simp only [Option.map_some', Option.some.injEq] at hget
    refine ⟨pts', handle, hrun, hh, by rw [hget, hpos'], ?_⟩
    rw [hget, hpos']
    generalize hd : dist s.mousePoint ⟨(p.x + q.x) / 2, (p.y + q.y) / 2⟩ = d at *
    have hsq := (hE s.mousePoint ⟨(p.x + q.x) / 2, (p.y + q.y) / 2⟩).2
    rw [hd] at hsq
    simp only at hsq
    have hd0 : d ≠ 0 := ne_of_gt hpos
    apply hE.eq_of_sq (le_of_lt (lt_trans hpos hlt))
    simp only [projectedPoint]
    have e1 : s.mousePoint.x + s.toolSize * ((p.x + q.x) / 2 - s.mousePoint.x) / d
        - s.mousePoint.x = - (s.toolSize / d * (s.mousePoint.x - (p.x + q.x) / 2)) := by ring
    have e2 : s.mousePoint.y + s.toolSize * ((p.y + q.y) / 2 - s.mousePoint.y) / d
        - s.mousePoint.y = - (s.toolSize / d * (s.mousePoint.y - (p.y + q.y) / 2)) := by ring
    rw [e1, e2]
    have : -(s.toolSize / d * (s.mousePoint.x - (p.x + q.x) / 2))
          * -(s.toolSize / d * (s.mousePoint.x - (p.x + q.x) / 2))
        + -(s.toolSize / d * (s.mousePoint.y - (p.y + q.y) / 2))
          * -(s.toolSize / d * (s.mousePoint.y - (p.y + q.y) / 2))
        = s.toolSize / d * (s.toolSize / d)
          * ((s.mousePoint.x - (p.x + q.x) / 2) * (s.mousePoint.x - (p.x + q.x) / 2)
            + (s.mousePoint.y - (p.y + q.y) / 2) * (s.mousePoint.y - (p.y + q.y) / 2)) := by
      ring
    rw [this, ← hsq]
    field_simp

/-- An instance of `insertHandleRadially_on_circle`: between the handles `(11, 10)`
and `(11, 14)`, with the cursor at `(10, 12)` and a brush of radius `3`, the
midpoint `(11, 12)` is at distance `1` from the cursor, and the new handle is at
distance `3`. -/
theorem insertHandleRadially_on_circle_witness :
    ∃ points' handle,
      insertHandleRadially (euclideanDistance Real.sqrt)
        { image := ⟨20, 20⟩, mousePoint := ⟨10, 12⟩, toolSize := 3, minSpacing := 1,
          maxSpacing := 3 }
        [⟨0, 11, 10, [1]⟩, ⟨1, 11, 14, [2]⟩, ⟨2, 2, 12, [0]⟩] (((0 : Nat) : Int) + 1)
        = some points' ∧
      points'[0 + 1]? = some handle ∧
      handle.toPoint = projectedPoint
        ({ image := ⟨20, 20⟩, mousePoint := ⟨10, 12⟩, toolSize := 3, minSpacing := 1,
            maxSpacing := 3 } : SculptData ℝ)
        ⟨((11 : ℝ) + 11) / 2, ((10 : ℝ) + 14) / 2⟩
        (euclideanDistance Real.sqrt ⟨10, 12⟩ ⟨((11 : ℝ) + 11) / 2, ((10 : ℝ) + 14) / 2⟩) ∧
      euclideanDistance Real.sqrt handle.toPoint ⟨10, 12⟩ = 3 := by
  have hd : euclideanDistance Real.sqrt (⟨10, 12⟩ : Point ℝ)
      ⟨((11 : ℝ) + 11) / 2, ((10 : ℝ) + 14) / 2⟩ = 1 :=
    isEuclidean_sqrt.eq_of_sq (by norm_num) (by norm_num)
  exact insertHandleRadially_on_circle (euclideanDistance Real.sqrt) isEuclidean_sqrt
    { image := ⟨20, 20⟩, mousePoint := ⟨10, 12⟩, toolSize := 3, minSpacing := 1,
      maxSpacing := 3 }
    [⟨0, 11, 10, [1]⟩, ⟨1, 11, 14, [2]⟩, ⟨2, 2, 12, [0]⟩] 0 ⟨0, 11, 10, [1]⟩
    ⟨1, 11, 14, [2]⟩ rfl rfl
    (by simp only [hd]; norm_num)
    (by simp only [hd]; norm_num)
    (by simp only [projectedPoint, hd]; norm_num)
    (by simp only [projectedPoint, hd]; norm_num)
    (by simp only [projectedPoint, hd]; norm_num)
    (by simp only [projectedPoint, hd]; norm_num)

end Radius

/-- C21 (the code at the failing input). A 100 by 100 image shown rotated by a
quarter turn:
`pixelToCanvas` sends `(x, y)` to `(100 - y, x)`, so the corner `(0, 0)` goes to
`(100, 0)`, the corner `(100, 100)` goes to `(0, 100)`, and `canvasArea` is
`(0 - 100) * (100 - 0) = -10000`: the area modifier is `-1`.  For a contour of
area `4` and a radius of `5`, `Math.pow` is applied to a negative number, and
`_limitCursorRadius` returns `NaN` in canvas coordinates, which is not at most
the given radius. -/
theorem limitCursorRadius_rotated_viewport :
    limitCursorRadius JsNumber.sqrt JsNumber.PI (fun p => ⟨100 - p.y, p.x⟩) ⟨100, 100⟩ 4 5 true
      = JsNumber.nan ∧
    ¬ (limitCursorRadius JsNumber.sqrt JsNumber.PI (fun p => ⟨100 - p.y, p.x⟩) ⟨100, 100⟩ 4 5
        true ≤ 5) := by
  decide!

/-- C13 (the code at the failing input). In the kite around the cursor
`(10, 10)`, with a brush of radius `3`, `_insertHandleRadially(3)` inserts a
handle between the handles at `(16, 10)` and `(10, 18)`.  Their midpoint
`(13, 14)` is not within the brush, so the `else` branch of
`_getInsertPosition` keeps it: the new handle is at `(13, 14)`, at distance `5`
from the cursor, not `3`, against the docstrings of `_insertNewHandles` and
`_insertHandleRadially`. -/
theorem insertHandleRadially_off_circle :
    insertHandleRadially (euclideanDistance Rat.sqrt)
        { image := ⟨20, 20⟩, mousePoint := ⟨10, 10⟩, toolSize := 3, minSpacing := 1,
          maxSpacing := 3 }
        [⟨0, 10, 6, [1]⟩, ⟨1, 13, 10, [2]⟩, ⟨2, 16, 10, [3]⟩, ⟨3, 10, 18, [4]⟩,
          ⟨4, 6, 10, [0]⟩] 3
      = some [⟨0, 10, 6, [1]⟩, ⟨1, 13, 10, [2]⟩, ⟨2, 16, 10, [5]⟩, ⟨5, 13, 14, [3]⟩,
          ⟨3, 10, 18, [4]⟩, ⟨4, 6, 10, [0]⟩] ∧
    euclideanDistance Rat.sqrt (Handle.toPoint ⟨5, 13, 14, [3]⟩) ⟨10, 10⟩ = 5 ∧
    (5 : ℚ) ≠ 3 := by
  decide!

/-- C15 (the code at the failing input). The square
`[(0, 0), (10, 0), (10, 10), (0, 10)]` with the cursor at `(0, 0)` and a brush of
radius `3`: the handle at `(0, 0)` is at distance `0`, `_pushOneHandle` divides
`0` by `0`, and the handle is left with the coordinates `(NaN, NaN)`. -/
theorem pushOneHandle_at_centre :
    euclideanDistance JsNumber.sqrt (Handle.toPoint ⟨0, 0, 0, [1]⟩) ⟨0, 0⟩ = 0 ∧
    pushOneHandle
        ({ image := ⟨10, 10⟩, mousePoint := ⟨0, 0⟩, toolSize := 3, minSpacing := 1,
            maxSpacing := 3 } : SculptData JsNumber)
        [⟨0, 0, 0, [1]⟩, ⟨1, 10, 0, [2]⟩, ⟨2, 10, 10, [3]⟩, ⟨3, 0, 10, [0]⟩] 0 0
      = some [⟨0, JsNumber.nan, JsNumber.nan, [1]⟩, ⟨1, 10, 0, [2]⟩, ⟨2, 10, 10, [3]⟩,
          ⟨3, 0, 10, [0]⟩] ∧
    pushHandles (euclideanDistance JsNumber.sqrt)
        { image := ⟨10, 10⟩, mousePoint := ⟨0, 0⟩, toolSize := 3, minSpacing := 1,
          maxSpacing := 3 }
        [⟨0, 0, 0, [1]⟩, ⟨1, 10, 0, [2]⟩, ⟨2, 10, 10, [3]⟩, ⟨3, 0, 10, [0]⟩]
      = some ([⟨0, JsNumber.nan, JsNumber.nan, [1]⟩, ⟨1, 10, 0, [2]⟩, ⟨2, 10, 10, [3]⟩,
          ⟨3, 0, 10, [0]⟩], ⟨some 0, some 0⟩) := by
  decide!

/-- C28 (the code at the failing input). The cursor `(10, 10)` is the midpoint
of the handles at `(8, 10)` and `(12, 10)`; with a brush of radius `3` the
distance from the cursor to the midpoint is `0 < 3`, `_getInsertPosition`
divides `0` by `0` and returns `(NaN, NaN)`, and `_insertHandleRadially` inserts
a handle with these coordinates. -/
theorem getInsertPosition_at_centre :
    getInsertPosition (euclideanDistance JsNumber.sqrt)
        { image := ⟨20, 20⟩, mousePoint := ⟨10, 10⟩, toolSize := 3, minSpacing := 1,
          maxSpacing := 3 }
        [⟨0, 8, 10, [1]⟩, ⟨1, 12, 10, [2]⟩, ⟨2, 10, 16, [0]⟩] 1 0 1
      = some ⟨JsNumber.nan, JsNumber.nan⟩ ∧
    insertHandleRadially (euclideanDistance JsNumber.sqrt)
        { image := ⟨20, 20⟩, mousePoint := ⟨10, 10⟩, toolSize := 3, minSpacing := 1,
          maxSpacing := 3 }
        [⟨0, 8, 10, [1]⟩, ⟨1, 12, 10, [2]⟩, ⟨2, 10, 16, [0]⟩] 1
      = some [⟨0, 8, 10, [3]⟩, ⟨3, JsNumber.nan, JsNumber.nan, [1]⟩, ⟨1, 12, 10, [2]⟩,
          ⟨2, 10, 16, [0]⟩] := by
  decide!

/-! ## Densify: the handles after an insertion -/

theorem mem_of_getElem?_eq_some {α : Type} (xs : List α) (i : Nat) (a : α)
    (h : xs[i]? = some a) : a ∈ xs := by
  obtain ⟨hlt, rfl⟩ := List.getElem?_eq_some_iff.1 h
  exact List.getElem_mem hlt

section Insert
variable {K : Type} [LinearOrderedField K]

/-- The effect of `_insertHandleRadially` on the handles: the handle at `k` has
its outgoing segment redirected to the new handle, the new handle is spliced in
at `k + 1` with an outgoing segment to the handle that followed the handle at
`k`, and nothing else changes. -/
theorem insertHandleRadially_handles (dist : Point K → Point K → K) (s : SculptData K)
    (points : List (Handle K)) (k : Nat) (p q : Handle K) (hp : points[k]? = some p)
    (hq : points[if k + 1 = points.length then 0 else k + 1]? = some q) :
    insertHandleRadially dist s points ((k : Int) + 1)
      = some (points.take k
          ++ { p with lines := popPush p.lines (freshId points) }
            :: { id := freshId points
                 x := (insertPositionOf dist s p.toPoint q.toPoint).x
                 y := (insertPositionOf dist s p.toPoint q.toPoint).y
                 lines := [q.id] }
            :: points.drop (k + 1)) := by
  have hk : k < points.length := (List.getElem?_eq_some_iff.1 hp).1
  have hnext : getNextHandleIndexBeforeInsert ((k : Int) + 1) (points.length : Int)
      = ((if k + 1 = points.length then 0 else k + 1 : Nat) : Int) := by
    unfold getNextHandleIndexBeforeInsert
    split_ifs <;> omega
  have hprev : (k : Int) + 1 - 1 = (k : Int) := by omega
  have hidx : (k : Int) + 1 = ((k + 1 : Nat) : Int) := by omega
  unfold insertHandleRadially
  simp only [hprev, hnext]
  rw [getInsertPosition_eq dist s points _ _ _ p q (by rw [getAt_natCast]; exact hp)
    (by rw [getAt_natCast]; exact hq)]
  simp only [Option.bind_eq_bind, Option.some_bind]
  rw [hidx, spliceInsert_natCast _ _ _ (by omega)]
  generalize hpos : insertPositionOf dist s p.toPoint q.toPoint = pos
  have hLk : (points.take (k + 1) ++ FreehandHandleData pos (freshId points)
      :: points.drop (k + 1))[k]? = some p := by
    rw [List.getElem?_append_left (by simp [hk]), List.getElem?_take_of_lt (by omega)]
    exact hp
  have hLk1 : (points.take (k + 1) ++ FreehandHandleData pos (freshId points)
      :: points.drop (k + 1))[k + 1]? = some (FreehandHandleData pos (freshId points)) :=
    getElem?_splice_eq points (k + 1) _ (by omega)
  have hLlen : (points.take (k + 1) ++ FreehandHandleData pos (freshId points)
      :: points.drop (k + 1)).length = points.length + 1 := by
    simp only [List.length_append, List.length_take, List.length_cons, List.length_drop]
    omega
  simp only [getAt_natCast, hLk, hLk1, Option.some_bind, setAt_natCast]
  unfold addLine
  simp only [getAt_natCast, List.length_set, hLlen, setAt_natCast]
  have hne : k ≠ k + 1 := by omega
  rw [List.getElem?_set_ne hne, hLk1]
  have hc : getNextHandleIndex ((k + 1 : Nat) : Int) ((points.length + 1 : Nat) : Int)
      = ((if k + 1 = points.length then 0 else k + 2 : Nat) : Int) := by
    unfold getNextHandleIndex
    split_ifs <;> omega
  rw [hc, getAt_natCast]
  -- the handle the new handle points at has the identity of `q`
  have htarget : ∃ target, ((points.take (k + 1) ++ FreehandHandleData pos (freshId points)
      :: points.drop (k + 1)).set k
        { p with lines := popPush p.lines (FreehandHandleData pos (freshId points)).id })[
          if k + 1 = points.length then 0 else k + 2]? = some target ∧ target.id = q.id := by
    by_cases hkn : k + 1 = points.length
    · rw [if_pos hkn] at hq ⊢
      by_cases hk0 : k = 0
      · subst hk0
        rw [hp] at hq
        cases hq
        exact ⟨{ p with
          lines := popPush p.lines (FreehandHandleData pos (freshId points)).id },
          by rw [List.getElem?_set_self (by rw [hLlen]; omega)], rfl⟩
      · refine ⟨q, ?_, rfl⟩
        rw [List.getElem?_set_ne hk0, getElem?_splice_lt points (k + 1) _ 0 (by omega) (by omega)]
        exact hq
    · rw [if_neg hkn] at hq ⊢
      refine ⟨q, ?_, rfl⟩
      rw [List.getElem?_set_ne (by omega),
        getElem?_splice_gt points (k + 1) _ (k + 2) (by omega) (by omega)]
      exact hq
  obtain ⟨target, ht, htid⟩ := htarget
  rw [ht]
  simp only [Option.bind_eq_bind, Option.some_bind, Option.some.injEq]
  apply List.ext_getElem?
  intro j
  rcases Nat.lt_trichotomy j k with hj | hj | hj
  · rw [List.getElem?_set_ne (by omega), List.getElem?_set_ne (by omega),
      getElem?_splice_lt points (k + 1) _ j (by omega) (by omega),
      List.getElem?_append_left (by simp; omega), List.getElem?_take_of_lt hj]
  · subst hj
    rw [List.getElem?_set_ne (by omega), List.getElem?_set_self (by rw [hLlen]; omega),
      List.getElem?_append_right (by simp)]
    simp [Nat.min_eq_left (Nat.le_of_lt hk), FreehandHandleData]
  · rcases Nat.eq_or_lt_of_le (Nat.succ_le_of_lt hj) with hj1 | hj1
    · subst hj1
      rw [List.getElem?_set_self (by rw [List.length_set, hLlen]; omega),
        List.getElem?_append_right (by simp)]
      simp [Nat.min_eq_left (Nat.le_of_lt hk), FreehandHandleData, htid]
    · rw [List.getElem?_set_ne (by omega), List.getElem?_set_ne (by omega),
        getElem?_splice_gt points (k + 1) _ j (by omega) (by omega),
        List.getElem?_append_right (by simp; omega)]
      simp only [List.length_take, Nat.min_eq_left (Nat.le_of_lt hk)]
      obtain ⟨d, hd⟩ : ∃ d, j - k = d + 2 := ⟨j - k - 2, by omega⟩
      rw [hd, List.getElem?_cons_succ, List.getElem?_cons_succ, List.getElem?_drop]
      congr 1
      omega

/-- The loop of `_insertNewHandles` for any list of sites that are indices of
the contour as it was before the loop (of `n` handles), in any order: every
insertion index is valid, so the loop returns; it adds one handle per site, keeps
the handles that were there (identity and coordinates) in their order, and every
handle of the result has the coordinates of an old handle or is at an insert
position. -/
theorem insertNewHandlesLoop_total (dist : Point K → Point K → K) (s : SculptData K)
    (n : Nat) :
    ∀ (sites : List Int) (m : Nat) (points : List (Handle K)),
      points.length = n + m →
      (∀ x ∈ sites, ∃ j : Nat, x = (j : Int) ∧ j < n) →
      ∃ points', insertNewHandlesLoop dist s sites (m : Int) points = some points' ∧
        points'.length = points.length + sites.length ∧
        (points.map (fun h => (h.id, h.toPoint))).Sublist
          (points'.map (fun h => (h.id, h.toPoint))) ∧
        ∀ h' ∈ points', (∃ h ∈ points, h'.toPoint = h.toPoint) ∨
          ∃ p q, h'.toPoint = insertPositionOf dist s p q := by
  intro sites
  induction sites with
  | nil =>
    intro m points _ _
    exact ⟨points, rfl, by simp, List.Sublist.refl _, fun h' hh' => Or.inl ⟨h', hh', rfl⟩⟩
  | cons x rest ih =>
    intro m points hlen hsites
    obtain ⟨j, hx, hj⟩ := hsites x (List.mem_cons_self _ _)
    have hk : j + m < points.length := by omega
    obtain ⟨p, hp⟩ := exists_getElem?_of_lt points (j + m) hk
    obtain ⟨q, hq⟩ := exists_getElem?_of_lt points
      (if j + m + 1 = points.length then 0 else j + m + 1) (by split_ifs <;> omega)
    have hrun := insertHandleRadially_handles dist s points (j + m) p q hp hq
    have hidx : x + 1 + (m : Int) = ((j + m : Nat) : Int) + 1 := by omega
    generalize hR : points.take (j + m)
      ++ ({ p with lines := popPush p.lines (freshId points) } : Handle K)
        :: ({ id := freshId points
              x := (insertPositionOf dist s p.toPoint q.toPoint).x
              y := (insertPositionOf dist s p.toPoint q.toPoint).y
              lines := [q.id] } : Handle K)
        :: points.drop (j + m + 1) = R at hrun
    have hsplit : points = points.take (j + m) ++ p :: points.drop (j + m + 1) := by
      have h1 : points.drop (j + m) = p :: points.drop (j + m + 1) := by
        rw [List.drop_eq_getElem_cons hk]
        congr 1
        have := List.getElem?_eq_getElem hk
        rw [hp] at this
        exact (Option.some.inj this).symm
      conv_lhs => rw [← List.take_append_drop (j + m) points, h1]
    have hRlen : R.length = n + (m + 1) := by
      subst hR
      simp only [List.length_append, List.length_take, List.length_cons, List.length_drop]
      omega
    obtain ⟨pts', hloop, hlen', hsub, hmem⟩ := ih (m + 1) R hRlen
      (fun y hy => hsites y (List.mem_cons_of_mem _ hy))
    refine ⟨pts', ?_, ?_, ?_, ?_⟩
    · simp only [insertNewHandlesLoop, hidx, hrun, Option.bind_eq_bind, Option.some_bind]
      have : ((m : Int) + 1) = ((m + 1 : Nat) : Int) := by omega
      rw [this]
      exact hloop
    · rw [hlen', hRlen, hlen]
      simp only [List.length_cons]
      omega
    · refine List.Sublist.trans ?_ hsub
      subst hR
      conv_lhs => rw [hsplit]
      simp only [List.map_append, List.map_cons]
      apply List.Sublist.append_left
      apply List.Sublist.cons₂
      exact List.Sublist.cons _ (List.Sublist.refl _)
    · intro h' hh'
      rcases hmem h' hh' with ⟨h, hh, heq⟩ | hnew
      · subst hR
        simp only [List.mem_append, List.mem_cons] at hh
        rcases hh with hh | hh | hh | hh
        · exact Or.inl ⟨h, List.mem_of_mem_take hh, heq⟩
        · subst hh
          exact Or.inl ⟨p, mem_of_getElem?_eq_some _ _ _ hp, heq⟩
        · subst hh
          exact Or.inr ⟨p.toPoint, q.toPoint, heq⟩
        · exact Or.inl ⟨h, List.mem_of_mem_drop hh, heq⟩
      · exact Or.inr hnew

/-- C11. For a pushed range `first ≤ last` of a contour, `_insertNewHandles`
returns; the number of handles grows by exactly the number of sites that
`_findNewHandleIndicies` returns, and the handles that were there before are
all still there, in the same order, with the same coordinates. -/
theorem insertNewHandles_count (dist : Point K → Point K → K) (s : SculptData K)
    (points : List (Handle K)) (first last : Nat) (hfl : first ≤ last)
    (hl : last < points.length) :
    ∃ sites points',
      findNewHandleIndicies dist s points first last = some sites ∧
      insertNewHandles dist s points first last = some points' ∧
      points'.length = points.length + sites.length ∧
      (points.map (fun h => (h.id, h.toPoint))).Sublist
        (points'.map (fun h => (h.id, h.toPoint))) := by
  obtain ⟨sites, hsites, hmem⟩ := findNewHandleIndicies_spec dist s points first last hfl hl
  obtain ⟨pts', hloop, hlen, hsub, -⟩ :=
    insertNewHandlesLoop_total dist s points.length sites 0 points (by simp)
      (fun x hx => by
        obtain ⟨j, h1, h2, -⟩ := (hmem x).1 hx
        exact ⟨j, h1, h2⟩)
  refine ⟨sites, pts', hsites, ?_, hlen, hsub⟩
  simp only [insertNewHandles, hsites, Option.bind_eq_bind, Option.some_bind]
  exact hloop

/-- Witness of `insertNewHandles_count`: the triangle `(0, 0)`, `(4, 0)`,
`(0, 3)` with `maxSpacing = 2` and the pushed range `0 .. 2`: all three edges
are recorded, and the contour gains three handles. -/
theorem insertNewHandles_count_witness :
    findNewHandleIndicies (euclideanDistance Rat.sqrt)
        { image := ⟨10, 10⟩, mousePoint := ⟨0, 0⟩, toolSize := 2, minSpacing := 1,
          maxSpacing := 2 }
        [⟨0, 0, 0, [1]⟩, ⟨1, 4, 0, [2]⟩, ⟨2, 0, 3, [0]⟩] 0 2 = some [0, 1, 2] ∧
    ∃ sites points',
      findNewHandleIndicies (euclideanDistance Rat.sqrt)
        { image := ⟨10, 10⟩, mousePoint := ⟨0, 0⟩, toolSize := 2, minSpacing := 1,
          maxSpacing := 2 }
        [⟨0, 0, 0, [1]⟩, ⟨1, 4, 0, [2]⟩, ⟨2, 0, 3, [0]⟩] 0 2 = some sites ∧
      insertNewHandles (euclideanDistance Rat.sqrt)
        { image := ⟨10, 10⟩, mousePoint := ⟨0, 0⟩, toolSize := 2, minSpacing := 1,
          maxSpacing := 2 }
        [⟨0, 0, 0, [1]⟩, ⟨1, 4, 0, [2]⟩, ⟨2, 0, 3, [0]⟩] 0 2 = some points' ∧
      points'.length
        = ([⟨0, 0, 0, [1]⟩, ⟨1, 4, 0, [2]⟩, ⟨2, 0, 3, [0]⟩] : List (Handle ℚ)).length
          + sites.length ∧
      (([⟨0, 0, 0, [1]⟩, ⟨1, 4, 0, [2]⟩, ⟨2, 0, 3, [0]⟩] : List (Handle ℚ)).map
          (fun h => (h.id, h.toPoint))).Sublist
        (points'.map (fun h => (h.id, h.toPoint))) :=
  ⟨by decide!,
    insertNewHandles_count (euclideanDistance Rat.sqrt)
      { image := ⟨10, 10⟩, mousePoint := ⟨0, 0⟩, toolSize := 2, minSpacing := 1,
        maxSpacing := 2 }
      [⟨0, 0, 0, [1]⟩, ⟨1, 4, 0, [2]⟩, ⟨2, 0, 3, [0]⟩] 0 2 (by decide) (by decide)⟩

/-- C29. For a pushed range `first ≤ last` of a contour of `n ≥ 1` handles and
the sites that `_findNewHandleIndicies` returns: when `_insertNewHandles` comes
to its `j`-th site, after `j` insertions, the insertion index
`site + 1 + j` is at least `1` and at most the current number of handles, and
both the handle at `insertIndex - 1` and the handle at
`_getNextHandleIndexBeforeInsert(insertIndex, length)` exist. -/
theorem insertNewHandles_indices_valid (dist : Point K → Point K → K) (s : SculptData K)
    (points : List (Handle K)) (first last : Nat) (hfl : first ≤ last)
    (hl : last < points.length) :
    ∃ sites, findNewHandleIndicies dist s points first last = some sites ∧
      ∀ (j : Nat) (site : Int), sites[j]? = some site →
        ∃ current,
          insertNewHandlesLoop dist s (sites.take j) 0 points = some current ∧
          1 ≤ site + 1 + (j : Int) ∧ site + 1 + (j : Int) ≤ (current.length : Int) ∧
          (∃ previousHandle, getAt current (site + 1 + (j : Int) - 1) = some previousHandle) ∧
          (∃ nextHandle,
            getAt current
              (getNextHandleIndexBeforeInsert (site + 1 + (j : Int)) current.length)
            = some nextHandle) := by
  obtain ⟨sites, hsites, hmem⟩ := findNewHandleIndicies_spec dist s points first last hfl hl
  refine ⟨sites, hsites, ?_⟩
  intro j site hj
  have hjl : j < sites.length := (List.getElem?_eq_some_iff.1 hj).1
  obtain ⟨i, hi, hin, -⟩ := (hmem site).1 (mem_of_getElem?_eq_some _ _ _ hj)
  obtain ⟨cur, hloop, hlen, -, -⟩ :=
    insertNewHandlesLoop_total dist s points.length (sites.take j) 0 points (by simp)
      (fun x hx => by
        obtain ⟨t, h1, h2, -⟩ := (hmem x).1 (List.mem_of_mem_take hx)
        exact ⟨t, h1, h2⟩)
  have hlen' : cur.length = points.length + j := by
    rw [hlen, List.length_take, Nat.min_eq_left (Nat.le_of_lt hjl)]
  refine ⟨cur, hloop, by omega, by omega, ?_, ?_⟩
  · exact getAt_isSome cur _ (by omega) (by omega)
  · apply getAt_isSome cur
    · unfold getNextHandleIndexBeforeInsert
      split_ifs <;> omega
    · unfold getNextHandleIndexBeforeInsert
      split_ifs <;> omega

/-- Witness of `insertNewHandles_indices_valid`: the triangle of the witness of
`insertNewHandles_count`. -/
theorem insertNewHandles_indices_valid_witness :
    ∃ sites,
      findNewHandleIndicies (euclideanDistance Rat.sqrt)
        { image := ⟨10, 10⟩, mousePoint := ⟨0, 0⟩, toolSize := 2, minSpacing := 1,
          maxSpacing := 2 }
        [⟨0, 0, 0, [1]⟩, ⟨1, 4, 0, [2]⟩, ⟨2, 0, 3, [0]⟩] 0 2 = some sites ∧
      ∀ (j : Nat) (site : Int), sites[j]? = some site →
        ∃ current,
          insertNewHandlesLoop (euclideanDistance Rat.sqrt)
            { image := ⟨10, 10⟩, mousePoint := ⟨0, 0⟩, toolSize := 2, minSpacing := 1,
              maxSpacing := 2 }
            (sites.take j) 0 [⟨0, 0, 0, [1]⟩, ⟨1, 4, 0, [2]⟩, ⟨2, 0, 3, [0]⟩] = some current ∧
          1 ≤ site + 1 + (j : Int) ∧ site + 1 + (j : Int) ≤ (current.length : Int) ∧
          (∃ previousHandle, getAt current (site + 1 + (j : Int) - 1) = some previousHandle) ∧
          (∃ nextHandle,
            getAt current
              (getNextHandleIndexBeforeInsert (site + 1 + (j : Int)) current.length)
            = some nextHandle) :=
  insertNewHandles_indices_valid (euclideanDistance Rat.sqrt)
    { image := ⟨10, 10⟩, mousePoint := ⟨0, 0⟩, toolSize := 2, minSpacing := 1,
      maxSpacing := 2 }
    [⟨0, 0, 0, [1]⟩, ⟨1, 4, 0, [2]⟩, ⟨2, 0, 3, [0]⟩] 0 2 (by decide) (by decide)

end Insert

/-! ## Densify: the recorded sites are distinct -/

section Sites
variable {K : Type} [LinearOrderedField K]

theorem checkSpacing_cases (dist : Point K → Point K → K) (i : Int)
    (points : List (Handle K)) (acc acc' : List Int) (maxSpacing : K)
    (h : checkSpacing dist i points acc maxSpacing = some acc') :
    acc' = acc ∨ acc' = acc ++ [i] := by
  unfold checkSpacing at h
  simp only [Option.bind_eq_bind] at h
  cases h1 : getAt points i with
  | none => rw [h1] at h; simp at h
  | some handle =>
    rw [h1] at h
    simp only [Option.some_bind] at h
    cases h2 : getAt points (getNextHandleIndex i points.length) with
    | none => rw [h2] at h; simp at h
    | some nextHandle =>
      rw [h2] at h
      simp only [Option.some_bind] at h
      split_ifs at h
      · right; exact (Option.some.inj h).symm
      · left; exact (Option.some.inj h).symm

theorem findNewHandleIndiciesLoop_nodup (dist : Point K → Point K → K) (s : SculptData K)
    (points : List (Handle K)) :
    ∀ (count i : Nat) (acc acc' : List Int),
      findNewHandleIndiciesLoop dist s points count i acc = some acc' →
      acc.Nodup → (∀ x ∈ acc, x < (i : Int)) →
      acc'.Nodup ∧ ∀ x ∈ acc', x < ((i + count : Nat) : Int) := by
  intro count
  induction count with
  | zero =>
    intro i acc acc' h hnd hlt
    simp only [findNewHandleIndiciesLoop] at h
    cases h
    exact ⟨hnd, fun x hx => by simpa using hlt x hx⟩
  | succ count ih =>
    intro i acc acc' h hnd hlt
    simp only [findNewHandleIndiciesLoop, Option.bind_eq_bind] at h
    cases hc : checkSpacing dist (i : Int) points acc s.maxSpacing with
    | none => rw [hc] at h; simp at h
    | some acc1 =>
      rw [hc] at h
      simp only [Option.some_bind] at h
      have hcases := checkSpacing_cases dist i points acc acc1 s.maxSpacing hc
      have hnd1 : acc1.Nodup := by
        rcases hcases with rfl | rfl
        · exact hnd
        · rw [List.nodup_append]
          refine ⟨hnd, List.nodup_singleton _, ?_⟩
          intro x hx hx'
          simp only [List.mem_singleton] at hx'
          have := hlt x hx
          omega
      have hlt1 : ∀ x ∈ acc1, x < ((i + 1 : Nat) : Int) := by
        intro x hx
        rcases hcases with rfl | rfl
        · have := hlt x hx; omega
        · simp only [List.mem_append, List.mem_singleton] at hx
          rcases hx with hx | hx
          · have := hlt x hx; omega
          · omega
      obtain ⟨h1, h2⟩ := ih (i + 1) acc1 acc' h hnd1 hlt1
      refine ⟨h1, fun x hx => ?_⟩
      have := h2 x hx
      omega

/-- C26. For a contour of `n ≥ 1` handles and a pushed range
`0 ≤ first ≤ last < n`, `_findNewHandleIndicies` returns a list without
repetition, whose entries are exactly the indices `j` among `first .. last`,
the index after `last` and the index before `first` for which the handle at `j`
is farther than `maxSpacing` from its circular successor. -/
theorem findNewHandleIndicies_nodup (dist : Point K → Point K → K) (s : SculptData K)
    (points : List (Handle K)) (first last : Nat) (hfl : first ≤ last)
    (hl : last < points.length) :
    ∃ sites, findNewHandleIndicies dist s points first last = some sites ∧
      sites.Nodup ∧
      ∀ x, x ∈ sites ↔
        ∃ j : Nat, x = (j : Int) ∧ j < points.length ∧
          ((first ≤ j ∧ j ≤ last) ∨ (j : Int) = getNextHandleIndex last points.length ∨
            (j : Int) = getPreviousHandleIndex first points.length) ∧
          ∃ handle nextHandle, points[j]? = some handle ∧
            getAt points (getNextHandleIndex j points.length) = some nextHandle ∧
            dist handle.toPoint nextHandle.toPoint > s.maxSpacing := by
  obtain ⟨sites, hsites, hmem⟩ := findNewHandleIndicies_spec dist s points first last hfl hl
  refine ⟨sites, hsites, ?_, hmem⟩
  -- the sites of the first loop
  obtain ⟨acc0, hloop, hmem0⟩ :=
    findNewHandleIndiciesLoop_spec dist s points (last + 1 - first) first [] (by omega)
  obtain ⟨hnd0, -⟩ := findNewHandleIndiciesLoop_nodup dist s points (last + 1 - first) first []
    acc0 hloop List.nodup_nil (fun x hx => by simp at hx)
  have hrange : ∀ x ∈ acc0, (first : Int) ≤ x ∧ x ≤ (last : Int) := by
    intro x hx
    rcases (hmem0 x).1 hx with h | ⟨j, h1, h2, h3, -⟩
    · simp at h
    · omega
  unfold findNewHandleIndicies at hsites
  simp only [hloop, Option.bind_eq_bind, Option.some_bind] at hsites
  by_cases ha : getNextHandleIndex (last : Int) (points.length : Int) ≠ (first : Int)
  · rw [if_pos ha] at hsites
    cases hc1 : checkSpacing dist (getNextHandleIndex (last : Int) (points.length : Int)) points
        acc0 s.maxSpacing with
    | none => rw [hc1] at hsites; simp at hsites
    | some acc1 =>
      rw [hc1] at hsites
      simp only [Option.some_bind] at hsites
      have hcases1 := checkSpacing_cases dist _ points acc0 acc1 s.maxSpacing hc1
      have hanot : getNextHandleIndex (last : Int) (points.length : Int) ∉ acc0 := by
        intro hin
        have := hrange _ hin
        unfold getNextHandleIndex at this ha
        split_ifs at this ha <;> omega
      have hnd1 : acc1.Nodup := by
        rcases hcases1 with rfl | rfl
        · exact hnd0
        · rw [List.nodup_append]
          refine ⟨hnd0, List.nodup_singleton _, ?_⟩
          intro x hx hx'
          simp only [List.mem_singleton] at hx'
          subst hx'
          exact hanot hx
      by_cases hb : getPreviousHandleIndex (first : Int) (points.length : Int)
          ≠ getNextHandleIndex (last : Int) (points.length : Int)
      · rw [if_pos hb] at hsites
        have hcases2 := checkSpacing_cases dist _ points acc1 sites s.maxSpacing hsites
        rcases hcases2 with rfl | rfl
        · exact hnd1
        · rw [List.nodup_append]
          refine ⟨hnd1, List.nodup_singleton _, ?_⟩
          intro x hx hx'
          simp only [List.mem_singleton] at hx'
          subst hx'
          have hin0 : getPreviousHandleIndex (first : Int) (points.length : Int) ∈ acc0 := by
            rcases hcases1 with rfl | rfl
            · exact hx
            · simp only [List.mem_append, List.mem_singleton] at hx
              rcases hx with hx | hx
              · exact hx
              · exact absurd hx hb
          have := hrange _ hin0
          unfold getPreviousHandleIndex at this
          unfold getNextHandleIndex at ha
          split_ifs at this ha <;> omega
      · rw [if_neg hb] at hsites
        cases hsites
        exact hnd1
  · rw [if_neg ha] at hsites
    cases hsites
    exact hnd0

/-- Witness of `findNewHandleIndicies_nodup`: the kite around `(10, 10)` with the
pushed range `1 .. 1` and `maxSpacing = 3`; the sites are `[2, 0]`. -/
theorem findNewHandleIndicies_nodup_witness :
    findNewHandleIndicies (euclideanDistance Rat.sqrt)
        { image := ⟨20, 20⟩, mousePoint := ⟨10, 10⟩, toolSize := 3, minSpacing := 1,
          maxSpacing := 3 }
        [⟨0, 10, 6, [1]⟩, ⟨1, 13, 10, [2]⟩, ⟨2, 16, 10, [3]⟩, ⟨3, 10, 18, [4]⟩,
          ⟨4, 6, 10, [0]⟩] 1 1 = some [2, 0] ∧
    ∃ sites,
      findNewHandleIndicies (euclideanDistance Rat.sqrt)
        { image := ⟨20, 20⟩, mousePoint := ⟨10, 10⟩, toolSize := 3, minSpacing := 1,
          maxSpacing := 3 }
        [⟨0, 10, 6, [1]⟩, ⟨1, 13, 10, [2]⟩, ⟨2, 16, 10, [3]⟩, ⟨3, 10, 18, [4]⟩,
          ⟨4, 6, 10, [0]⟩] 1 1 = some sites ∧
      sites.Nodup ∧
      ∀ x, x ∈ sites ↔
        ∃ j : Nat, x = (j : Int) ∧
          j < ([⟨0, 10, 6, [1]⟩, ⟨1, 13, 10, [2]⟩, ⟨2, 16, 10, [3]⟩, ⟨3, 10, 18, [4]⟩,
            ⟨4, 6, 10, [0]⟩] : List (Handle ℚ)).length ∧
          ((1 ≤ j ∧ j ≤ 1) ∨
            (j : Int) = getNextHandleIndex (1 : Nat)
              ([⟨0, 10, 6, [1]⟩, ⟨1, 13, 10, [2]⟩, ⟨2, 16, 10, [3]⟩, ⟨3, 10, 18, [4]⟩,
                ⟨4, 6, 10, [0]⟩] : List (Handle ℚ)).length ∨
            (j : Int) = getPreviousHandleIndex (1 : Nat)
              ([⟨0, 10, 6, [1]⟩, ⟨1, 13, 10, [2]⟩, ⟨2, 16, 10, [3]⟩, ⟨3, 10, 18, [4]⟩,
                ⟨4, 6, 10, [0]⟩] : List (Handle ℚ)).length) ∧
          ∃ handle nextHandle,
            ([⟨0, 10, 6, [1]⟩, ⟨1, 13, 10, [2]⟩, ⟨2, 16, 10, [3]⟩, ⟨3, 10, 18, [4]⟩,
              ⟨4, 6, 10, [0]⟩] : List (Handle ℚ))[j]? = some handle ∧
            getAt ([⟨0, 10, 6, [1]⟩, ⟨1, 13, 10, [2]⟩, ⟨2, 16, 10, [3]⟩, ⟨3, 10, 18, [4]⟩,
                ⟨4, 6, 10, [0]⟩] : List (Handle ℚ))
              (getNextHandleIndex j
                ([⟨0, 10, 6, [1]⟩, ⟨1, 13, 10, [2]⟩, ⟨2, 16, 10, [3]⟩, ⟨3, 10, 18, [4]⟩,
                  ⟨4, 6, 10, [0]⟩] : List (Handle ℚ)).length) = some nextHandle ∧
            euclideanDistance Rat.sqrt handle.toPoint nextHandle.toPoint > 3 :=
  ⟨by decide!,
    findNewHandleIndicies_nodup (euclideanDistance Rat.sqrt)
      { image := ⟨20, 20⟩, mousePoint := ⟨10, 10⟩, toolSize := 3, minSpacing := 1,
        maxSpacing := 3 }
      [⟨0, 10, 6, [1]⟩, ⟨1, 13, 10, [2]⟩, ⟨2, 16, 10, [3]⟩, ⟨3, 10, 18, [4]⟩,
        ⟨4, 6, 10, [0]⟩] 1 1 (by decide) (by decide)⟩

end Sites

/-! ## The sculpting step as a whole -/

section Step
variable {K : Type} [LinearOrderedField K]

/-- C24. For a contour of at least one handle and the pairs found by
`_findCloseHandlePairs`, the recursion of `_mergeCloseHandles` returns within
as many passes as the contour has handles (and so within any larger budget):
one pass merges every recorded pair and removes one handle per pair, so a pass
that was handed at least one pair removes at least one handle. -/
theorem mergeCloseHandles_terminates (dist : Point K → Point K → K) (s : SculptData K)
    (points : List (Handle K)) (fuel : Nat) (h0 : 0 < points.length)
    (hfuel : points.length ≤ fuel) :
    ∃ closePairs, findCloseHandlePairs dist s points = some closePairs ∧
      (∃ merged, mergeCloseHandlesLoop s closePairs 0 points = some merged ∧
        merged.length + closePairs.length = points.length) ∧
      ∃ result, mergeCloseHandles dist s fuel points closePairs = some result ∧
        findCloseHandlePairs dist s result = some [] := by
  obtain ⟨ps, i, length, hfind, -, hinv⟩ := findCloseHandlePairs_inv dist s points
  have hready := mergeReady_of_inv dist s points i length ps hinv
  obtain ⟨merged, hloop, hlen⟩ :=
    mergeCloseHandlesLoop_spec s points.length ps 0 points (by simp) hready
  have h00 : ((0 : Nat) : Int) = 0 := rfl
  rw [h00] at hloop
  refine ⟨ps, hfind, ⟨merged, hloop, hlen⟩, ?_⟩
  cases ps with
  | nil =>
    obtain ⟨f, rfl⟩ : ∃ f, fuel = f + 1 := ⟨fuel - 1, by omega⟩
    refine ⟨points, ?_, hfind⟩
    simp only [mergeCloseHandles, mergeCloseHandlesLoop, Option.bind_eq_bind, Option.some_bind,
      hfind, List.length_nil, ne_eq, not_true_eq_false, if_false]
  | cons p rest =>
    obtain ⟨result, hrun, hnil, -⟩ := mergeCloseHandles_spec dist s fuel points (p :: rest)
      hready (by simp only [List.length_cons]; omega)
    exact ⟨result, hrun, hnil⟩

/-- Witness of `mergeCloseHandles_terminates`: a pentagon with two handles
`1 / 2` apart and `minSpacing = 1`, with a budget of 5 passes. -/
theorem mergeCloseHandles_terminates_witness :
    ∃ closePairs,
      findCloseHandlePairs (euclideanDistance Rat.sqrt)
        { image := ⟨20, 20⟩, mousePoint := ⟨0, 0⟩, toolSize := 1, minSpacing := 1,
          maxSpacing := 2 }
        [⟨0, 0, 0, [1]⟩, ⟨1, 5, 0, [2]⟩, ⟨2, 5, 1 / 2, [3]⟩, ⟨3, 5, 5, [4]⟩, ⟨4, 0, 5, [0]⟩]
        = some closePairs ∧
      (∃ merged,
        mergeCloseHandlesLoop
          ({ image := ⟨20, 20⟩, mousePoint := ⟨0, 0⟩, toolSize := 1, minSpacing := 1,
              maxSpacing := 2 } : SculptData ℚ)
          closePairs 0
          [⟨0, 0, 0, [1]⟩, ⟨1, 5, 0, [2]⟩, ⟨2, 5, 1 / 2, [3]⟩, ⟨3, 5, 5, [4]⟩, ⟨4, 0, 5, [0]⟩]
          = some merged ∧
        merged.length + closePairs.length
          = ([⟨0, 0, 0, [1]⟩, ⟨1, 5, 0, [2]⟩, ⟨2, 5, 1 / 2, [3]⟩, ⟨3, 5, 5, [4]⟩,
              ⟨4, 0, 5, [0]⟩] : List (Handle ℚ)).length) ∧
      ∃ result,
        mergeCloseHandles (euclideanDistance Rat.sqrt)
          { image := ⟨20, 20⟩, mousePoint := ⟨0, 0⟩, toolSize := 1, minSpacing := 1,
            maxSpacing := 2 }
          5
          [⟨0, 0, 0, [1]⟩, ⟨1, 5, 0, [2]⟩, ⟨2, 5, 1 / 2, [3]⟩, ⟨3, 5, 5, [4]⟩, ⟨4, 0, 5, [0]⟩]
          closePairs = some result ∧
        findCloseHandlePairs (euclideanDistance Rat.sqrt)
          { image := ⟨20, 20⟩, mousePoint := ⟨0, 0⟩, toolSize := 1, minSpacing := 1,
            maxSpacing := 2 }
          result = some [] :=
  mergeCloseHandles_terminates (euclideanDistance Rat.sqrt)
    { image := ⟨20, 20⟩, mousePoint := ⟨0, 0⟩, toolSize := 1, minSpacing := 1, maxSpacing := 2 }
    [⟨0, 0, 0, [1]⟩, ⟨1, 5, 0, [2]⟩, ⟨2, 5, 1 / 2, [3]⟩, ⟨3, 5, 5, [4]⟩, ⟨4, 0, 5, [0]⟩] 5
    (by decide) (by decide)

/-- `_consolidateHandles` returns: at once for a contour of at most 3 handles,
and otherwise with a contour in which no pair is close. -/
theorem consolidateHandles_total (dist : Point K → Point K → K) (s : SculptData K)
    (points : List (Handle K)) :
    ∃ points', consolidateHandles dist s points = some points' ∧
      ((points.length ≤ 3 ∧ points' = points) ∨
        (3 < points.length ∧ findCloseHandlePairs dist s points' = some [])) := by
  unfold consolidateHandles
  by_cases hle : points.length ≤ 3
  · rw [if_pos hle]
    exact ⟨points, rfl, Or.inl ⟨hle, rfl⟩⟩
  · rw [if_neg hle]
    obtain ⟨ps, i, length, hfind, -, hinv⟩ := findCloseHandlePairs_inv dist s points
    obtain ⟨pts', hrun, hnil, -⟩ := mergeCloseHandles_spec dist s (points.length + 1) points ps
      (mergeReady_of_inv dist s points i length ps hinv) (by omega)
    refine ⟨pts', ?_, Or.inr ⟨by omega, hnil⟩⟩
    simp only [hfind, Option.bind_eq_bind, Option.some_bind]
    exact hrun

/-- The stages of `_sculpt`: `_pushHandles` returns; when it pushed nothing the
step ends there, and otherwise `_insertNewHandles` and `_consolidateHandles`
run, and return. -/
theorem sculpt_stages (dist : Point K → Point K → K) (config : Configuration K)
    (toolSizeImage : K) (image : Image K) (mousePoint : Point K) (points : List (Handle K)) :
    ∃ pushed pushedHandles,
      pushHandles dist (sculptData config toolSizeImage image mousePoint) points
        = some (pushed, pushedHandles) ∧
      pushed.map Handle.toPoint
        = (points.map Handle.toPoint).map
          (pushReference dist (sculptData config toolSizeImage image mousePoint)) ∧
      ((pushedHandles.first = none ∧
          (∀ j, ¬ WithinToolSize dist (sculptData config toolSizeImage image mousePoint)
            points j) ∧
          sculpt dist config toolSizeImage image mousePoint points = some pushed) ∨
        ∃ first last sites inserted result,
          (∃ j, WithinToolSize dist (sculptData config toolSizeImage image mousePoint)
            points j) ∧
          first ≤ last ∧ last < pushed.length ∧
          findNewHandleIndicies dist (sculptData config toolSizeImage image mousePoint)
            pushed first last = some sites ∧
          insertNewHandlesLoop dist (sculptData config toolSizeImage image mousePoint)
            sites 0 pushed = some inserted ∧
          inserted.length = pushed.length + sites.length ∧
          pushed.length = points.length ∧
          (∀ h' ∈ inserted, (∃ h ∈ pushed, h'.toPoint = h.toPoint) ∨
            ∃ p q, h'.toPoint
              = insertPositionOf dist (sculptData config toolSizeImage image mousePoint) p q) ∧
          consolidateHandles dist (sculptData config toolSizeImage image mousePoint)
            inserted = some result ∧
          ((inserted.length ≤ 3 ∧ result = inserted) ∨
            (3 < inserted.length ∧
              findCloseHandlePairs dist (sculptData config toolSizeImage image mousePoint)
                result = some [])) ∧
          sculpt dist config toolSizeImage image mousePoint points = some result) := by
  generalize hs : sculptData config toolSizeImage image mousePoint = s
  obtain ⟨pushed, ph, hrun, hP, hid, hfirst, hlast, hfn, hln⟩ :=
    pushHandlesLoop_spec dist s points.length 0 points ⟨none, none⟩ (by simp)
  simp only [near_map_iff, Nat.zero_le, true_and, forall_true_left, false_or, true_implies,
    reduceCtorEq, List.take_zero, List.nil_append, List.drop_zero] at hfirst hlast hfn hln hP
  have hlen : pushed.length = points.length := by simpa using congrArg List.length hid
  refine ⟨pushed, ph, hrun, hP, ?_⟩
  have hsc : sculpt dist config toolSizeImage image mousePoint points
      = (match ph.first, ph.last with
        | some first, some last =>
          (insertNewHandles dist s pushed first last).bind (consolidateHandles dist s)
        | some _, none => none
        | none, _ => some pushed) := by
    unfold sculpt
    simp only [hs, Option.bind_eq_bind]
    have : pushHandles dist s points = some (pushed, ph) := hrun
    rw [this]
    rfl
  cases hf : ph.first with
  | none =>
    left
    refine ⟨rfl, hfn.1 hf, ?_⟩
    rw [hsc, hf]
  | some first =>
    right
    obtain ⟨hnear, hmin⟩ := (hfirst first).1 hf
    cases hl : ph.last with
    | none =>
      exact absurd hnear ((hln.1 hl) first)
    | some last =>
      have hl' := (hlast last).1 hl
      have hl1 : WithinToolSize dist s points last ∧
          ∀ j, last < j → ¬ WithinToolSize dist s points j := by
        rcases hl' with h | h
        · exact h
        · exact absurd h.1 (by simp)
      have hfl : first ≤ last := by
        by_contra hcon
        exact hl1.2 first (by omega) hnear
      have hll : last < pushed.length := by
        rw [hlen]
        exact withinToolSize_lt dist s points last hl1.1
      obtain ⟨sites, hsites, hmem⟩ :=
        findNewHandleIndicies_spec dist s pushed first last hfl hll
      obtain ⟨inserted, hloop, hilen, -, himem⟩ :=
        insertNewHandlesLoop_total dist s pushed.length sites 0 pushed (by simp)
          (fun x hx => by
            obtain ⟨j, h1, h2, -⟩ := (hmem x).1 hx
            exact ⟨j, h1, h2⟩)
      have h00 : ((0 : Nat) : Int) = 0 := rfl
      rw [h00] at hloop
      obtain ⟨result, hcons, hres⟩ := consolidateHandles_total dist s inserted
      refine ⟨first, last, sites, inserted, result, ⟨first, hnear⟩, hfl, hll, hsites, hloop,
        hilen, hlen, himem, hcons, hres, ?_⟩
      rw [hsc, hf, hl]
      simp only [insertNewHandles, hsites, Option.bind_eq_bind, Option.some_bind, hloop, hcons]

end Step

/-! ## The box of the image, and equal neighbours -/

section Box
variable {K : Type} [LinearOrderedField K]

theorem inBox_clipToBox (image : Image K) (hw : 0 ≤ image.width) (hh : 0 ≤ image.height)
    (m : Point K) : InBox image (clipToBox m image) := by
  unfold InBox clipToBox clip
  exact ⟨le_min (le_max_left _ _) hw, min_le_right _ _, le_min (le_max_left _ _) hh,
    min_le_right _ _⟩

theorem mem_of_mem_setAt {α : Type} (xs : List α) (i : Int) (a x : α)
    (h : x ∈ setAt xs i a) : x = a ∨ x ∈ xs := by
  unfold setAt at h
  split_ifs at h
  · exact Or.inr h
  · rcases List.mem_or_eq_of_mem_set h with h | h
    · exact Or.inr h
    · exact Or.inl h

theorem mem_of_mem_spliceRemove {α : Type} (xs : List α) (i : Int) (x : α)
    (h : x ∈ spliceRemove xs i) : x ∈ xs := by
  unfold spliceRemove at h
  rcases List.mem_append.1 h with h | h
  · exact List.mem_of_mem_take h
  · exact List.mem_of_mem_drop h

theorem mem_of_getAt {α : Type} (xs : List α) (i : Int) (a : α) (h : getAt xs i = some a) :
    a ∈ xs := by
  unfold getAt at h
  split_ifs at h
  exact mem_of_getElem?_eq_some _ _ _ h

/-- A property of coordinates that every clipped point has is kept by
`_combineHandles`. -/
theorem combineHandles_preserves (s : SculptData K) (Q : Point K → Prop)
    (hQ : ∀ m, Q (clipToBox m s.image)) (points points' : List (Handle K)) (pair : Int × Int)
    (h : combineHandles s points pair = some points')
    (hall : ∀ handle ∈ points, Q handle.toPoint) : ∀ handle ∈ points', Q handle.toPoint := by
  unfold combineHandles at h
  simp only [Option.bind_eq_bind] at h
  cases h0 : getAt points pair.1 with
  | none => rw [h0] at h; simp at h
  | some handle0 =>
    rw [h0] at h
    simp only [Option.some_bind] at h
    cases h1 : getAt points pair.2 with
    | none => rw [h1] at h; simp at h
    | some handle1 =>
      rw [h1] at h
      simp only [Option.some_bind] at h
      generalize hm0 : ({ handle0 with
        x := (clipToBox ⟨(handle0.x + handle1.x) / 2, (handle0.y + handle1.y) / 2⟩ s.image).x
        y := (clipToBox ⟨(handle0.x + handle1.x) / 2, (handle0.y + handle1.y) / 2⟩ s.image).y } :
          Handle K) = m0 at h
      have hQm0 : Q m0.toPoint := by
        subst hm0
        exact hQ _
      have hall1 : ∀ handle ∈ setAt points pair.1 m0, Q handle.toPoint := by
        intro handle hh
        rcases mem_of_mem_setAt _ _ _ _ hh with rfl | hh
        · exact hQm0
        · exact hall handle hh
      cases h2 : getAt (setAt points pair.1 m0) pair.1 with
      | none => rw [h2] at h; simp at h
      | some handle0' =>
        rw [h2] at h
        simp only [Option.some_bind] at h
        cases h3 : getAt (setAt points pair.1 m0)
            (getNextHandleIndex pair.2 (setAt points pair.1 m0).length) with
        | none => rw [h3] at h; simp at h
        | some after =>
          rw [h3] at h
          simp only [Option.some_bind, Option.some.injEq] at h
          subst h
          intro handle hh
          have hh1 := mem_of_mem_spliceRemove _ _ _ hh
          rcases mem_of_mem_setAt _ _ _ _ hh1 with rfl | hh2
          · exact hall1 handle0' (mem_of_getAt _ _ _ h2)
          · exact hall1 handle hh2

theorem mergeCloseHandlesLoop_preserves (s : SculptData K) (Q : Point K → Prop)
    (hQ : ∀ m, Q (clipToBox m s.image)) :
    ∀ (ps : List (Int × Int)) (m : Int) (points points' : List (Handle K)),
      mergeCloseHandlesLoop s ps m points = some points' →
      (∀ handle ∈ points, Q handle.toPoint) → ∀ handle ∈ points', Q handle.toPoint := by
  intro ps
  induction ps with
  | nil =>
    intro m points points' h hall
    simp only [mergeCloseHandlesLoop] at h
    cases h
    exact hall
  | cons p rest ih =>
    intro m points points' h hall
    simp only [mergeCloseHandlesLoop, Option.bind_eq_bind] at h
    cases hc : combineHandles s points (getCorrectedPair p m) with
    | none => rw [hc] at h; simp at h
    | some pts1 =>
      rw [hc] at h
      simp only [Option.some_bind] at h
      exact ih (m + 1) pts1 points' h
        (combineHandles_preserves s Q hQ points pts1 _ hc hall)

theorem mergeCloseHandles_preserves (dist : Point K → Point K → K) (s : SculptData K)
    (Q : Point K → Prop) (hQ : ∀ m, Q (clipToBox m s.image)) :
    ∀ (fuel : Nat) (points : List (Handle K)) (ps : List (Int × Int))
      (points' : List (Handle K)),
      mergeCloseHandles dist s fuel points ps = some points' →
      (∀ handle ∈ points, Q handle.toPoint) → ∀ handle ∈ points', Q handle.toPoint := by
  intro fuel
  induction fuel with
  | zero =>
    intro points ps points' h _
    simp [mergeCloseHandles] at h
  | succ fuel ih =>
    intro points ps points' h hall
    simp only [mergeCloseHandles, Option.bind_eq_bind] at h
    cases hl : mergeCloseHandlesLoop s ps 0 points with
    | none => rw [hl] at h; simp at h
    | some pts1 =>
      rw [hl] at h
      simp only [Option.some_bind] at h
      have hall1 := mergeCloseHandlesLoop_preserves s Q hQ ps 0 points pts1 hl hall
      cases hf : findCloseHandlePairs dist s pts1 with
      | none => rw [hf] at h; simp at h
      | some newPs =>
        rw [hf] at h
        simp only [Option.some_bind] at h
        split_ifs at h
        · exact ih pts1 newPs points' h hall1
        · cases h
          exact hall1

theorem consolidateHandles_preserves (dist : Point K → Point K → K) (s : SculptData K)
    (Q : Point K → Prop) (hQ : ∀ m, Q (clipToBox m s.image)) (points points' : List (Handle K))
    (h : consolidateHandles dist s points = some points')
    (hall : ∀ handle ∈ points, Q handle.toPoint) : ∀ handle ∈ points', Q handle.toPoint := by
  unfold consolidateHandles at h
  split_ifs at h
  · cases h
    exact hall
  · simp only [Option.bind_eq_bind] at h
    cases hf : findCloseHandlePairs dist s points with
    | none => rw [hf] at h; simp at h
    | some ps =>
      rw [hf] at h
      simp only [Option.some_bind] at h
      exact mergeCloseHandles_preserves dist s Q hQ _ points ps points' h hall

/-- A `_sculpt` step returns, and it keeps a property of coordinates that every
clipped point has. -/
theorem sculpt_preserves (dist : Point K → Point K → K) (config : Configuration K)
    (toolSizeImage : K) (image : Image K) (mousePoint : Point K) (points : List (Handle K))
    (Q : Point K → Prop) (hQ : ∀ m, Q (clipToBox m image)) :
    ∃ result, sculpt dist config toolSizeImage image mousePoint points = some result ∧
      ((∀ handle ∈ points, Q handle.toPoint) → ∀ handle ∈ result, Q handle.toPoint) := by
  obtain ⟨pushed, ph, -, hP, hcase⟩ :=
    sculpt_stages dist config toolSizeImage image mousePoint points
  have hpushed : (∀ handle ∈ points, Q handle.toPoint) → ∀ handle ∈ pushed, Q handle.toPoint := by
    intro hall handle hh
    have hmem : handle.toPoint ∈ pushed.map Handle.toPoint := List.mem_map_of_mem _ hh
    rw [hP] at hmem
    simp only [List.mem_map] at hmem
    obtain ⟨p, ⟨h0, hh0, rfl⟩, hp⟩ := hmem
    rw [← hp]
    unfold pushReference
    split_ifs
    · exact hall h0 hh0
    · exact hQ _
  rcases hcase with ⟨-, -, hsc⟩ | ⟨first, last, sites, inserted, result, -, -, -, -, -, -, -,
    himem, hcons, -, hsc⟩
  · exact ⟨pushed, hsc, hpushed⟩
  · refine ⟨result, hsc, fun hall => ?_⟩
    apply consolidateHandles_preserves dist _ Q hQ inserted result hcons
    intro handle hh
    rcases himem handle hh with ⟨h, hh', heq⟩ | ⟨p, q, heq⟩
    · rw [heq]
      exact hpushed hall h hh'
    · rw [heq]
      exact hQ _

/-- The box of the image in exact arithmetic (an ordered field, in which a
division never yields `NaN`).  In an image of width and height `≥ 0`, with `s`
the record built by `_sculpt`: the position that `_pushOneHandle` writes to a
handle, the position that `_getInsertPosition` returns and the position that
`_combineHandles` writes to the merged handle all lie in `0 .. width` by
`0 .. height`; and a `_sculpt` step returns, with every handle in this box if
every handle was in it before the step. -/
theorem sculpt_inBox (dist : Point K → Point K → K) (config : Configuration K)
    (toolSizeImage : K) (image : Image K) (mousePoint : Point K) (points : List (Handle K))
    (hw : 0 ≤ image.width) (hh : 0 ≤ image.height) :
    (∀ (i : Nat) (d : K) (handle : Handle K), points[i]? = some handle →
      ∃ points' handle',
        pushOneHandle (sculptData config toolSizeImage image mousePoint) points i d
          = some points' ∧
        points'[i]? = some handle' ∧ InBox image handle'.toPoint) ∧
    (∀ (insertIndex previousIndex nextIndex : Int) (previousHandle nextHandle : Handle K),
      getAt points previousIndex = some previousHandle →
      getAt points nextIndex = some nextHandle →
      ∃ position,
        getInsertPosition dist (sculptData config toolSizeImage image mousePoint) points
          insertIndex previousIndex nextIndex = some position ∧
        InBox image position) ∧
    (∀ (a b : Nat) (handle0 handle1 : Handle K), points[a]? = some handle0 →
      points[b]? = some handle1 →
      ∃ merged : Handle K,
        combineHandles (sculptData config toolSizeImage image mousePoint) points
          ((a : Int), (b : Int)) = some ((points.set a merged).eraseIdx b) ∧
        InBox image merged.toPoint) ∧
    (∃ result, sculpt dist config toolSizeImage image mousePoint points = some result ∧
      ((∀ handle ∈ points, InBox image handle.toPoint) →
        ∀ handle ∈ result, InBox image handle.toPoint)) := by
  refine ⟨?_, ?_, ?_, ?_⟩
  · intro i d handle hi
    obtain ⟨pts', hrun, hP, -⟩ :=
      pushOneHandle_spec (sculptData config toolSizeImage image mousePoint) points i d handle hi
    have hlt : i < points.length := (List.getElem?_eq_some_iff.1 hi).1
    have hget : (pts'.map Handle.toPoint)[i]?
        = some (pushedPosition (sculptData config toolSizeImage image mousePoint)
            handle.toPoint d) := by
      rw [hP, List.getElem?_set_self (by simpa using hlt)]
    rw [List.getElem?_map] at hget
    cases hh' : pts'[i]? with
    | none => rw [hh'] at hget; simp at hget
    | some handle' =>
      rw [hh'] at hget
      simp only [Option.map_some', Option.some.injEq] at hget
      refine ⟨pts', handle', hrun, hh', ?_⟩
      rw [hget]
      exact inBox_clipToBox image hw hh _
  · intro insertIndex previousIndex nextIndex previousHandle nextHandle hp hq
    refine ⟨_, getInsertPosition_eq dist _ points insertIndex previousIndex nextIndex
      previousHandle nextHandle hp hq, ?_⟩
    exact inBox_clipToBox image hw hh _
  · intro a b handle0 handle1 ha hb
    obtain ⟨merged, hrun, hpt, -⟩ :=
      combineHandles_spec (sculptData config toolSizeImage image mousePoint) points a b
        handle0 handle1 ha hb
    refine ⟨merged, hrun, ?_⟩
    rw [hpt]
    exact inBox_clipToBox image hw hh _
  · exact sculpt_preserves dist config toolSizeImage image mousePoint points (InBox image)
      (inBox_clipToBox image hw hh)

/-- An instance of `sculpt_inBox`: the kite around the cursor `(10, 10)` in a
20 by 20 image, with a brush of radius `3`. -/
theorem sculpt_inBox_witness :
    ∃ result,
      sculpt (euclideanDistance Rat.sqrt)
        { minSpacing := 1, maxSpacing := none, showCursorOnHover := true,
          limitRadiusOutsideRegion := true, hoverCursorFadeAlpha := 1 / 2,
          hoverCursorFadeDistance := 6 / 5 }
        3 ⟨20, 20⟩ ⟨10, 10⟩
        [⟨0, 10, 6, [1]⟩, ⟨1, 13, 10, [2]⟩, ⟨2, 16, 10, [3]⟩, ⟨3, 10, 18, [4]⟩,
          ⟨4, 6, 10, [0]⟩] = some result ∧
      ((∀ handle ∈ ([⟨0, 10, 6, [1]⟩, ⟨1, 13, 10, [2]⟩, ⟨2, 16, 10, [3]⟩, ⟨3, 10, 18, [4]⟩,
          ⟨4, 6, 10, [0]⟩] : List (Handle ℚ)), InBox ⟨20, 20⟩ handle.toPoint) →
        ∀ handle ∈ result, InBox ⟨20, 20⟩ handle.toPoint) :=
  (sculpt_inBox (euclideanDistance Rat.sqrt)
    { minSpacing := 1, maxSpacing := none, showCursorOnHover := true,
      limitRadiusOutsideRegion := true, hoverCursorFadeAlpha := 1 / 2,
      hoverCursorFadeDistance := 6 / 5 }
    3 ⟨20, 20⟩ ⟨10, 10⟩
    [⟨0, 10, 6, [1]⟩, ⟨1, 13, 10, [2]⟩, ⟨2, 16, 10, [3]⟩, ⟨3, 10, 18, [4]⟩, ⟨4, 6, 10, [0]⟩]
    (by norm_num) (by norm_num)).2.2.2

/-- C16 (amended). For the Euclidean distance, a contour of at least 3 handles
of which at least one is within `toolSize` of `mousePoint`, and
`minSpacing > 0`: a `_sculpt` step returns, and afterwards either the contour
has exactly 3 handles or no handle has the coordinates of its circular
successor. -/
theorem sculpt_no_equal_neighbours (dist : Point K → Point K → K) (hE : IsEuclidean dist)
    (config : Configuration K) (toolSizeImage : K) (image : Image K) (mousePoint : Point K)
    (points : List (Handle K)) (hmin : 0 < config.minSpacing) (h3 : 3 ≤ points.length)
    (hnear : ∃ handle ∈ points, dist handle.toPoint mousePoint ≤ toolSizeImage) :
    ∃ result, sculpt dist config toolSizeImage image mousePoint points = some result ∧
      (result.length = 3 ∨
        ∀ (i : Nat) (handle nextHandle : Handle K), result[i]? = some handle →
          getAt result (getNextHandleIndex i result.length) = some nextHandle →
          handle.toPoint ≠ nextHandle.toPoint) := by
  obtain ⟨pushed, ph, -, -, hcase⟩ :=
    sculpt_stages dist config toolSizeImage image mousePoint points
  rcases hcase with ⟨-, hfar, -⟩ | ⟨first, last, sites, inserted, result, -, -, -, -, -, hilen,
    hplen, -, -, hres, hsc⟩
  · exfalso
    obtain ⟨handle, hmem, hd⟩ := hnear
    obtain ⟨j, hj, hget⟩ := List.mem_iff_getElem.1 hmem
    exact hfar j ⟨handle, by rw [List.getElem?_eq_getElem hj, hget], hd⟩
  · refine ⟨result, hsc, ?_⟩
    rcases hres with ⟨hle, rfl⟩ | ⟨-, hnil⟩
    · left
      omega
    · right
      intro i handle nextHandle hi hnext heq
      have hil : i < result.length := (List.getElem?_eq_some_iff.1 hi).1
      apply not_close_of_findCloseHandlePairs_nil dist _ result hnil i hil
      refine ⟨handle, nextHandle, hi, hnext, ?_⟩
      have hzero : dist handle.toPoint nextHandle.toPoint = 0 := by
        apply hE.eq_of_sq (le_refl 0)
        rw [heq]
        ring
      rw [hzero]
      exact hmin

/-- Witness of `sculpt_no_equal_neighbours`: a square with a corner at distance
`1` from the cursor `(1, 0)`, a brush of radius `2` and `minSpacing = 1`, over the
reals. -/
theorem sculpt_no_equal_neighbours_witness :
    ∃ result,
      sculpt (euclideanDistance Real.sqrt)
        { minSpacing := 1, maxSpacing := none, showCursorOnHover := true,
          limitRadiusOutsideRegion := true, hoverCursorFadeAlpha := 1 / 2,
          hoverCursorFadeDistance := 6 / 5 }
        2 ⟨20, 20⟩ ⟨1, 0⟩
        [⟨0, 0, 0, [1]⟩, ⟨1, 10, 0, [2]⟩, ⟨2, 10, 10, [3]⟩, ⟨3, 0, 10, [0]⟩] = some result ∧
      (result.length = 3 ∨
        ∀ (i : Nat) (handle nextHandle : Handle ℝ), result[i]? = some handle →
          getAt result (getNextHandleIndex i result.length) = some nextHandle →
          handle.toPoint ≠ nextHandle.toPoint) :=
  sculpt_no_equal_neighbours (euclideanDistance Real.sqrt) isEuclidean_sqrt
    { minSpacing := 1, maxSpacing := none, showCursorOnHover := true,
      limitRadiusOutsideRegion := true, hoverCursorFadeAlpha := 1 / 2,
      hoverCursorFadeDistance := 6 / 5 }
    2 ⟨20, 20⟩ ⟨1, 0⟩
    [⟨0, 0, 0, [1]⟩, ⟨1, 10, 0, [2]⟩, ⟨2, 10, 10, [3]⟩, ⟨3, 0, 10, [0]⟩]
    (by norm_num) (by simp)
    ⟨⟨0, 0, 0, [1]⟩, by simp, by
      have hd : euclideanDistance Real.sqrt (⟨0, 0⟩ : Point ℝ) ⟨1, 0⟩ = 1 :=
        isEuclidean_sqrt.eq_of_sq (by norm_num) (by norm_num)
      simp only [Handle.toPoint, hd]
      norm_num⟩

/-- The handles of the counterexample of C16 are all farther than `1` from the
cursor `(0, 0)`. -/
theorem far_of_doubled_handle :
    ∀ handle ∈ ([⟨0, 3, 4, [1]⟩, ⟨1, 3, 4, [2]⟩, ⟨2, 6, 8, [3]⟩, ⟨3, 0, 5, [0]⟩] :
        List (Handle ℚ)),
      euclideanDistance Rat.sqrt handle.toPoint ⟨0, 0⟩ > 1 := by
  decide!

/-- C16 (counterexample). A contour of 4 handles whose first two handles both
lie at `(3, 4)`, with the cursor at `(0, 0)`, a brush of radius `1` and
`minSpacing = 1`: every handle is farther than `1` from the cursor, so nothing
is pushed and `_sculpt` neither inserts nor merges.  After the step the contour
still has 4 handles, and the first two still have equal coordinates. -/
theorem sculpt_equal_neighbours_counterexample :
    sculpt (euclideanDistance Rat.sqrt)
        { minSpacing := 1, maxSpacing := none, showCursorOnHover := true,
          limitRadiusOutsideRegion := true, hoverCursorFadeAlpha := 1 / 2,
          hoverCursorFadeDistance := 6 / 5 }
        1 ⟨20, 20⟩ ⟨0, 0⟩
        [⟨0, 3, 4, [1]⟩, ⟨1, 3, 4, [2]⟩, ⟨2, 6, 8, [3]⟩, ⟨3, 0, 5, [0]⟩]
      = some [⟨0, 3, 4, [1]⟩, ⟨1, 3, 4, [2]⟩, ⟨2, 6, 8, [3]⟩, ⟨3, 0, 5, [0]⟩] ∧
    ([⟨0, 3, 4, [1]⟩, ⟨1, 3, 4, [2]⟩, ⟨2, 6, 8, [3]⟩, ⟨3, 0, 5, [0]⟩] :
      List (Handle ℚ)).length = 4 ∧
    Handle.toPoint (⟨0, 3, 4, [1]⟩ : Handle ℚ) = Handle.toPoint ⟨1, 3, 4, [2]⟩ := by
  have hloop := pushHandlesLoop_of_far (euclideanDistance Rat.sqrt)
    (sculptData
      { minSpacing := 1, maxSpacing := none, showCursorOnHover := true,
        limitRadiusOutsideRegion := true, hoverCursorFadeAlpha := 1 / 2,
        hoverCursorFadeDistance := 6 / 5 }
      1 ⟨20, 20⟩ ⟨0, 0⟩)
    [⟨0, 3, 4, [1]⟩, ⟨1, 3, 4, [2]⟩, ⟨2, 6, 8, [3]⟩, ⟨3, 0, 5, [0]⟩]
    far_of_doubled_handle 4 0 ⟨none, none⟩ rfl
  refine ⟨?_, rfl, rfl⟩
  simp only [sculpt, pushHandles, List.length_cons, List.length_nil]
  rw [hloop]
  rfl

end Box

/-! ## Adjacency stays in sync with the order of the handles -/

section Sync
variable {K : Type} [LinearOrderedField K]

theorem popPush_singleton (a b : Nat) : popPush [a] b = [b] := rfl

/-- `InSync` only depends on the identities and on the `lines` of the handles. -/
theorem inSync_congr (points points' : List (Handle K))
    (hid : points'.map (fun h => h.id) = points.map (fun h => h.id))
    (hlines : points'.map (fun h => h.lines) = points.map (fun h => h.lines))
    (h : InSync points) : InSync points' := by
  have hlen : points'.length = points.length := by simpa using congrArg List.length hid
  intro i handle' hi
  have hil : i < points'.length := (List.getElem?_eq_some_iff.1 hi).1
  obtain ⟨handle, hh⟩ := exists_getElem?_of_lt points i (by omega)
  obtain ⟨nextHandle, hn, hl⟩ := h i handle hh
  unfold nextOf at hn ⊢
  rw [hlen]
  have hcl : (if i + 1 = points.length then 0 else i + 1) < points'.length := by
    split_ifs <;> omega
  obtain ⟨nextHandle', hn'⟩ := exists_getElem?_of_lt points' _ hcl
  refine ⟨nextHandle', hn', ?_⟩
  have h1 := congrArg (fun l => l[i]?) hlines
  simp only [List.getElem?_map, hi, hh, Option.map_some', Option.some.injEq] at h1
  have h2 := congrArg (fun l => l[if i + 1 = points.length then 0 else i + 1]?) hid
  simp only [List.getElem?_map, hn, hn', Option.map_some', Option.some.injEq] at h2
  rw [h1, hl, h2]

/-- `_pushOneHandle` keeps the identities and, for a contour in sync, the
`lines` of all handles. -/
theorem pushOneHandle_lines (s : SculptData K) (points : List (Handle K)) (i : Nat)
    (d : K) (handle : Handle K) (hi : points[i]? = some handle) (hS : InSync points) :
    ∃ points', pushOneHandle s points i d = some points' ∧
      points'.map (fun h => h.id) = points.map (fun h => h.id) ∧
      points'.map (fun h => h.lines) = points.map (fun h => h.lines) := by
  have hlt : i < points.length := (List.getElem?_eq_some_iff.1 hi).1
  simp only [pushOneHandle, getAt_natCast, hi, Option.bind_eq_bind, Option.some_bind,
    setAt_natCast, List.length_set]
  rw [getPreviousHandleIndex_natCast i points.length hlt, getAt_natCast]
  simp only [setAt_natCast]
  generalize hp : (if i = 0 then points.length - 1 else i - 1) = p
  have hpl : p < points.length := by subst hp; split_ifs <;> omega
  have hnextp : (if p + 1 = points.length then 0 else p + 1) = i := by
    subst hp; split_ifs <;> omega
  generalize hh : ({ id := handle.id, x := _, y := _, lines := handle.lines } : Handle K) = h'
  have hid : h'.id = handle.id := by subst hh; rfl
  have hli : h'.lines = handle.lines := by subst hh; rfl
  obtain ⟨lh, hlh⟩ : ∃ lh, (points.set i h')[p]? = some lh :=
    exists_getElem?_of_lt _ p (by simpa using hpl)
  rw [hlh]
  -- the handle before `i` points at the handle at `i`
  obtain ⟨ph, hph⟩ := exists_getElem?_of_lt points p hpl
  obtain ⟨nx, hnx, hphl⟩ := hS p ph hph
  unfold nextOf at hnx
  rw [hnextp, hi] at hnx
  cases hnx
  have hlhl : lh.lines = [handle.id] ∧ lh.id = ph.id := by
    by_cases hip : i = p
    · subst hip
      rw [List.getElem?_set_self (by omega)] at hlh
      cases hlh
      rw [hi] at hph
      cases hph
      exact ⟨by rw [hli, hphl], hid⟩
    · rw [List.getElem?_set_ne hip, hph] at hlh
      cases hlh
      exact ⟨hphl, rfl⟩
  refine ⟨_, rfl, ?_, ?_⟩
  · apply List.ext_getElem?
    intro j
    simp only [List.getElem?_map, List.getElem?_set, List.length_set]
    by_cases hpj : p = j
    · subst hpj
      simp [hpl, hph, hlhl.2]
    · simp only [hpj, if_false]
      by_cases hij : i = j
      · subst hij; simp [hlt, hid, hi]
      · simp [hij]
  · apply List.ext_getElem?
    intro j
    simp only [List.getElem?_map, List.getElem?_set, List.length_set]
    by_cases hpj : p = j
    · subst hpj
      simp [hpl, hph, hlhl.1, hid, hphl, popPush_singleton]
    · simp only [hpj, if_false]
      by_cases hij : i = j
      · subst hij; simp [hlt, hli, hi]
      · simp [hij]

theorem getElem?_insert_two {α : Type} (points : List α) (k : Nat) (x y : α)
    (hk : k < points.length) (j : Nat) :
    (points.take k ++ x :: y :: points.drop (k + 1))[j]?
      = if j < k then points[j]? else if j = k then some x
        else if j = k + 1 then some y else points[j - 1]? := by
  have hlen : (points.take k).length = k := by
    rw [List.length_take]; omega
  by_cases h1 : j < k
  · rw [if_pos h1, List.getElem?_append_left (by omega), List.getElem?_take_of_lt h1]
  · rw [if_neg h1, List.getElem?_append_right (by omega), hlen]
    by_cases h2 : j = k
    · subst h2
      simp
    · rw [if_neg h2]
      by_cases h3 : j = k + 1
      · subst h3
        simp
      · rw [if_neg h3]
        obtain ⟨d, hd⟩ : ∃ d, j - k = d + 2 := ⟨j - k - 2, by omega⟩
        rw [hd, List.getElem?_cons_succ, List.getElem?_cons_succ, List.getElem?_drop]
        congr 1
        omega

/-- `_insertHandleRadially` keeps a contour in sync. -/
theorem insertHandleRadially_inSync (dist : Point K → Point K → K) (s : SculptData K)
    (points : List (Handle K)) (k : Nat) (p : Handle K) (hp : points[k]? = some p)
    (hS : InSync points) :
    ∃ points', insertHandleRadially dist s points ((k : Int) + 1) = some points' ∧
      InSync points' := by
  have hk : k < points.length := (List.getElem?_eq_some_iff.1 hp).1
  obtain ⟨q, hq, hpl⟩ := hS k p hp
  unfold nextOf at hq
  refine ⟨_, insertHandleRadially_handles dist s points k p q hp hq, ?_⟩
  rw [hpl, popPush_singleton]
  generalize hp' : ({ p with lines := [freshId points] } : Handle K) = p'
  generalize hN : ({ id := freshId points
                     x := (insertPositionOf dist s p.toPoint q.toPoint).x
                     y := (insertPositionOf dist s p.toPoint q.toPoint).y
                     lines := [q.id] } : Handle K) = N
  have hp'id : p'.id = p.id := by subst hp'; rfl
  have hp'l : p'.lines = [N.id] := by subst hp'; subst hN; rfl
  have hNl : N.lines = [q.id] := by subst hN; rfl
  have hacc := getElem?_insert_two points k p' N hk
  have hlen : (points.take k ++ p' :: N :: points.drop (k + 1)).length
      = points.length + 1 := by
    simp only [List.length_append, List.length_take, List.length_cons, List.length_drop]
    omega
  -- the identity of the handle at index 0 of the new contour
  have hzero : ∀ h0, points[0]? = some h0 →
      ∃ r0, (points.take k ++ p' :: N :: points.drop (k + 1))[0]? = some r0 ∧
        r0.id = h0.id := by
    intro h0 hh0
    rw [hacc]
    by_cases hk0 : 0 < k
    · rw [if_pos hk0]
      exact ⟨h0, hh0, rfl⟩
    · have : k = 0 := by omega
      subst this
      rw [hp] at hh0
      cases hh0
      exact ⟨p', by simp, hp'id⟩
  intro j handle hj
  unfold nextOf
  rw [hlen]
  rw [hacc] at hj
  by_cases h1 : j < k
  · rw [if_pos h1] at hj
    obtain ⟨nx, hnx, hl⟩ := hS j handle hj
    unfold nextOf at hnx
    rw [if_neg (by omega)] at hnx
    rw [if_neg (by omega), hacc]
    by_cases h2 : j + 1 < k
    · rw [if_pos h2]
      exact ⟨nx, hnx, hl⟩
    · have h3 : j + 1 = k := by omega
      rw [if_neg h2, if_pos h3]
      rw [h3, hp] at hnx
      cases hnx
      exact ⟨p', rfl, by rw [hl, hp'id]⟩
  · rw [if_neg h1] at hj
    by_cases h2 : j = k
    · subst h2
      rw [if_pos rfl] at hj
      cases hj
      rw [if_neg (by omega), hacc, if_neg (by omega), if_neg (by omega), if_pos rfl]
      exact ⟨N, rfl, hp'l⟩
    · rw [if_neg h2] at hj
      by_cases h3 : j = k + 1
      · subst h3
        rw [if_pos rfl] at hj
        cases hj
        by_cases hkn : k + 1 = points.length
        · rw [if_pos hkn] at hq
          rw [if_pos (by omega)]
          obtain ⟨r0, hr0, hr0id⟩ := hzero q hq
          exact ⟨r0, hr0, by rw [hNl, hr0id]⟩
        · rw [if_neg hkn] at hq
          rw [if_neg (by omega), hacc, if_neg (by omega), if_neg (by omega),
            if_neg (by omega)]
          exact ⟨q, by simpa using hq, hNl⟩
      · rw [if_neg h3] at hj
        have hj1 : j - 1 < points.length := (List.getElem?_eq_some_iff.1 hj).1
        obtain ⟨nx, hnx, hl⟩ := hS (j - 1) handle hj
        unfold nextOf at hnx
        by_cases hjn : j = points.length
        · rw [if_pos (by omega)] at hnx
          rw [if_pos (by omega)]
          obtain ⟨r0, hr0, hr0id⟩ := hzero nx hnx
          exact ⟨r0, hr0, by rw [hl, hr0id]⟩
        · rw [if_neg (by omega)] at hnx
          rw [if_neg (by omega), hacc, if_neg (by omega), if_neg (by omega),
            if_neg (by omega)]
          have : j - 1 + 1 = j + 1 - 1 := by omega
          rw [this] at hnx
          exact ⟨nx, hnx, hl⟩

/-- The effect of `_combineHandles` on the handles: the handle at `a` moves to
the clipped midpoint and has its outgoing segment redirected to the handle after
`b`, and the handle at `b` is removed. -/
theorem combineHandles_handles (s : SculptData K) (points : List (Handle K)) (a b : Nat)
    (handle0 handle1 : Handle K) (ha : points[a]? = some handle0)
    (hb : points[b]? = some handle1) :
    ∃ after, points[if b + 1 = points.length then 0 else b + 1]? = some after ∧
      combineHandles s points ((a : Int), (b : Int))
        = some ((points.set a
            { id := handle0.id
              x := (clipToBox ⟨(handle0.x + handle1.x) / 2, (handle0.y + handle1.y) / 2⟩
                s.image).x
              y := (clipToBox ⟨(handle0.x + handle1.x) / 2, (handle0.y + handle1.y) / 2⟩
                s.image).y
              lines := popPush handle0.lines after.id }).eraseIdx b) := by
  have hal : a < points.length := (List.getElem?_eq_some_iff.1 ha).1
  have hbl : b < points.length := (List.getElem?_eq_some_iff.1 hb).1
  simp only [combineHandles, getAt_natCast, ha, hb, Option.bind_eq_bind, Option.some_bind,
    setAt_natCast, List.length_set, getNextHandleIndex_natCast]
  generalize hh : ({ id := handle0.id, x := _, y := _, lines := handle0.lines } : Handle K) = h'
  have hget : (points.set a h')[a]? = some h' := by simp [hal]
  rw [hget]
  simp only [Option.some_bind]
  generalize hc : (if b + 1 = points.length then 0 else b + 1) = c
  have hcl : c < points.length := by subst hc; split_ifs <;> omega
  obtain ⟨after, hafter⟩ := exists_getElem?_of_lt points c hcl
  have hafter' : ∃ after', (points.set a h')[c]? = some after' ∧ after'.id = after.id := by
    by_cases hac : a = c
    · subst hac
      rw [ha] at hafter
      cases hafter
      exact ⟨h', hget, by subst hh; rfl⟩
    · exact ⟨after, by rw [List.getElem?_set_ne hac, hafter], rfl⟩
  obtain ⟨after', hafter', hid⟩ := hafter'
  refine ⟨after, hafter, ?_⟩
  rw [hafter']
  simp only [Option.some_bind, List.set_set]
  rw [spliceRemove_natCast _ _ (by simp; omega), hid]
  subst hh
  rfl

/-- `_combineHandles` keeps a contour in sync when it merges a handle with its
circular successor. -/
theorem combineHandles_inSync (s : SculptData K) (points : List (Handle K)) (k : Nat)
    (hk : k < points.length) (hS : InSync points) :
    ∃ points',
      combineHandles s points ((k : Int), getNextHandleIndex k points.length) = some points' ∧
      InSync points' := by
  obtain ⟨handle0, h0⟩ := exists_getElem?_of_lt points k hk
  rw [getNextHandleIndex_natCast]
  generalize hbdef : (if k + 1 = points.length then 0 else k + 1) = b
  have hbl : b < points.length := by subst hbdef; split_ifs <;> omega
  obtain ⟨handle1, h1⟩ := exists_getElem?_of_lt points b hbl
  obtain ⟨after, hafter, hrun⟩ := combineHandles_handles s points k b handle0 handle1 h0 h1
  refine ⟨_, hrun, ?_⟩
  obtain ⟨nx0, -, hl0⟩ := hS k handle0 h0
  rw [hl0, popPush_singleton]
  generalize hm : ({ id := handle0.id
                     x := (clipToBox ⟨(handle0.x + handle1.x) / 2,
                       (handle0.y + handle1.y) / 2⟩ s.image).x
                     y := (clipToBox ⟨(handle0.x + handle1.x) / 2,
                       (handle0.y + handle1.y) / 2⟩ s.image).y
                     lines := [after.id] } : Handle K) = m
  have hmid : m.id = handle0.id := by subst hm; rfl
  have hml : m.lines = [after.id] := by subst hm; rfl
  have hlen : ((points.set k m).eraseIdx b).length = points.length - 1 := by
    rw [List.length_eraseIdx_of_lt (by simpa using hbl), List.length_set]
  have hacc : ∀ j, ((points.set k m).eraseIdx b)[j]?
      = if j < b then (if j = k then some m else points[j]?)
        else (if j + 1 = k then some m else points[j + 1]?) := by
    intro j
    rw [List.getElem?_eraseIdx]
    by_cases hjb : j < b
    · rw [if_pos hjb, if_pos hjb]
      by_cases hjk : j = k
      · subst hjk
        rw [if_pos rfl, List.getElem?_set_self hk]
      · rw [if_neg hjk, List.getElem?_set_ne (fun h => hjk h.symm)]
    · rw [if_neg hjb, if_neg hjb]
      by_cases hjk : j + 1 = k
      · rw [if_pos hjk, ← hjk, List.getElem?_set_self (by omega)]
      · rw [if_neg hjk, List.getElem?_set_ne (fun h => hjk h.symm)]
  -- every handle of the old contour keeps its identity in the new one
  have hkeep : ∀ (t : Nat) (h : Handle K), points[t]? = some h → t ≠ b →
      ∃ r, ((points.set k m).eraseIdx b)[if t < b then t else t - 1]? = some r ∧
        r.id = h.id := by
    intro t h ht htb
    rw [hacc]
    by_cases htlt : t < b
    · rw [if_pos htlt, if_pos htlt]
      by_cases htk : t = k
      · subst htk
        rw [if_pos rfl]
        rw [h0] at ht
        cases ht
        exact ⟨m, rfl, hmid⟩
      · rw [if_neg htk]
        exact ⟨h, ht, rfl⟩
    · rw [if_neg htlt, if_neg (by omega)]
      have ht1 : t - 1 + 1 = t := by omega
      rw [ht1]
      by_cases htk : t = k
      · subst htk
        rw [if_pos rfl]
        rw [h0] at ht
        cases ht
        exact ⟨m, rfl, hmid⟩
      · rw [if_neg htk]
        exact ⟨h, ht, rfl⟩
  intro j handle hj
  have hjl : j < points.length - 1 := by
    have := (List.getElem?_eq_some_iff.1 hj).1
    rw [hlen] at this
    exact this
  unfold nextOf
  rw [hlen]
  rw [hacc] at hj
  -- the index in the old contour of the handle now at `j`, and its successor there
  have hold : ∃ (t : Nat) (h : Handle K), points[t]? = some h ∧ t ≠ b ∧
      (if t < b then t else t - 1) = j ∧ handle.id = h.id ∧
      ((t ≠ k ∧ handle.lines = h.lines) ∨ (t = k ∧ handle.lines = [after.id])) := by
    by_cases hjb : j < b
    · rw [if_pos hjb] at hj
      by_cases hjk : j = k
      · rw [if_pos hjk] at hj
        cases hj
        exact ⟨k, handle0, h0, by omega, by rw [if_pos (by omega)]; omega, hmid,
          Or.inr ⟨rfl, hml⟩⟩
      · rw [if_neg hjk] at hj
        exact ⟨j, handle, hj, by omega, by rw [if_pos hjb], rfl, Or.inl ⟨hjk, rfl⟩⟩
    · rw [if_neg hjb] at hj
      by_cases hjk : j + 1 = k
      · rw [if_pos hjk] at hj
        cases hj
        exact ⟨k, handle0, h0, by omega, by rw [if_neg (by omega)]; omega, hmid,
          Or.inr ⟨rfl, hml⟩⟩
      · rw [if_neg hjk] at hj
        exact ⟨j + 1, handle, hj, by omega, by rw [if_neg (by omega)]; omega, rfl,
          Or.inl ⟨by omega, rfl⟩⟩
  obtain ⟨t, h, ht, htb, htj, -, hlines⟩ := hold
  have htl : t < points.length := (List.getElem?_eq_some_iff.1 ht).1
  -- the handle that follows in the new contour: the old successor, skipping `b`
  obtain ⟨u, hu, hul, hub, huj, hline⟩ : ∃ (u : Nat) (hu : Handle K), points[u]? = some hu ∧
      u ≠ b ∧ (if u < b then u else u - 1)
        = (if j + 1 = points.length - 1 then 0 else j + 1) ∧
      handle.lines = [hu.id] := by
    rcases hlines with ⟨htk, hl⟩ | ⟨htk, hl⟩
    · -- an old handle other than `k`: its successor is not `b`
      obtain ⟨nx, hnx, hnl⟩ := hS t h ht
      unfold nextOf at hnx
      refine ⟨_, nx, hnx, ?_, ?_, by rw [hl, hnl]⟩
      · subst hbdef
        split_ifs at htb htj ⊢ <;> omega
      · subst hbdef
        split_ifs at htb htj ⊢ <;> omega
    · -- the merged handle: its successor is the handle after `b`
      refine ⟨_, after, hafter, ?_, ?_, hl⟩
      · subst hbdef
        split_ifs at htb htj ⊢ <;> omega
      · subst hbdef
        split_ifs at htb htj ⊢ <;> omega
  obtain ⟨r, hr, hrid⟩ := hkeep u hu hul hub
  rw [huj] at hr
  exact ⟨r, hr, by rw [hline, hrid]⟩

/-- C17. If the `lines` of every handle of the contour refer to its circular
successor, the same holds after `_pushOneHandle` (for every handle `i` and
distance `d`), after `_insertHandleRadially` (for every insertion index
`1 ≤ k + 1 ≤ n`, `addLine` pointing the new handle at the handle that follows
it) and after `_combineHandles` for a handle and its circular successor, the
pair `[n - 1, 0]` included; and all three return. -/
theorem inSync_preserved (dist : Point K → Point K → K) (s : SculptData K)
    (points : List (Handle K)) (hS : InSync points) :
    (∀ (i : Nat) (d : K), i < points.length →
      ∃ points', pushOneHandle s points i d = some points' ∧ InSync points') ∧
    (∀ k : Nat, k < points.length →
      ∃ points', insertHandleRadially dist s points ((k : Int) + 1) = some points' ∧
        InSync points') ∧
    (∀ k : Nat, k < points.length →
      ∃ points',
        combineHandles s points ((k : Int), getNextHandleIndex k points.length)
          = some points' ∧
        InSync points') := by
  refine ⟨?_, ?_, ?_⟩
  · intro i d hi
    obtain ⟨handle, hh⟩ := exists_getElem?_of_lt points i hi
    obtain ⟨pts', hrun, hid, hlines⟩ := pushOneHandle_lines s points i d handle hh hS
    exact ⟨pts', hrun, inSync_congr points pts' hid hlines hS⟩
  · intro k hk
    obtain ⟨p, hp⟩ := exists_getElem?_of_lt points k hk
    exact insertHandleRadially_inSync dist s points k p hp hS
  · intro k hk
    exact combineHandles_inSync s points k hk hS

/-- The triangle of the witness of `inSync_preserved` is in sync. -/
theorem inSync_triangle :
    InSync ([⟨0, 0, 0, [1]⟩, ⟨1, 4, 0, [2]⟩, ⟨2, 0, 3, [0]⟩] : List (Handle ℚ)) := by
  intro i handle hi
  rcases i with _ | _ | _ | i
  · cases hi
    exact ⟨⟨1, 4, 0, [2]⟩, rfl, rfl⟩
  · cases hi
    exact ⟨⟨2, 0, 3, [0]⟩, rfl, rfl⟩
  · cases hi
    exact ⟨⟨0, 0, 0, [1]⟩, rfl, rfl⟩
  · simp at hi

/-- Witness of `inSync_preserved`: the triangle `(0, 0)`, `(4, 0)`, `(0, 3)`,
whose handles 0, 1, 2 point at the handles 1, 2, 0. -/
theorem inSync_preserved_witness :
    (∀ (i : Nat) (d : ℚ),
      i < ([⟨0, 0, 0, [1]⟩, ⟨1, 4, 0, [2]⟩, ⟨2, 0, 3, [0]⟩] : List (Handle ℚ)).length →
      ∃ points',
        pushOneHandle
          ({ image := ⟨10, 10⟩, mousePoint := ⟨0, 0⟩, toolSize := 2, minSpacing := 1,
              maxSpacing := 2 } : SculptData ℚ)
          [⟨0, 0, 0, [1]⟩, ⟨1, 4, 0, [2]⟩, ⟨2, 0, 3, [0]⟩] i d = some points' ∧
        InSync points') ∧
    (∀ k : Nat,
      k < ([⟨0, 0, 0, [1]⟩, ⟨1, 4, 0, [2]⟩, ⟨2, 0, 3, [0]⟩] : List (Handle ℚ)).length →
      ∃ points',
        insertHandleRadially (euclideanDistance Rat.sqrt)
          { image := ⟨10, 10⟩, mousePoint := ⟨0, 0⟩, toolSize := 2, minSpacing := 1,
            maxSpacing := 2 }
          [⟨0, 0, 0, [1]⟩, ⟨1, 4, 0, [2]⟩, ⟨2, 0, 3, [0]⟩] ((k : Int) + 1) = some points' ∧
        InSync points') ∧
    (∀ k : Nat,
      k < ([⟨0, 0, 0, [1]⟩, ⟨1, 4, 0, [2]⟩, ⟨2, 0, 3, [0]⟩] : List (Handle ℚ)).length →
      ∃ points',
        combineHandles
          ({ image := ⟨10, 10⟩, mousePoint := ⟨0, 0⟩, toolSize := 2, minSpacing := 1,
              maxSpacing := 2 } : SculptData ℚ)
          [⟨0, 0, 0, [1]⟩, ⟨1, 4, 0, [2]⟩, ⟨2, 0, 3, [0]⟩]
          ((k : Int), getNextHandleIndex k
            ([⟨0, 0, 0, [1]⟩, ⟨1, 4, 0, [2]⟩, ⟨2, 0, 3, [0]⟩] : List (Handle ℚ)).length)
          = some points' ∧
        InSync points') :=
  inSync_preserved (euclideanDistance Rat.sqrt)
    { image := ⟨10, 10⟩, mousePoint := ⟨0, 0⟩, toolSize := 2, minSpacing := 1,
      maxSpacing := 2 }
    [⟨0, 0, 0, [1]⟩, ⟨1, 4, 0, [2]⟩, ⟨2, 0, 3, [0]⟩] inSync_triangle

end Sync

/-! ## One merge pass against its reference -/

section Pass
variable {K : Type} [LinearOrderedField K]

theorem mergeCloseHandlesLoop_append (s : SculptData K) :
    ∀ (xs ys : List (Int × Int)) (m : Int) (points : List (Handle K)),
      mergeCloseHandlesLoop s (xs ++ ys) m points
        = (mergeCloseHandlesLoop s xs m points).bind
            (mergeCloseHandlesLoop s ys (m + xs.length)) := by
  intro xs
  induction xs with
  | nil =>
    intro ys m points
    simp [mergeCloseHandlesLoop]
  | cons x rest ih =>
    intro ys m points
    simp only [List.cons_append, mergeCloseHandlesLoop, Option.bind_eq_bind]
    cases hc : combineHandles s points (getCorrectedPair x m) with
    | none => simp
    | some pts1 =>
      simp only [Option.some_bind]
      refine (ih ys (m + 1) pts1).trans ?_
      have : m + 1 + (rest.length : Int) = m + ((x :: rest).length : Int) := by
        simp only [List.length_cons]; push_cast; ring
      rw [this]

theorem filterMap_range'_getElem? {α : Type} (P : List α) :
    ∀ (len a : Nat), a + len ≤ P.length →
      (List.range' a len).filterMap (fun i => P[i]?) = (P.drop a).take len := by
  intro len
  induction len with
  | zero => intro a _; simp
  | succ len ih =>
    intro a h
    have ha : a < P.length := by omega
    rw [List.range'_succ, List.filterMap_cons, List.getElem?_eq_getElem ha,
      List.drop_eq_getElem_cons ha, List.take_succ_cons, ih (a + 1) (by omega)]

theorem set_eraseIdx_append {α : Type} (pre : List α) (x y m : α) (rest : List α) :
    ((pre ++ x :: y :: rest).set pre.length m).eraseIdx (pre.length + 1)
      = pre ++ m :: rest := by
  induction pre with
  | nil => simp
  | cons a pre ih => simpa using ih

theorem set_eraseIdx_zero {α : Type} (a : α) (pre : List α) (x m : α) :
    (((a :: pre) ++ [x]).set (a :: pre).length m).eraseIdx 0 = pre ++ [m] := by
  simp only [List.cons_append, List.length_cons, List.set_cons_succ, List.eraseIdx_cons_zero]
  induction pre with
  | nil => simp
  | cons b pre ih => simp

theorem mergedVertex_of_not_mem (s : SculptData K) (O : List (Point K))
    (pairs : List (Int × Int)) (i : Nat)
    (h1 : (getPreviousHandleIndex i O.length, (i : Int)) ∉ pairs)
    (h2 : ((i : Int), getNextHandleIndex i O.length) ∉ pairs) :
    mergedVertex s O pairs i = O[i]? := by
  unfold mergedVertex
  rw [if_neg h1, if_neg h2]

theorem mergedVertex_of_second (s : SculptData K) (O : List (Point K))
    (pairs : List (Int × Int)) (i : Nat)
    (h1 : (getPreviousHandleIndex i O.length, (i : Int)) ∈ pairs) :
    mergedVertex s O pairs i = none := by
  unfold mergedVertex
  rw [if_pos h1]

theorem mergedVertex_of_first (s : SculptData K) (O : List (Point K))
    (pairs : List (Int × Int)) (i : Nat) (a b : Point K)
    (h1 : (getPreviousHandleIndex i O.length, (i : Int)) ∉ pairs)
    (h2 : ((i : Int), getNextHandleIndex i O.length) ∈ pairs)
    (ha : O[i]? = some a) (hb : getAt O (getNextHandleIndex i O.length) = some b) :
    mergedVertex s O pairs i
      = some (clipToBox ⟨(a.x + b.x) / 2, (a.y + b.y) / 2⟩ s.image) := by
  unfold mergedVertex
  rw [if_neg h1, if_pos h2, ha, hb]

theorem mergedVertex_congr (s : SculptData K) (O : List (Point K))
    (pairs pairs' : List (Int × Int)) (i : Nat)
    (h1 : (getPreviousHandleIndex i O.length, (i : Int)) ∈ pairs
      ↔ (getPreviousHandleIndex i O.length, (i : Int)) ∈ pairs')
    (h2 : ((i : Int), getNextHandleIndex i O.length) ∈ pairs
      ↔ ((i : Int), getNextHandleIndex i O.length) ∈ pairs') :
    mergedVertex s O pairs i = mergedVertex s O pairs' i := by
  unfold mergedVertex
  simp only [h1, h2]

/-- One merge of a pair `[k, k + 1]` after `j` merges, when the handles from `k`
on are still those of the contour `O` at scan time: the corrected pair addresses
the handles that were at `k` and `k + 1`. -/
theorem mergeCloseHandlesLoop_step (s : SculptData K) (O pre : List (Handle K)) (k j : Nat)
    (hlen : pre.length + j = k) (hk : k + 1 < O.length) :
    ∃ (handle0 handle1 merged : Handle K),
      O[k]? = some handle0 ∧ O[k + 1]? = some handle1 ∧
      getAt (pre ++ O.drop k) (getCorrectedPair ((k : Int), (k : Int) + 1) j).1
        = some handle0 ∧
      getAt (pre ++ O.drop k) (getCorrectedPair ((k : Int), (k : Int) + 1) j).2
        = some handle1 ∧
      mergeCloseHandlesLoop s [((k : Int), (k : Int) + 1)] j (pre ++ O.drop k)
        = some (pre ++ merged :: O.drop (k + 2)) ∧
      merged.toPoint
        = clipToBox ⟨(handle0.x + handle1.x) / 2, (handle0.y + handle1.y) / 2⟩ s.image := by
  have hcorr : getCorrectedPair ((k : Int), (k : Int) + 1) (j : Int)
      = ((pre.length : Int), ((pre.length + 1 : Nat) : Int)) := by
    unfold getCorrectedPair
    simp only
    have : ¬ ((k : Int) + 1 - (j : Int) < 0) := by omega
    rw [if_neg this]
    congr 1 <;> omega
  have hdrop : O.drop k = O[k] :: O[k + 1] :: O.drop (k + 2) := by
    rw [List.drop_eq_getElem_cons (by omega), List.drop_eq_getElem_cons hk]
  have h0 : (pre ++ O.drop k)[pre.length]? = some O[k] := by
    rw [hdrop, List.getElem?_append_right (le_refl _)]
    simp
  have h1 : (pre ++ O.drop k)[pre.length + 1]? = some O[k + 1] := by
    rw [hdrop, List.getElem?_append_right (by omega)]
    simp
  obtain ⟨merged, hcomb, hpt, -⟩ :=
    combineHandles_spec s (pre ++ O.drop k) pre.length (pre.length + 1) O[k] O[k + 1] h0 h1
  refine ⟨O[k], O[k + 1], merged, List.getElem?_eq_getElem (by omega),
    List.getElem?_eq_getElem hk, ?_, ?_, ?_, hpt⟩
  · rw [hcorr, getAt_natCast]; exact h0
  · rw [hcorr]
    simp only
    rw [getAt_natCast]; exact h1
  · simp only [mergeCloseHandlesLoop, hcorr, Option.bind_eq_bind]
    have hc : ((pre.length : Int), (((pre.length + 1 : Nat)) : Int))
        = (((pre.length : Nat) : Int), ((pre.length + 1 : Nat) : Int)) := rfl
    rw [hcomb]
    simp only [Option.some_bind, Option.some.injEq]
    rw [hdrop]
    exact set_eraseIdx_append pre O[k] O[k + 1] merged (O.drop (k + 2))

/-- The merge of the wrap-around pair `[n - 1, 0]` after `j` merges, when the
first and the last handle are still those of the contour `O` at scan time. -/
theorem mergeCloseHandlesLoop_wrap (s : SculptData K) (O : List (Handle K)) (first : Handle K)
    (pre : List (Handle K)) (j : Nat) (hO : 2 ≤ O.length)
    (hlen : (first :: pre).length + j = O.length - 1) :
    ∃ (handle0 merged : Handle K),
      O[O.length - 1]? = some handle0 ∧
      getAt (first :: pre ++ O.drop (O.length - 1))
          (getCorrectedPair (((O.length - 1 : Nat) : Int), 0) j).1 = some handle0 ∧
      getAt (first :: pre ++ O.drop (O.length - 1))
          (getCorrectedPair (((O.length - 1 : Nat) : Int), 0) j).2 = some first ∧
      mergeCloseHandlesLoop s [(((O.length - 1 : Nat) : Int), 0)] j
          (first :: pre ++ O.drop (O.length - 1))
        = some (pre ++ [merged]) ∧
      merged.toPoint
        = clipToBox ⟨(handle0.x + first.x) / 2, (handle0.y + first.y) / 2⟩ s.image := by
  have hcorr : getCorrectedPair (((O.length - 1 : Nat) : Int), 0) (j : Int)
      = ((((first :: pre).length : Nat) : Int), ((0 : Nat) : Int)) := by
    unfold getCorrectedPair
    simp only
    split_ifs
    · congr 1; omega
    · congr 1 <;> omega
  have hlast : O.length - 1 < O.length := by omega
  have hdrop : O.drop (O.length - 1) = [O[O.length - 1]] := by
    rw [List.drop_eq_getElem_cons hlast]
    have : O.length - 1 + 1 = O.length := by omega
    rw [this, List.drop_length]
  have h0 : (first :: pre ++ O.drop (O.length - 1))[(first :: pre).length]?
      = some O[O.length - 1] := by
    rw [hdrop, List.getElem?_append_right (le_refl _)]
    simp
  have h1 : (first :: pre ++ O.drop (O.length - 1))[0]? = some first := by
    simp
  obtain ⟨merged, hcomb, hpt, -⟩ :=
    combineHandles_spec s (first :: pre ++ O.drop (O.length - 1)) (first :: pre).length 0
      O[O.length - 1] first h0 h1
  refine ⟨O[O.length - 1], merged, List.getElem?_eq_getElem hlast, ?_, ?_, ?_, hpt⟩
  · rw [hcorr, getAt_natCast]; exact h0
  · rw [hcorr]
    simp only
    rw [getAt_natCast]; exact h1
  · simp only [mergeCloseHandlesLoop, hcorr, Option.bind_eq_bind]
    rw [hcomb]
    simp only [Option.some_bind, Option.some.injEq]
    rw [hdrop]
    exact set_eraseIdx_zero first pre O[O.length - 1] merged

theorem mergedVertex_nil (s : SculptData K) (O : List (Point K)) (i : Nat) :
    mergedVertex s O [] i = O[i]? := by
  unfold mergedVertex
  simp

/-- The state of a merge pass after the pairs `ps`, none of them the wrap-around
pair, all of them below the index `t`: the handles from `t` on are still those
of the contour `O` at scan time, and the handles before them are those of the
reference. -/
theorem mergeCloseHandlesLoop_state (s : SculptData K) (O : List (Handle K)) :
    ∀ ps : List (Int × Int),
      ps.Pairwise (fun p q => p.1 + 2 ≤ q.1) →
      (∀ p ∈ ps, ∃ k : Nat, p = ((k : Int), (k : Int) + 1) ∧ k + 1 < O.length) →
      ∀ t : Nat, t ≤ O.length → (∀ p ∈ ps, p.1 + 2 ≤ (t : Int)) →
      ∃ pre, mergeCloseHandlesLoop s ps 0 O = some (pre ++ O.drop t) ∧
        pre.length + ps.length = t ∧
        pre.map Handle.toPoint
          = (List.range' 0 t).filterMap (mergedVertex s (O.map Handle.toPoint) ps) ∧
        ((∀ p ∈ ps, p.1 ≠ 0) → 0 < t → pre[0]? = O[0]?) := by
  intro ps
  induction ps using List.reverseRecOn with
  | nil =>
    intro _ _ t ht _
    refine ⟨O.take t, ?_, ?_, ?_, ?_⟩
    · simp [mergeCloseHandlesLoop]
    · simp [ht]
    · have hf : mergedVertex s (O.map Handle.toPoint) []
          = fun i => (O.map Handle.toPoint)[i]? := by
        funext i
        exact mergedVertex_nil s _ i
      rw [hf, filterMap_range'_getElem? _ t 0 (by simpa using ht)]
      simp [List.map_take]
    · intro _ h0
      exact List.getElem?_take_of_lt h0
  | append_singleton init last ih =>
    intro hpw hform t ht hbelow
    rw [List.pairwise_append] at hpw
    obtain ⟨hpw0, -, hgap⟩ := hpw
    obtain ⟨k, hlast, hk⟩ := hform last (by simp)
    subst hlast
    have hkt : k + 2 ≤ t := by
      have := hbelow ((k : Int), (k : Int) + 1) (by simp)
      simp only at this
      omega
    have hinit : ∀ p ∈ init, ∃ k' : Nat, p = ((k' : Int), (k' : Int) + 1) ∧ k' + 2 ≤ k := by
      intro p hp
      obtain ⟨k', hp', -⟩ := hform p (by simp [hp])
      have := hgap p hp ((k : Int), (k : Int) + 1) (by simp)
      subst hp'
      simp only at this
      exact ⟨k', rfl, by omega⟩
    have hmem : ∀ a b : Int, (a, b) ∈ init →
        ∃ k' : Nat, a = (k' : Int) ∧ b = (k' : Int) + 1 ∧ k' + 2 ≤ k := by
      intro a b hab
      obtain ⟨k', h1, h2⟩ := hinit (a, b) hab
      simp only [Prod.mk.injEq] at h1
      exact ⟨k', h1.1, h1.2, h2⟩
    obtain ⟨pre0, hloop0, hlen0, hmap0, hfirst0⟩ := ih hpw0
      (fun p hp => hform p (by simp [hp])) k (by omega)
      (fun p hp => by
        obtain ⟨k', hp', hk'⟩ := hinit p hp
        subst hp'
        simp only
        omega)
    obtain ⟨handle0, handle1, merged, hh0, hh1, -, -, hstep, hpt⟩ :=
      mergeCloseHandlesLoop_step s O pre0 k init.length hlen0 hk
    refine ⟨pre0 ++ merged :: (O.drop (k + 2)).take (t - (k + 2)), ?_, ?_, ?_, ?_⟩
    · rw [mergeCloseHandlesLoop_append, hloop0]
      simp only [Option.some_bind, zero_add]
      rw [hstep]
      congr 1
      simp only [List.append_assoc, List.cons_append]
      congr 2
      have : O.drop t = (O.drop (k + 2)).drop (t - (k + 2)) := by
        rw [List.drop_drop]
        congr 1
        omega
      rw [this, List.take_append_drop]
    · simp only [List.length_append, List.length_cons, List.length_take, List.length_drop,
        List.length_nil]
      omega
    · have hsplit : List.range' 0 t
          = List.range' 0 k ++ (k :: (k + 1) :: List.range' (k + 2) (t - (k + 2))) := by
        have h1 : List.range' 0 t = List.range' 0 k ++ List.range' (0 + k) (t - k) := by
          rw [List.range'_append_1]
          congr 1
          omega
        rw [h1, zero_add]
        congr 1
        obtain ⟨d, hd⟩ : ∃ d, t - k = d + 2 := ⟨t - k - 2, by omega⟩
        rw [hd, List.range'_succ, List.range'_succ]
        congr 3
        omega
      have hn : (O.map Handle.toPoint).length = O.length := List.length_map _ _
      have hnextk : getNextHandleIndex (k : Int) ((O.map Handle.toPoint).length : Int)
          = (k : Int) + 1 := by
        rw [hn]
        unfold getNextHandleIndex
        split_ifs <;> omega
      rw [hsplit, List.filterMap_append, List.filterMap_cons, List.filterMap_cons]
      -- below `k` the reference is that of `init`
      have hA : (List.range' 0 k).filterMap
            (mergedVertex s (O.map Handle.toPoint) (init ++ [((k : Int), (k : Int) + 1)]))
          = (List.range' 0 k).filterMap (mergedVertex s (O.map Handle.toPoint) init) := by
        apply List.filterMap_congr
        intro i hi
        have hik : i < k := by
          have := (List.mem_range'_1.1 hi).2
          omega
        apply mergedVertex_congr
        · simp only [List.mem_append, List.mem_singleton, Prod.mk.injEq]
          constructor
          · rintro (h | ⟨-, h⟩)
            · exact h
            · omega
          · intro h; exact Or.inl h
        · simp only [List.mem_append, List.mem_singleton, Prod.mk.injEq]
          constructor
          · rintro (h | ⟨h, -⟩)
            · exact h
            · omega
          · intro h; exact Or.inl h
      -- at `k` it is the clipped midpoint
      have hB : mergedVertex s (O.map Handle.toPoint) (init ++ [((k : Int), (k : Int) + 1)]) k
          = some merged.toPoint := by
        rw [hpt]
        apply mergedVertex_of_first s _ _ k handle0.toPoint handle1.toPoint
        · simp only [List.mem_append, List.mem_singleton, Prod.mk.injEq, not_or]
          constructor
          · intro h
            obtain ⟨k', -, h2, h3⟩ := hmem _ _ h
            omega
          · rintro ⟨-, h⟩
            omega
        · rw [hnextk]
          simp
        · exact getElem?_map_toPoint O k handle0 hh0
        · rw [hnextk]
          have : (k : Int) + 1 = ((k + 1 : Nat) : Int) := by omega
          rw [this, getAt_natCast]
          exact getElem?_map_toPoint O (k + 1) handle1 hh1
      -- at `k + 1` the vertex is dropped
      have hC : mergedVertex s (O.map Handle.toPoint) (init ++ [((k : Int), (k : Int) + 1)])
          (k + 1) = none := by
        apply mergedVertex_of_second
        have : getPreviousHandleIndex ((k + 1 : Nat) : Int)
            ((O.map Handle.toPoint).length : Int) = (k : Int) := by
          unfold getPreviousHandleIndex
          split_ifs <;> omega
        rw [this]
        simp
      -- above the pair the vertices are kept
      have hD : (List.range' (k + 2) (t - (k + 2))).filterMap
            (mergedVertex s (O.map Handle.toPoint) (init ++ [((k : Int), (k : Int) + 1)]))
          = (List.range' (k + 2) (t - (k + 2))).filterMap
              (fun i => (O.map Handle.toPoint)[i]?) := by
        apply List.filterMap_congr
        intro i hi
        have hik : k + 2 ≤ i ∧ i < t := by
          have := List.mem_range'_1.1 hi
          omega
        apply mergedVertex_of_not_mem
        · simp only [List.mem_append, List.mem_singleton, Prod.mk.injEq, not_or]
          constructor
          · intro h
            obtain ⟨k', -, h2, h3⟩ := hmem _ _ h
            omega
          · rintro ⟨-, h⟩
            omega
        · simp only [List.mem_append, List.mem_singleton, Prod.mk.injEq, not_or]
          constructor
          · intro h
            obtain ⟨k', h1, -, h3⟩ := hmem _ _ h
            omega
          · rintro ⟨h, -⟩
            omega
      rw [hA, hB, hC, hD, filterMap_range'_getElem? _ _ _ (by rw [hn]; omega), ← hmap0]
      simp [List.map_take, List.map_drop]
    · intro hne h0
      have hk0 : 0 < k := by
        have := hne ((k : Int), (k : Int) + 1) (by simp)
        simp only at this
        omega
      have h1 := hfirst0 (fun p hp => hne p (by simp [hp])) hk0
      have hOl : 0 < O.length := by omega
      have hpre0 : 0 < pre0.length := by
        rw [List.getElem?_eq_getElem hOl] at h1
        exact (List.getElem?_eq_some_iff.1 h1).1
      rw [List.getElem?_append_left hpre0]
      exact h1

/-- The shape of the list that `_findCloseHandlePairs` returns for a contour of
at least 2 handles: the pairs before any given pair are of the form
`[k, k + 1]` and lie at least two indices below it, and the pair itself is of
this form or is the wrap-around pair `[n - 1, 0]`, which is never recorded
together with a pair that starts at index 0. -/
theorem closePairs_shape (dist : Point K → Point K → K) (s : SculptData K)
    (points : List (Handle K)) (i length : Nat) (ps : List (Int × Int))
    (hinv : ClosePairsInv dist s points i length ps) (h2 : 2 ≤ points.length)
    (init rest : List (Int × Int)) (last : Int × Int) (hps : ps = init ++ last :: rest) :
    init.Pairwise (fun p q => p.1 + 2 ≤ q.1) ∧
    (∀ p ∈ init, ∃ k : Nat, p = ((k : Int), (k : Int) + 1) ∧ k + 1 < points.length ∧
      p.1 + 2 ≤ last.1) ∧
    ((∃ k : Nat, last = ((k : Int), (k : Int) + 1) ∧ k + 1 < points.length) ∨
      (last = (((points.length - 1 : Nat) : Int), 0) ∧ ∀ p ∈ init, p.1 ≠ 0)) := by
  have hsorted := hinv.sorted
  rw [hps, List.pairwise_append] at hsorted
  obtain ⟨hpw0, -, hgap⟩ := hsorted
  obtain ⟨k, hlast, hk, -, -⟩ := hinv.pairs last (by rw [hps]; simp)
  refine ⟨hpw0, ?_, ?_⟩
  · intro p hp
    obtain ⟨k', hp', hk', -, -⟩ := hinv.pairs p (by rw [hps]; simp [hp])
    have hg := hgap p hp last (by simp)
    rw [hp', hlast] at hg
    simp only at hg
    refine ⟨k', ?_, by omega, ?_⟩
    · rw [hp']
      congr 1
      unfold getNextHandleIndex
      split_ifs <;> omega
    · rw [hp', hlast]
      simp only
      omega
  · by_cases hkn : k + 1 < points.length
    · left
      refine ⟨k, ?_, hkn⟩
      rw [hlast]
      congr 1
      unfold getNextHandleIndex
      split_ifs <;> omega
    · right
      have hkeq : k = points.length - 1 := by omega
      constructor
      · rw [hlast, hkeq]
        congr 1
        unfold getNextHandleIndex
        split_ifs <;> omega
      · intro p hp h0
        have hz := hinv.zero_mem ⟨p, by rw [hps]; simp [hp], h0⟩
        have hl := hinv.lt_length last (by rw [hps]; simp)
        rw [hlast] at hl
        simp only at hl
        omega

/-- C25. For a contour of at least 2 handles and the list of pairs that
`_findCloseHandlePairs` returns for it: when the merge pass of
`_mergeCloseHandles` comes to its `j`-th pair, after `j` merges, the corrected
pair `_getCorrectedPair(pair, j)` addresses the very two handles that the pair
addressed at scan time, the wrap-around pair `[n - 1, 0]` included; and the pass
as a whole returns the contour of `mergePassReference`: every recorded pair
replaced by its clamped midpoint, computed from the coordinates at scan time,
and all other handles kept in their order. -/
theorem mergeCloseHandlesLoop_reference (dist : Point K → Point K → K) (s : SculptData K)
    (points : List (Handle K)) (h2 : 2 ≤ points.length) :
    ∃ closePairs, findCloseHandlePairs dist s points = some closePairs ∧
      (∀ (j : Nat) (pair : Int × Int), closePairs[j]? = some pair →
        ∃ current handle0 handle1,
          mergeCloseHandlesLoop s (closePairs.take j) 0 points = some current ∧
          getAt points pair.1 = some handle0 ∧ getAt points pair.2 = some handle1 ∧
          getAt current (getCorrectedPair pair j).1 = some handle0 ∧
          getAt current (getCorrectedPair pair j).2 = some handle1) ∧
      ∃ merged, mergeCloseHandlesLoop s closePairs 0 points = some merged ∧
        merged.map Handle.toPoint
          = mergePassReference s (points.map Handle.toPoint) closePairs := by
  obtain ⟨ps, i, length, hfind, -, hinv⟩ := findCloseHandlePairs_inv dist s points
  refine ⟨ps, hfind, ?_, ?_⟩
  · intro j pair hj
    have hjl : j < ps.length := (List.getElem?_eq_some_iff.1 hj).1
    have hsplit : ps = ps.take j ++ pair :: ps.drop (j + 1) := by
      have h1 : ps.drop j = pair :: ps.drop (j + 1) := by
        rw [List.drop_eq_getElem_cons hjl]
        congr 1
        have := List.getElem?_eq_getElem hjl
        rw [hj] at this
        exact (Option.some.inj this).symm
      conv_lhs => rw [← List.take_append_drop j ps, h1]
    obtain ⟨hpw0, hinit, hlast⟩ :=
      closePairs_shape dist s points i length ps hinv h2 _ _ pair hsplit
    have htake : (ps.take j).length = j := by
      rw [List.length_take]; omega
    rcases hlast with ⟨k, rfl, hk⟩ | ⟨rfl, hne⟩
    · obtain ⟨pre, hloop, hlen, -, -⟩ := mergeCloseHandlesLoop_state s points (ps.take j) hpw0
        (fun p hp => by
          obtain ⟨k', h1, h2', -⟩ := hinit p hp
          exact ⟨k', h1, h2'⟩)
        k (by omega)
        (fun p hp => by
          obtain ⟨k', -, -, h3⟩ := hinit p hp
          simpa using h3)
      rw [htake] at hlen
      obtain ⟨handle0, handle1, merged, hh0, hh1, hg0, hg1, -, -⟩ :=
        mergeCloseHandlesLoop_step s points pre k j hlen hk
      refine ⟨pre ++ points.drop k, handle0, handle1, hloop, ?_, ?_, hg0, hg1⟩
      · simp only
        rw [getAt_natCast]; exact hh0
      · simp only
        have : (k : Int) + 1 = ((k + 1 : Nat) : Int) := by omega
        rw [this, getAt_natCast]; exact hh1
    · obtain ⟨pre, hloop, hlen, -, hfirst⟩ :=
        mergeCloseHandlesLoop_state s points (ps.take j) hpw0
          (fun p hp => by
            obtain ⟨k', h1, h2', -⟩ := hinit p hp
            exact ⟨k', h1, h2'⟩)
          (points.length - 1) (by omega)
          (fun p hp => by
            obtain ⟨k', -, -, h3⟩ := hinit p hp
            simpa using h3)
      rw [htake] at hlen
      have hf := hfirst hne (by omega)
      rw [List.getElem?_eq_getElem (by omega : 0 < points.length)] at hf
      cases pre with
      | nil => simp at hf
      | cons first pre' =>
        simp only [List.getElem?_cons_zero, Option.some.injEq] at hf
        obtain ⟨handle0, merged, hh0, hg0, hg1, -, -⟩ :=
          mergeCloseHandlesLoop_wrap s points first pre' j h2 hlen
        refine ⟨first :: pre' ++ points.drop (points.length - 1), handle0, first, hloop, ?_, ?_,
          hg0, hg1⟩
        · simp only
          rw [getAt_natCast]; exact hh0
        · simp only
          rw [getAt_zero, hf]
          exact List.getElem?_eq_getElem (by omega)
  · unfold mergePassReference
    rw [List.range_eq_range']
    have hn : (points.map Handle.toPoint).length = points.length := List.length_map _ _
    rcases List.eq_nil_or_concat ps with hnil | ⟨init, last, hcat⟩
    · subst hnil
      refine ⟨points, rfl, ?_⟩
      have hf : mergedVertex s (points.map Handle.toPoint) []
          = fun i => (points.map Handle.toPoint)[i]? := by
        funext i
        exact mergedVertex_nil s _ i
      rw [hf, filterMap_range'_getElem? _ _ 0 (by omega)]
      simp
    · rw [List.concat_eq_append] at hcat
      have hcat' : ps = init ++ last :: [] := hcat
      obtain ⟨hpw0, hinit, hlast⟩ :=
        closePairs_shape dist s points i length ps hinv h2 init [] last hcat'
      rcases hlast with ⟨k, hl, hk⟩ | ⟨hl, hne⟩
      · -- no wrap-around pair: the prefix lemma for the whole list
        obtain ⟨pre, hloop, -, hmap, -⟩ := mergeCloseHandlesLoop_state s points ps hinv.sorted
          (fun p hp => by
            rw [hcat] at hp
            rcases List.mem_append.1 hp with hp | hp
            · obtain ⟨k', h1, h2', -⟩ := hinit p hp
              exact ⟨k', h1, h2'⟩
            · simp only [List.mem_singleton] at hp
              exact ⟨k, by rw [hp, hl], hk⟩)
          points.length (le_refl _)
          (fun p hp => by
            rw [hcat] at hp
            rcases List.mem_append.1 hp with hp | hp
            · obtain ⟨k', h1, h2', -⟩ := hinit p hp
              rw [h1]
              simp only
              omega
            · simp only [List.mem_singleton] at hp
              rw [hp, hl]
              simp only
              omega)
        rw [List.drop_length, List.append_nil] at hloop
        exact ⟨pre, hloop, by rw [hmap, hn]⟩
      · -- the wrap-around pair comes last
        obtain ⟨pre, hloop, hlen, hmap, hfirst⟩ :=
          mergeCloseHandlesLoop_state s points init hpw0
            (fun p hp => by
              obtain ⟨k', h1, h2', -⟩ := hinit p hp
              exact ⟨k', h1, h2'⟩)
            (points.length - 1) (by omega)
            (fun p hp => by
              obtain ⟨k', -, -, h3⟩ := hinit p hp
              rw [hl] at h3
              simpa using h3)
        have hf := hfirst hne (by omega)
        rw [List.getElem?_eq_getElem (by omega : 0 < points.length)] at hf
        cases pre with
        | nil => simp at hf
        | cons first pre' =>
          simp only [List.getElem?_cons_zero, Option.some.injEq] at hf
          obtain ⟨handle0, merged, hh0, -, -, hstep, hpt⟩ :=
            mergeCloseHandlesLoop_wrap s points first pre' init.length h2 hlen
          refine ⟨pre' ++ [merged], ?_, ?_⟩
          · rw [hcat, mergeCloseHandlesLoop_append, hloop]
            simp only [Option.some_bind, zero_add]
            rw [hl]
            exact hstep
          · -- the reference, index by index
            have hmemi : ∀ a b : Int, (a, b) ∈ init →
                ∃ k' : Nat, a = (k' : Int) ∧ b = (k' : Int) + 1 ∧ k' + 3 ≤ points.length
                  ∧ k' ≠ 0 := by
              intro a b hab
              obtain ⟨k', h1, -, h3⟩ := hinit (a, b) hab
              have h0 := hne (a, b) hab
              rw [hl] at h3
              simp only [Prod.mk.injEq] at h1
              simp only at h3 h0
              exact ⟨k', h1.1, h1.2, by omega, by omega⟩
            have hrange : List.range' 0 points.length
                = 0 :: (List.range' 1 (points.length - 2) ++ [points.length - 1]) := by
              obtain ⟨d, hd⟩ : ∃ d, points.length = d + 2 := ⟨points.length - 2, by omega⟩
              rw [hd, List.range'_succ]
              congr 1
              have : d + 2 - 2 = d := by omega
              rw [this, List.range'_concat]
              congr 2
              omega
            have hrange0 : List.range' 0 (points.length - 1)
                = 0 :: List.range' 1 (points.length - 2) := by
              obtain ⟨d, hd⟩ : ∃ d, points.length = d + 2 := ⟨points.length - 2, by omega⟩
              rw [hd]
              have : d + 2 - 1 = d + 1 := by omega
              rw [this, List.range'_succ]
              congr 2
            have hmid : ∀ i ∈ List.range' 1 (points.length - 2),
                mergedVertex s (points.map Handle.toPoint) ps i
                  = mergedVertex s (points.map Handle.toPoint) init i := by
              intro i hi
              have hi' : 1 ≤ i ∧ i + 1 < points.length := by
                have := List.mem_range'_1.1 hi
                omega
              rw [hcat, hl]
              apply mergedVertex_congr
              · simp only [List.mem_append, List.mem_singleton, Prod.mk.injEq]
                constructor
                · rintro (h | ⟨-, h⟩)
                  · exact h
                  · omega
                · intro h; exact Or.inl h
              · simp only [List.mem_append, List.mem_singleton, Prod.mk.injEq]
                constructor
                · rintro (h | ⟨h, -⟩)
                  · exact h
                  · omega
                · intro h; exact Or.inl h
            have hzero : mergedVertex s (points.map Handle.toPoint) ps 0 = none := by
              apply mergedVertex_of_second
              rw [hcat, hl, hn]
              have : getPreviousHandleIndex ((0 : Nat) : Int) (points.length : Int)
                  = ((points.length - 1 : Nat) : Int) := by
                unfold getPreviousHandleIndex
                split_ifs <;> omega
              rw [this]
              simp
            have hzero0 : mergedVertex s (points.map Handle.toPoint) init 0
                = some first.toPoint := by
              rw [mergedVertex_of_not_mem, List.getElem?_map,
                List.getElem?_eq_getElem (by omega : 0 < points.length), ← hf]
              · rfl
              · intro h
                obtain ⟨k', -, h2', -, -⟩ := hmemi _ _ h
                omega
              · intro h
                obtain ⟨k', h1', -, -, h4⟩ := hmemi _ _ h
                omega
            have hlastv : mergedVertex s (points.map Handle.toPoint) ps (points.length - 1)
                = some merged.toPoint := by
              rw [hpt]
              have hnx : getNextHandleIndex ((points.length - 1 : Nat) : Int)
                  ((points.map Handle.toPoint).length : Int) = 0 := by
                rw [hn]
                unfold getNextHandleIndex
                split_ifs <;> omega
              apply mergedVertex_of_first s _ _ _ handle0.toPoint first.toPoint
              · rw [hcat, hl]
                simp only [List.mem_append, List.mem_singleton, Prod.mk.injEq, not_or]
                constructor
                · intro h
                  obtain ⟨k', -, h2', h3', -⟩ := hmemi _ _ h
                  omega
                · rintro ⟨-, h⟩
                  omega
              · rw [hnx, hcat, hl]
                simp
              · exact getElem?_map_toPoint points _ handle0 hh0
              · rw [hnx, getAt_zero, List.getElem?_map,
                  List.getElem?_eq_getElem (by omega : 0 < points.length), ← hf]
                rfl
            rw [hrange0, List.filterMap_cons, hzero0] at hmap
            simp only [List.map_cons, List.cons.injEq, true_and] at hmap
            rw [hn, hrange, List.filterMap_cons, hzero, List.filterMap_append,
              List.filterMap_congr hmid, ← hmap]
            simp [hlastv]

/-- Witness of `mergeCloseHandlesLoop_reference`: a pentagon with two handles
`1 / 2` apart and `minSpacing = 1`. -/
theorem mergeCloseHandlesLoop_reference_witness :
    ∃ closePairs,
      findCloseHandlePairs (euclideanDistance Rat.sqrt)
        { image := ⟨20, 20⟩, mousePoint := ⟨0, 0⟩, toolSize := 1, minSpacing := 1,
          maxSpacing := 2 }
        [⟨0, 0, 0, [1]⟩, ⟨1, 5, 0, [2]⟩, ⟨2, 5, 1 / 2, [3]⟩, ⟨3, 5, 5, [4]⟩, ⟨4, 0, 5, [0]⟩]
        = some closePairs ∧
      (∀ (j : Nat) (pair : Int × Int), closePairs[j]? = some pair →
        ∃ current handle0 handle1,
          mergeCloseHandlesLoop
            ({ image := ⟨20, 20⟩, mousePoint := ⟨0, 0⟩, toolSize := 1, minSpacing := 1,
                maxSpacing := 2 } : SculptData ℚ)
            (closePairs.take j) 0
            [⟨0, 0, 0, [1]⟩, ⟨1, 5, 0, [2]⟩, ⟨2, 5, 1 / 2, [3]⟩, ⟨3, 5, 5, [4]⟩,
              ⟨4, 0, 5, [0]⟩] = some current ∧
          getAt [⟨0, 0, 0, [1]⟩, ⟨1, 5, 0, [2]⟩, ⟨2, 5, 1 / 2, [3]⟩, ⟨3, 5, 5, [4]⟩,
              ⟨4, 0, 5, [0]⟩] pair.1 = some handle0 ∧
          getAt [⟨0, 0, 0, [1]⟩, ⟨1, 5, 0, [2]⟩, ⟨2, 5, 1 / 2, [3]⟩, ⟨3, 5, 5, [4]⟩,
              ⟨4, 0, 5, [0]⟩] pair.2 = some handle1 ∧
          getAt current (getCorrectedPair pair j).1 = some handle0 ∧
          getAt current (getCorrectedPair pair j).2 = some handle1) ∧
      ∃ merged,
        mergeCloseHandlesLoop
          ({ image := ⟨20, 20⟩, mousePoint := ⟨0, 0⟩, toolSize := 1, minSpacing := 1,
              maxSpacing := 2 } : SculptData ℚ)
          closePairs 0
          [⟨0, 0, 0, [1]⟩, ⟨1, 5, 0, [2]⟩, ⟨2, 5, 1 / 2, [3]⟩, ⟨3, 5, 5, [4]⟩, ⟨4, 0, 5, [0]⟩]
          = some merged ∧
        merged.map Handle.toPoint
          = mergePassReference
            ({ image := ⟨20, 20⟩, mousePoint := ⟨0, 0⟩, toolSize := 1, minSpacing := 1,
                maxSpacing := 2 } : SculptData ℚ)
            (([⟨0, 0, 0, [1]⟩, ⟨1, 5, 0, [2]⟩, ⟨2, 5, 1 / 2, [3]⟩, ⟨3, 5, 5, [4]⟩,
              ⟨4, 0, 5, [0]⟩] : List (Handle ℚ)).map Handle.toPoint) closePairs :=
  mergeCloseHandlesLoop_reference (euclideanDistance Rat.sqrt)
    { image := ⟨20, 20⟩, mousePoint := ⟨0, 0⟩, toolSize := 1, minSpacing := 1, maxSpacing := 2 }
    [⟨0, 0, 0, [1]⟩, ⟨1, 5, 0, [2]⟩, ⟨2, 5, 1 / 2, [3]⟩, ⟨3, 5, 5, [4]⟩, ⟨4, 0, 5, [0]⟩]
    (by decide)

end Pass

/-! ## The box of the image and the division by zero -/

/-- C27 (the code at the failing input). The triangle `(0, 0)`, `(4, 0)`,
`(0, 3)` lies in the box of a 10 by 10 image.  With the cursor on the handle at
`(0, 0)`, a brush of radius `2` and `minSpacing = 1`, `_pushHandles` calls
`_pushOneHandle` with the distance `0`; the position it computes is
`(NaN, NaN)`, `clipToBox` leaves it so, and the rest of the `_sculpt` step (a
handle is inserted at `(2, 3 / 2)`, nothing is merged) keeps it: after the step
handle 0 has the coordinates `(NaN, NaN)`, which are neither `≥ 0` nor
`≤ 10`. -/
theorem sculpt_leaves_box_at_centre :
    sculpt (euclideanDistance JsNumber.sqrt)
        { minSpacing := 1, maxSpacing := none, showCursorOnHover := true,
          limitRadiusOutsideRegion := true, hoverCursorFadeAlpha := 1 / 2,
          hoverCursorFadeDistance := 6 / 5 }
        2 ⟨10, 10⟩ ⟨0, 0⟩ [⟨0, 0, 0, [1]⟩, ⟨1, 4, 0, [2]⟩, ⟨2, 0, 3, [0]⟩]
      = some [⟨0, JsNumber.nan, JsNumber.nan, [1]⟩, ⟨1, 4, 0, [3]⟩,
          ⟨3, 2, 3 / 2, [2]⟩, ⟨2, 0, 3, [0]⟩] ∧
    clipToBox (⟨JsNumber.nan, JsNumber.nan⟩ : Point JsNumber) ⟨10, 10⟩
      = ⟨JsNumber.nan, JsNumber.nan⟩ ∧
    ¬ ((0 : JsNumber) ≤ JsNumber.nan) ∧ ¬ (JsNumber.nan ≤ (10 : JsNumber)) := by
  decide!

/-! ## The setters and `NaN` -/

/-- C22 (the code at the failing input). `typeof NaN` is `'number'`, so neither
setter throws on `NaN`.  `Math.min(NaN, 1.0)` and `Math.max(NaN, 0.0)` are
`NaN`, so the `hoverCursorFadeAlpha` setter stores `NaN`, which is neither
`≥ 0` nor `≤ 1`; and `Math.max(NaN, 1.0)` is `NaN`, so the
`hoverCursorFadeDistance` setter stores `NaN`, which is not `≥ 1`. -/
theorem set_hoverCursorFade_nan :
    (JsValue.number JsNumber.nan).isNumber = true ∧
    (set_hoverCursorFadeAlpha
        ({ minSpacing := 1, maxSpacing := none, showCursorOnHover := true,
            limitRadiusOutsideRegion := true, hoverCursorFadeAlpha := 1 / 2,
            hoverCursorFadeDistance := 6 / 5 } : Configuration JsNumber)
        (JsValue.number JsNumber.nan)).threw = false ∧
    (set_hoverCursorFadeAlpha
        ({ minSpacing := 1, maxSpacing := none, showCursorOnHover := true,
            limitRadiusOutsideRegion := true, hoverCursorFadeAlpha := 1 / 2,
            hoverCursorFadeDistance := 6 / 5 } : Configuration JsNumber)
        (JsValue.number JsNumber.nan)).configuration.hoverCursorFadeAlpha
      = JsNumber.nan ∧
    (set_hoverCursorFadeDistance
        ({ minSpacing := 1, maxSpacing := none, showCursorOnHover := true,
            limitRadiusOutsideRegion := true, hoverCursorFadeAlpha := 1 / 2,
            hoverCursorFadeDistance := 6 / 5 } : Configuration JsNumber)
        (JsValue.number JsNumber.nan)).threw = false ∧
    (set_hoverCursorFadeDistance
        ({ minSpacing := 1, maxSpacing := none, showCursorOnHover := true,
            limitRadiusOutsideRegion := true, hoverCursorFadeAlpha := 1 / 2,
            hoverCursorFadeDistance := 6 / 5 } : Configuration JsNumber)
        (JsValue.number JsNumber.nan)).configuration.hoverCursorFadeDistance
      = JsNumber.nan ∧
    ¬ ((0 : JsNumber) ≤ JsNumber.nan) ∧ ¬ (JsNumber.nan ≤ (1 : JsNumber)) ∧
    ¬ ((1 : JsNumber) ≤ JsNumber.nan) := by
  decide!

end FreehandSculpterMouseTool
